import Mathlib

/-!
# audit-sentinel-config: a verification development

A shallow embedding of the sentinel configuration auditor (`src/main.go`), of
the parser copy in `src/commands/common.go` and of the reply decoder and the
master address query of the vendored client library
(`libredis/client/sentinel.go`).

Conventions of the embedding

* Go `string` is `String`; the only string operations the program uses are
  concatenation, (in)equality with another string and the test against `""`.
* Go `int` / `int64` are `Int`; the platform is taken to be 64 bit, so `int`
  and `int64` coincide and the only place where the width matters is the
  range check of `strconv.ParseInt`, which is modelled explicitly.
* Go `map[K]V` is an association list with at most one binding per key
  (`GoMap`); a nil map is `none` in an `Option (GoMap K V)` where the program
  distinguishes nil from empty.
* The global variables `lsconf` and `masterIPtoPodMapping` are passed
  explicitly.  Network dials are an oracle argument.
-/

namespace AuditSentinel

/-! ## Go maps -/

/-- A Go map as an association list; every key is bound at most once. -/
abbrev GoMap (K V : Type) := List (K × V)

section GoMap
variable {K V : Type} [DecidableEq K]

/-- The comma-ok read `v, ok := m[k]`. -/
def mapLookup : GoMap K V → K → Option V
  | [], _ => none
  | (k', v) :: rest, k => if k' = k then some v else mapLookup rest k

/-- The `ok` of `_, ok := m[k]`. -/
def mapHas (m : GoMap K V) (k : K) : Bool := (mapLookup m k).isSome

/-- The plain read `m[k]`: the zero value of `V` when the key is absent. -/
def mapGet [Inhabited V] (m : GoMap K V) (k : K) : V := (mapLookup m k).getD default

/-- The assignment `m[k] = v`. -/
def mapStore : GoMap K V → K → V → GoMap K V
  | [], k, v => [(k, v)]
  | (k', v') :: rest, k, v =>
    if k' = k then (k, v) :: rest else (k', v') :: mapStore rest k v

/-- The builtin `delete(m, k)`. -/
def mapDelete : GoMap K V → K → GoMap K V
  | [], _ => []
  | (k', v') :: rest, k => if k' = k then rest else (k', v') :: mapDelete rest k

/-- The builtin `len(m)`. -/
def mapLen (m : GoMap K V) : Nat := m.length

/-- The keys of a map. -/
def mapKeys (m : GoMap K V) : List K := m.map Prod.fst

/-- The values of a map. -/
def mapValues (m : GoMap K V) : List V := m.map Prod.snd

/-- The representation invariant of a Go map: no key is bound twice. -/
def mapWF (m : GoMap K V) : Prop := (mapKeys m).Nodup

instance (m : GoMap K V) : Decidable (mapWF m) :=
  inferInstanceAs (Decidable (mapKeys m).Nodup)

end GoMap

/-! ## `strconv` -/

/-- The two error kinds of `strconv.NumError`. -/
inductive NumError where
  | ErrSyntax
  | ErrRange
  deriving DecidableEq, Repr

/-- Value of `cutoff64(10)` in `strconv.ParseUint`: the least `n` with
`n * 10` overflowing `uint64`. -/
def cutoff64 : Nat := (2 ^ 64 - 1) / 10 + 1

/-- Value of `1<<64 - 1`. -/
def maxUint64 : Nat := 2 ^ 64 - 1

/-- The digit loop of `strconv.ParseUint(s, 10, 64)` with accumulator `n`.
For base 10 every byte outside `'0'..'9'` is a syntax error (letters denote
values of at least 10, which is not below the base). -/
def parseUintLoop : List Char → Nat → Nat × Option NumError
  | [], n => (n, none)
  | d :: rest, n =>
    if '0' ≤ d ∧ d ≤ '9' then
      let v := d.toNat - '0'.toNat
      if n ≥ cutoff64 then
        -- n*base overflows
        (maxUint64, some NumError.ErrRange)
      else
        let n10 := n * 10
        let n1 := (n10 + v) % 2 ^ 64
        if n1 < n10 ∨ n1 > maxUint64 then
          -- n+v overflows
          (maxUint64, some NumError.ErrRange)
        else parseUintLoop rest n1
    else (0, some NumError.ErrSyntax)

/-- Model of `strconv.ParseUint(s, 10, 64)` on the bytes of `s`. -/
def ParseUint (s : List Char) : Nat × Option NumError :=
  if s.length < 1 then (0, some NumError.ErrSyntax) else parseUintLoop s 0

/-- Model of `strconv.ParseInt(s, 10, 64)`: value and error. -/
def ParseInt (s : String) : Int × Option NumError :=
  match s.data with
  | [] => (0, some NumError.ErrSyntax)
  | c :: cs =>
    let neg : Bool := c = '-'
    let body : List Char := if c = '+' then cs else if c = '-' then cs else c :: cs
    match ParseUint body with
    | (_, some NumError.ErrSyntax) => (0, some NumError.ErrSyntax)
    | (un, _) =>
      let cutoff : Nat := 2 ^ 63
      if !neg && decide (un ≥ cutoff) then ((cutoff : Int) - 1, some NumError.ErrRange)
      else if neg && decide (un > cutoff) then (-(cutoff : Int), some NumError.ErrRange)
      else (if neg then -(un : Int) else (un : Int), none)

/-- Model of `strconv.Atoi(s)`, which is `ParseInt(s, 10, 0)` converted to `int`. -/
def Atoi (s : String) : Int × Option NumError := ParseInt s

/-- Rendering of `fmt.Sprintf("%s:%d", host, port)`. -/
def sprintfAddr (host : String) (port : Int) : String := host ++ ":" ++ toString port

/-- A base-10 integer literal: an optional sign followed by one or more ASCII digits. -/
def isIntString (s : String) : Bool :=
  match s.data with
  | [] => false
  | c :: cs =>
    let body : List Char := if c = '+' then cs else if c = '-' then cs else c :: cs
    !body.isEmpty && body.all (fun d => decide ('0' ≤ d ∧ d ≤ '9'))

/-- Horner evaluation of a list of decimal digits from the accumulator `n`. -/
def decFrom (n : Nat) (ds : List Char) : Nat :=
  ds.foldl (fun acc d => acc * 10 + (d.toNat - '0'.toNat)) n

/-- The natural number denoted by a list of decimal digits. -/
def decValue (ds : List Char) : Nat := decFrom 0 ds

/-- The integer denoted by a base-10 integer literal. -/
def intValue (s : String) : Int :=
  match s.data with
  | [] => 0
  | c :: cs =>
    let neg : Bool := c = '-'
    let body : List Char := if c = '+' then cs else if c = '-' then cs else c :: cs
    if neg then -(decValue body : Int) else (decValue body : Int)

/-- The part of `ParseInt` that follows the call of `ParseUint`, as a function
of the sign and of what `ParseUint` returned. -/
def signedOfUint (neg : Bool) (r : Nat × Option NumError) : Int × Option NumError :=
  match r with
  | (_, some NumError.ErrSyntax) => (0, some NumError.ErrSyntax)
  | (un, _) =>
    let cutoff : Nat := 2 ^ 63
    if !neg && decide (un ≥ cutoff) then ((cutoff : Int) - 1, some NumError.ErrRange)
    else if neg && decide (un > cutoff) then (-(cutoff : Int), some NumError.ErrRange)
    else (if neg then -(un : Int) else (un : Int), none)

/-! ## The topology model (`src/main.go`) -/

/-- The finding kinds (`ConfigIssue` constants). -/
inductive ConfigIssue where
  | NOTENOUGHSENTINELS
  | NOQUORUM
  | NOSLAVES
  | NOVALIDSLAVES
  | HASINVALIDSENTINELS
  | DUPLICATEMASTERIP
  | DUPLICATESLAVEIP
  deriving DecidableEq, Repr

/-- Go struct `SentinelPodConfig`; the defaults are the Go zero values
(a nil map is `none`, a nil slice is the empty list). -/
structure SentinelPodConfig where
  IP : String := ""
  Port : Int := 0
  Quorum : Int := 0
  Name : String := ""
  AuthToken : String := ""
  Sentinels : Option (GoMap String String) := none
  Slaves : List String := []
  ConfirmedSentinels : Option (GoMap String String) := none
  InvalidSentinels : Option (GoMap String String) := none
  deriving DecidableEq, Repr

instance : Inhabited SentinelPodConfig := ⟨{}⟩

/-- Go struct `LocalSentinelConfig`.  `ManagedPodConfigs` and `KnownSentinels`
are made by `LoadSentinelConfigFile` and `ConfigIssueMapping` by `main` before
anything writes to them, so they are never nil where the model uses them;
`InvalidSentinels` is nil until `sentinelAvailable` makes it. -/
structure LocalSentinelConfig where
  Name : String := ""
  Host : String := ""
  Port : Int := 0
  ManagedPodConfigs : GoMap String SentinelPodConfig := []
  Dir : String := ""
  KnownSentinels : GoMap String String := []
  InvalidSentinels : Option (GoMap String String) := none
  ConfigIssueMapping : GoMap ConfigIssue (List SentinelPodConfig) := []
  deriving DecidableEq, Repr

/-- What the program writes to its log and to standard output, and the
connections it attempts, as structured events (the texts are not modelled). -/
inductive Event where
  | dial (address password : String)
  | ping (address : String)
  | unhandledSentinelDirective (entries : List String)
  | misshapenSentinelDirective (line : String)
  | unhandledConfigDirective (line : String)
  | listeningOn (host : String)
  | fileLoadComplete
  | lookingForDuplicatedMasterIPs
  | lookingForDuplicatedSlaveIPs
  | foundDuplicateMaster (opod pod ip : String)
  | recommendDeleting (pod ip : String)
  | foundDuplicateSlave (opod pod slave : String)
  | foundDuplicateSlaveMaster (slave opod pod : String)
  | print (text : String)
  deriving DecidableEq, Repr

/-- The package-level variables of `main.go` together with the event trace.
`masterIPtoPodMapping` is nil (read as empty) until `FindDupeMasterIPs` makes it. -/
structure World where
  lsconf : LocalSentinelConfig := {}
  masterIPtoPodMapping : GoMap String SentinelPodConfig := []
  trace : List Event := []
  deriving DecidableEq, Repr

/-- Run-time panics the parser can raise. -/
inductive Panic where
  | indexOutOfRange
  | assignmentToEntryInNilMap
  deriving DecidableEq, Repr

/-- The slice index expression `entries[i]`. -/
def index (entries : List String) (i : Nat) : Except Panic String :=
  match entries[i]? with
  | some s => Except.ok s
  | none => Except.error Panic.indexOutOfRange

/-- The builtin `len` on a possibly nil map. -/
def lenMap {K V : Type} (m : Option (GoMap K V)) : Nat :=
  match m with
  | none => 0
  | some m => m.length

/-- Function `extractSentinelDirective` of `src/main.go`.  The result is the
updated world and the returned `error` (`none` is nil).

In `known-sentinel` the statement `pc.Sentinels[sentinel_address] = ""` writes
through the map reference that the copy `pc` shares with the stored entry, so
the stored entry is the one updated. -/
def extractSentinelDirective (w : World) (entries : List String) :
    Except Panic (World × Option String) := do
  let e0 ← index entries 0
  if e0 = "monitor" then
    let pname ← index entries 1
    let e3 ← index entries 3
    let port := (Atoi e3).1
    let e4 ← index entries 4
    let quorum := (Atoi e4).1
    let e2 ← index entries 2
    let spc : SentinelPodConfig := { Name := pname, IP := e2, Port := port, Quorum := quorum }
    let spc := { spc with Sentinels := some [] }
    let addr := sprintfAddr e2 port
    let addrExists := mapHas w.lsconf.ManagedPodConfigs addr
    if !addrExists then
      let k ← index entries 1
      return ({ w with lsconf := { w.lsconf with
        ManagedPodConfigs := mapStore w.lsconf.ManagedPodConfigs k spc } }, none)
    else
      return (w, none)
  else if e0 = "auth-pass" then
    let pname ← index entries 1
    let pc := mapGet w.lsconf.ManagedPodConfigs pname
    let e2 ← index entries 2
    let pc := { pc with AuthToken := e2 }
    return ({ w with lsconf := { w.lsconf with
      ManagedPodConfigs := mapStore w.lsconf.ManagedPodConfigs pname pc } }, none)
  else if e0 = "known-sentinel" then
    let podname ← index entries 1
    let e2 ← index entries 2
    let e3 ← index entries 3
    let sentinel_address := e2 ++ ":" ++ e3
    let pc := mapGet w.lsconf.ManagedPodConfigs podname
    match pc.Sentinels with
    | none => throw Panic.assignmentToEntryInNilMap
    | some sentinels =>
      let pc := { pc with Sentinels := some (mapStore sentinels sentinel_address "") }
      let lsconf := { w.lsconf with
        ManagedPodConfigs := mapStore w.lsconf.ManagedPodConfigs podname pc }
      let isMe : Bool := sentinel_address = lsconf.Name
      if !isMe then
        return ({ w with lsconf := { lsconf with
          KnownSentinels := mapStore lsconf.KnownSentinels sentinel_address sentinel_address } },
          none)
      else
        return ({ w with lsconf := lsconf }, none)
  else if e0 = "known-slave" then
    let podname ← index entries 1
    let e2 ← index entries 2
    let e3 ← index entries 3
    let slave := e2 ++ ":" ++ e3
    let pc := mapGet w.lsconf.ManagedPodConfigs podname
    let pc := { pc with Slaves := pc.Slaves ++ [slave] }
    return ({ w with lsconf := { w.lsconf with
      ManagedPodConfigs := mapStore w.lsconf.ManagedPodConfigs podname pc } }, none)
  else if e0 = "config-epoch" ∨ e0 = "leader-epoch" ∨ e0 = "current-epoch"
      ∨ e0 = "down-after-milliseconds" ∨ e0 = "maxclients" then
    return (w, none)
  else
    return ({ w with trace := w.trace ++ [Event.unhandledSentinelDirective entries] }, none)

/-- Method `(*SentinelPodConfig).ConfigIssues` of `src/main.go`. -/
def ConfigIssues (pc : SentinelPodConfig) : List ConfigIssue :=
  let issues : List ConfigIssue := []
  let issues :=
    if lenMap pc.InvalidSentinels > 0 then issues ++ [ConfigIssue.HASINVALIDSENTINELS]
    else issues
  let issues :=
    if (lenMap pc.ConfirmedSentinels : Int) < pc.Quorum then issues ++ [ConfigIssue.NOQUORUM]
    else issues
  let issues :=
    if (lenMap pc.ConfirmedSentinels : Int) < pc.Quorum then
      issues ++ [ConfigIssue.NOTENOUGHSENTINELS]
    else issues
  issues

/-- The statement `lsconf.ConfigIssueMapping[issue] = append(lsconf.ConfigIssueMapping[issue], v)`. -/
def appendIssue (w : World) (issue : ConfigIssue) (v : SentinelPodConfig) : World :=
  { w with lsconf := { w.lsconf with
      ConfigIssueMapping :=
        mapStore w.lsconf.ConfigIssueMapping issue
          (mapGet w.lsconf.ConfigIssueMapping issue ++ [v]) } }

/-- Appends an event to the trace. -/
def emit (w : World) (e : Event) : World := { w with trace := w.trace ++ [e] }

/-- Body of the `range` loop of `FindDupeMasterIPs` for the pod `v`;
`dial address password` tells whether `client.DialWithConfig` succeeds. -/
def dupeMasterStep (dial : String → String → Bool) (w : World) (v : SentinelPodConfig) :
    World :=
  match mapLookup w.masterIPtoPodMapping v.IP with
  | some opod =>
    let w := emit w (Event.foundDuplicateMaster opod.Name v.Name v.IP)
    let w := appendIssue w ConfigIssue.DUPLICATEMASTERIP v
    let w := appendIssue w ConfigIssue.DUPLICATEMASTERIP opod
    -- test v
    let w := emit w (Event.dial (sprintfAddr v.IP v.Port) v.AuthToken)
    if !dial (sprintfAddr v.IP v.Port) v.AuthToken then
      emit w (Event.recommendDeleting v.Name v.IP)
    else
      -- test opod
      let w := emit w (Event.dial (sprintfAddr opod.IP opod.Port) opod.AuthToken)
      if !dial (sprintfAddr opod.IP opod.Port) opod.AuthToken then
        emit w (Event.recommendDeleting opod.Name opod.IP)
      else w
  | none => { w with masterIPtoPodMapping := mapStore w.masterIPtoPodMapping v.IP v }

/-- Function `FindDupeMasterIPs` of `src/main.go`; `order` is the sequence of
values that `range lsconf.ManagedPodConfigs` visits (Go leaves the order
unspecified). -/
def FindDupeMasterIPs (dial : String → String → Bool) (order : List SentinelPodConfig)
    (w : World) : World :=
  let w := emit w Event.lookingForDuplicatedMasterIPs
  let w := { w with masterIPtoPodMapping := [] }
  order.foldl (dupeMasterStep dial) w

/-- Body of the inner loop of `FindDupeSlaveIPs` for the pod `v` and one of
its slaves; the second component is the local `slaveIPtoPodMapping`. -/
def dupeSlaveStep (v : SentinelPodConfig) (st : World × GoMap String SentinelPodConfig)
    (slave : String) : World × GoMap String SentinelPodConfig :=
  let w := st.1
  let slaveIPtoPodMapping := st.2
  let st1 : World × GoMap String SentinelPodConfig :=
    match mapLookup slaveIPtoPodMapping slave with
    | some opod =>
      let w := emit w (Event.foundDuplicateSlave opod.Name v.Name slave)
      let w := appendIssue w ConfigIssue.DUPLICATESLAVEIP v
      let w := appendIssue w ConfigIssue.DUPLICATESLAVEIP opod
      (w, slaveIPtoPodMapping)
    | none => (w, mapStore slaveIPtoPodMapping slave v)
  let w := st1.1
  let slaveIPtoPodMapping := st1.2
  match mapLookup w.masterIPtoPodMapping slave with
  | some opod =>
    let w := emit w (Event.foundDuplicateSlaveMaster slave opod.Name v.Name)
    let w := appendIssue w ConfigIssue.DUPLICATESLAVEIP v
    let w := appendIssue w ConfigIssue.DUPLICATESLAVEIP opod
    (w, slaveIPtoPodMapping)
  | none => (w, mapStore slaveIPtoPodMapping slave v)

/-- Function `FindDupeSlaveIPs` of `src/main.go`; `order` as in `FindDupeMasterIPs`. -/
def FindDupeSlaveIPs (order : List SentinelPodConfig) (w : World) : World :=
  let w := emit w Event.lookingForDuplicatedSlaveIPs
  (order.foldl (fun st v => v.Slaves.foldl (dupeSlaveStep v) st)
    (w, ([] : GoMap String SentinelPodConfig))).1

/-- The pods listed under a finding kind in the issue index. -/
def issuePods (w : World) (issue : ConfigIssue) : List SentinelPodConfig :=
  mapGet w.lsconf.ConfigIssueMapping issue

/-! ## The reply decoder (`libredis/client/sentinel.go`) -/

/-- The three field types the decoders distinguish by `f.Type().Name()`. -/
inductive GoType where
  | int
  | string
  | bool
  deriving DecidableEq, Repr

/-- What reflection reports about one struct field: its name, its type and its
`redis` tag. -/
structure StructField where
  Name : String
  Typ : GoType
  Tag : String
  deriving DecidableEq, Repr

/-- The value held by one struct field. -/
inductive Value where
  | int (v : Int)
  | string (s : String)
  | bool (b : Bool)
  deriving DecidableEq, Repr

/-- The Go zero value of a field type. -/
def zeroValue : GoType → Value
  | GoType.int => Value.int 0
  | GoType.string => Value.string ""
  | GoType.bool => Value.bool false

/-- Fields of struct `MasterInfo`, in declaration order. -/
def MasterInfoFields : List StructField :=
  [ ⟨"Name", GoType.string, "name"⟩,
    ⟨"Port", GoType.int, "port"⟩,
    ⟨"NumSlaves", GoType.int, "num-slaves"⟩,
    ⟨"Quorum", GoType.int, "quorum"⟩,
    ⟨"NumOtherSentinels", GoType.int, "num-other-sentinels"⟩,
    ⟨"ParallelSyncs", GoType.int, "parallel-syncs"⟩,
    ⟨"Runid", GoType.string, "runid"⟩,
    ⟨"IP", GoType.string, "ip"⟩,
    ⟨"DownAfterMilliseconds", GoType.int, "down-after-milliseconds"⟩,
    ⟨"IsMasterDown", GoType.bool, "is-master-down"⟩,
    ⟨"LastOkPingReply", GoType.int, "last-ok-ping-reply"⟩,
    ⟨"RoleReportedTime", GoType.int, "role-reported-time"⟩,
    ⟨"InfoRefresh", GoType.int, "info-refresh"⟩,
    ⟨"RoleReported", GoType.string, "role-reported"⟩,
    ⟨"LastPingReply", GoType.int, "last-ping-reply"⟩,
    ⟨"LastPingSent", GoType.int, "last-ping-sent"⟩,
    ⟨"FailoverTimeout", GoType.int, "failover-timeout"⟩,
    ⟨"ConfigEpoch", GoType.int, "config-epoch"⟩,
    ⟨"Flags", GoType.string, "flags"⟩ ]

/-- Fields of struct `SlaveInfo`, in declaration order. -/
def SlaveInfoFields : List StructField :=
  [ ⟨"Name", GoType.string, "name"⟩,
    ⟨"Host", GoType.string, "ip"⟩,
    ⟨"Port", GoType.int, "port"⟩,
    ⟨"Runid", GoType.string, "runid"⟩,
    ⟨"Flags", GoType.string, "flags"⟩,
    ⟨"PendingCommands", GoType.int, "pending-commands"⟩,
    ⟨"IsMasterDown", GoType.bool, "is-master-down"⟩,
    ⟨"LastOkPingReply", GoType.int, "last-ok-ping-reply"⟩,
    ⟨"RoleReportedTime", GoType.int, "role-reported-time"⟩,
    ⟨"LastPingReply", GoType.int, "last-ping-reply"⟩,
    ⟨"LastPingSent", GoType.int, "last-ping-sent"⟩,
    ⟨"InfoRefresh", GoType.int, "info-refresh"⟩,
    ⟨"RoleReported", GoType.string, "role-reported"⟩,
    ⟨"MasterLinkDownTime", GoType.int, "master-link-down-time"⟩,
    ⟨"MasterLinkStatus", GoType.string, "master-link-status"⟩,
    ⟨"MasterHost", GoType.string, "master-host"⟩,
    ⟨"MasterPort", GoType.int, "master-port"⟩,
    ⟨"SlavePriority", GoType.int, "slave-priority"⟩,
    ⟨"SlaveReplicationOffset", GoType.int, "slave-repl-offset"⟩ ]

/-- Fields of struct `SentinelInfo`, in declaration order. -/
def SentinelInfoFields : List StructField :=
  [ ⟨"Name", GoType.string, "name"⟩,
    ⟨"IP", GoType.string, "ip"⟩,
    ⟨"Port", GoType.int, "port"⟩,
    ⟨"Runid", GoType.string, "runid"⟩,
    ⟨"Flags", GoType.string, "flags"⟩,
    ⟨"PendingCommands", GoType.int, "pending-commands"⟩,
    ⟨"LastPingReply", GoType.int, "last-ping-reply"⟩,
    ⟨"LastPingSent", GoType.int, "last-ping-sent"⟩,
    ⟨"LastOkPingReply", GoType.int, "last-ok-ping-reply"⟩,
    ⟨"DownAfterMilliseconds", GoType.int, "down-after-milliseconds"⟩,
    ⟨"LastHelloMessage", GoType.int, "last-hello-message"⟩,
    ⟨"VotedLeader", GoType.string, "voted-leader"⟩,
    ⟨"VotedLeaderEpoch", GoType.int, "voted-leader-epoch"⟩ ]

/-- A struct value as reflection sees it: one value per field, in declaration order. -/
abbrev Struct := List Value

/-- The zero value of a struct with the given fields. -/
def zeroStruct (fields : List StructField) : Struct := fields.map (fun p => zeroValue p.Typ)

/-- The `bool` branch shared verbatim by the three decoders: the field is set
to true when the value is not empty, parses, and is greater than zero. -/
def setBoolField (info : GoMap String String) (tag : String) (f : Value) : Value :=
  if mapGet info tag ≠ "" then
    match ParseInt (mapGet info tag) with
    | (_, some _) => f
    | (val, none) => if val > 0 then Value.bool true else f
  else f

/-- Loop body of `buildMasterInfoStruct` for the field `p` whose current value
is `f`.  The test `info[tag] > ""` on strings holds exactly for the non-empty
strings.  What the body prints to standard output is not modelled. -/
def masterFieldStep (info : GoMap String String) (p : StructField) (f : Value) : Value :=
  let tag := p.Tag
  let f :=
    if p.Typ = GoType.int then
      if mapGet info tag ≠ "" then
        match ParseInt (mapGet info tag) with
        | (_, some _) => f
        | (val, none) => Value.int val
      else f
    else f
  let f := if p.Typ = GoType.string then Value.string (mapGet info tag) else f
  let f := if p.Typ = GoType.bool then setBoolField info tag f else f
  f

/-- Loop body of `buildSlaveInfoStruct`: the `int` branch calls `ParseInt`
without testing for the empty value first. -/
def slaveFieldStep (info : GoMap String String) (p : StructField) (f : Value) : Value :=
  let tag := p.Tag
  let f :=
    if p.Typ = GoType.int then
      match ParseInt (mapGet info tag) with
      | (_, some _) => f
      | (val, none) => Value.int val
    else f
  let f := if p.Typ = GoType.string then Value.string (mapGet info tag) else f
  let f := if p.Typ = GoType.bool then setBoolField info tag f else f
  f

/-- Loop body of `buildSentinelInfoStruct`; it is the body of `buildSlaveInfoStruct`. -/
def sentinelFieldStep (info : GoMap String String) (p : StructField) (f : Value) : Value :=
  let tag := p.Tag
  let f :=
    if p.Typ = GoType.int then
      match ParseInt (mapGet info tag) with
      | (_, some _) => f
      | (val, none) => Value.int val
    else f
  let f := if p.Typ = GoType.string then Value.string (mapGet info tag) else f
  let f := if p.Typ = GoType.bool then setBoolField info tag f else f
  f

/-- One iteration `i` of `for i := 0; i < s.NumField(); i++`: field `i` of the
struct is replaced by what the body computes for it.  The second component is
the named result `err`; the body only assigns a variable `err` of its own
(declared with `:=`), so the result is passed on unchanged. -/
def buildIter (step : StructField → Value → Value) (fields : List StructField)
    (st : Struct × Option NumError) (i : Nat) : Struct × Option NumError :=
  match fields[i]?, st.1[i]? with
  | some p, some f => (st.1.set i (step p f), st.2)
  | _, _ => st

/-- The reflection loop common to the three decoders, started on the zero
struct and the nil error. -/
def buildStruct (step : StructField → Value → Value) (fields : List StructField) :
    Struct × Option NumError :=
  (List.range fields.length).foldl (buildIter step fields) (zeroStruct fields, none)

/-- Method `buildMasterInfoStruct`: the decoded struct and the returned error. -/
def buildMasterInfoStruct (info : GoMap String String) : Struct × Option NumError :=
  buildStruct (masterFieldStep info) MasterInfoFields

/-- Method `buildSlaveInfoStruct`: the decoded struct and the returned error. -/
def buildSlaveInfoStruct (info : GoMap String String) : Struct × Option NumError :=
  buildStruct (slaveFieldStep info) SlaveInfoFields

/-- Method `buildSentinelInfoStruct`: the decoded struct and the returned error. -/
def buildSentinelInfoStruct (info : GoMap String String) : Struct × Option NumError :=
  buildStruct (sentinelFieldStep info) SentinelInfoFields

/-- The value of the field with the given name in a struct with the given fields. -/
def fieldValue (fields : List StructField) (s : Struct) (name : String) : Option Value :=
  match fields, s with
  | p :: ps, f :: fs => if p.Name = name then some f else fieldValue ps fs name
  | _, _ => none

/-- Successive calls of `extractSentinelDirective`, one per directive, as
`LoadSentinelConfigFile` makes them for the `sentinel` lines of the file; the
returned errors are always nil and are dropped. -/
def runDirectives (w : World) : List (List String) → Except Panic World
  | [] => Except.ok w
  | entries :: rest =>
    match extractSentinelDirective w entries with
    | Except.ok r => runDirectives r.1 rest
    | Except.error e => Except.error e

/-- A topology in which a pod entry is keyed by the text `10.0.0.1:6379`; it is
what the directive `auth-pass 10.0.0.1:6379 x` leaves on the empty topology. -/
def addressNamedWorld : World :=
  { lsconf := { ManagedPodConfigs := [("10.0.0.1:6379", { AuthToken := "x" })] } }

/-- Loop invariant of `FindDupeMasterIPs` after the pods `pre` have been
visited: `masterIPtoPodMapping` binds exactly the master IPs seen, each to a
visited pod with that IP, and the pods listed under `DUPLICATEMASTERIP` are the
visited pods whose master IP occurs at least twice among the visited pods. -/
def DupeMasterInv (pre : List SentinelPodConfig) (w : World) : Prop :=
  (∀ ip, mapLookup w.masterIPtoPodMapping ip = none ↔ ∀ a ∈ pre, a.IP ≠ ip) ∧
  (∀ ip opod, mapLookup w.masterIPtoPodMapping ip = some opod → opod ∈ pre ∧ opod.IP = ip) ∧
  (∀ x, x ∈ issuePods w ConfigIssue.DUPLICATEMASTERIP ↔
    x ∈ pre ∧ 2 ≤ pre.countP (fun p => decide (p.IP = x.IP)))

/-- A topology with three pods: `a` and `b` share the master IP `10.0.0.1`,
`c` has the master IP `10.0.0.3` to itself. -/
def threePodWorld : World :=
  { lsconf := { ManagedPodConfigs :=
      [("a", { Name := "a", IP := "10.0.0.1", Port := 6379, Quorum := 2, Sentinels := some [] }),
       ("b", { Name := "b", IP := "10.0.0.1", Port := 6380, Quorum := 2, Sentinels := some [] }),
       ("c", { Name := "c", IP := "10.0.0.3", Port := 6379, Quorum := 2, Sentinels := some [] })] } }

/-- The three decoders, each with the field table of the struct it fills. -/
def decoders : List ((GoMap String String → Struct × Option NumError) × List StructField) :=
  [ (buildMasterInfoStruct, MasterInfoFields),
    (buildSlaveInfoStruct, SlaveInfoFields),
    (buildSentinelInfoStruct, SentinelInfoFields) ]

/-- The topology left by `monitor a 10.0.0.1 6379 2`, `monitor b 10.0.0.2 6379 2`
and `known-slave b 10.0.0.1 6379`: the replica of pod `b` is the master of pod `a`. -/
def replicaOnMasterWorld : World :=
  { lsconf := { ManagedPodConfigs :=
      [("a", { Name := "a", IP := "10.0.0.1", Port := 6379, Quorum := 2, Sentinels := some [] }),
       ("b", { Name := "b", IP := "10.0.0.2", Port := 6379, Quorum := 2, Sentinels := some [],
               Slaves := ["10.0.0.1:6379"] })] } }

/-- Closed form of what the loop bodies of the three decoders leave in a field
that starts at its zero value (`masterFieldStep_zero`, `slaveFieldStep_zero`):
an integer field takes the parsed value when the value parses and zero
otherwise, a string field takes the raw value, a boolean field is true exactly
when the value is not empty, parses, and the parsed integer is greater than
zero.  The value that is read is `info[tag]`, the empty string when the key is
absent. -/
def decodeField (info : GoMap String String) (p : StructField) : Value :=
  match p.Typ with
  | GoType.int =>
    Value.int (if (ParseInt (mapGet info p.Tag)).2 = none then (ParseInt (mapGet info p.Tag)).1
               else 0)
  | GoType.string => Value.string (mapGet info p.Tag)
  | GoType.bool =>
    Value.bool (decide (mapGet info p.Tag ≠ "" ∧ (ParseInt (mapGet info p.Tag)).2 = none ∧
      0 < (ParseInt (mapGet info p.Tag)).1))

/-- The pairs (pod, replica address) in the order in which the two nested
loops of `FindDupeSlaveIPs` visit them. -/
def slavePairs : List SentinelPodConfig → List (SentinelPodConfig × String)
  | [] => []
  | v :: rest => v.Slaves.map (fun s => (v, s)) ++ slavePairs rest

/-- Loop invariant of `FindDupeSlaveIPs` after the pairs `done` have been
visited: `slaveIPtoPodMapping` binds exactly the replica addresses seen, each
to a pod that declared it, and every pod that declared an address seen at
least twice is listed under `DUPLICATESLAVEIP`. -/
def DupeSlaveInv (done : List (SentinelPodConfig × String))
    (st : World × GoMap String SentinelPodConfig) : Prop :=
  (∀ s, (∀ v, (v, s) ∉ done) → mapLookup st.2 s = none) ∧
  (∀ s v, (v, s) ∈ done → ∃ o, mapLookup st.2 s = some o ∧ (o, s) ∈ done) ∧
  (∀ s v, (v, s) ∈ done → 2 ≤ done.countP (fun q => decide (q.2 = s)) →
    v ∈ issuePods st.1 ConfigIssue.DUPLICATESLAVEIP)

/-! ## `strings` and the configuration file (`src/main.go`) -/

/-- Go's `unicode.IsSpace`, by code point. -/
def isSpace (c : Char) : Bool :=
  decide (9 ≤ c.toNat ∧ c.toNat ≤ 13) || decide (c.toNat = 32) || decide (c.toNat = 133) ||
  decide (c.toNat = 160) || decide (c.toNat = 5760) ||
  decide (8192 ≤ c.toNat ∧ c.toNat ≤ 8202) || decide (c.toNat = 8232) ||
  decide (c.toNat = 8233) || decide (c.toNat = 8239) || decide (c.toNat = 8287) ||
  decide (c.toNat = 12288)

/-- Model of `strings.TrimSpace`: leading and trailing white space removed. -/
def TrimSpace (s : String) : String :=
  ⟨((s.data.dropWhile isSpace).reverse.dropWhile isSpace).reverse⟩

/-- Model of `strings.Contains(s, sub)` for a substring `sub` of one character. -/
def Contains (s : String) (c : Char) : Bool := s.data.any (fun d => decide (d = c))

/-- Pieces of a character list between the occurrences of `sep`: one more
piece than there are separators. -/
def splitChars (sep : Char) : List Char → List (List Char)
  | [] => [[]]
  | c :: cs =>
    if c = sep then [] :: splitChars sep cs
    else
      match splitChars sep cs with
      | [] => [[c]]
      | h :: t => (c :: h) :: t

/-- Model of `strings.Split(s, sep)` for a separator `sep` of one character. -/
def Split (s : String) (sep : Char) : List String := (splitChars sep s.data).map String.mk

/-- The error values the audit code passes around. -/
inductive GoError where
  | openFailed
  | knownInvalidSentinel
  | dialFailed (address : String)
  | pingFailed (address : String)
  deriving DecidableEq, Repr

/-- The `err` of one `bf.ReadString('\n')`. -/
inductive ReadError where
  | ok
  | EOF
  | other
  deriving DecidableEq, Repr

/-- Body of the `for` loop of `LoadSentinelConfigFile` for one line that was
read without error (`atEOF` false) or with `io.EOF` (`atEOF` true).  The result
is the new world and whether the function returns (the `return nil` of the
case `""`). -/
def loadLine (w : World) (rawline : String) (atEOF : Bool) : Except Panic (World × Bool) := do
  let line := TrimSpace rawline
  -- ignore comments
  if Contains line '#' then
    return (w, false)
  else
    let entries := Split line ' '
    let e0 ← index entries 0
    if e0 = "sentinel" then
      let r ← extractSentinelDirective w (entries.drop 1)
      match r.2 with
      | some _ => return (emit r.1 (Event.misshapenSentinelDirective line), false)
      | none => return (r.1, false)
    else if e0 = "port" then
      let e1 ← index entries 1
      let iport := (Atoi e1).1
      let w := { w with lsconf := { w.lsconf with Port := iport } }
      if w.lsconf.Host ≠ "" then
        return ({ w with lsconf := { w.lsconf with
          Name := sprintfAddr w.lsconf.Host w.lsconf.Port } }, false)
      else
        return (w, false)
    else if e0 = "dir" then
      let e1 ← index entries 1
      return ({ w with lsconf := { w.lsconf with Dir := e1 } }, false)
    else if e0 = "bind" then
      let e1 ← index entries 1
      let w := { w with lsconf := { w.lsconf with Host := e1 } }
      let w := emit w (Event.listeningOn w.lsconf.Host)
      if w.lsconf.Port > 0 then
        return ({ w with lsconf := { w.lsconf with
          Name := sprintfAddr w.lsconf.Host w.lsconf.Port } }, false)
      else
        return (w, false)
    else if e0 = "" then
      if atEOF then
        return (emit w Event.fileLoadComplete, true)
      else
        return (w, false)
    else if e0 = "maxclients" then
      return (w, false)
    else
      return (emit w (Event.unhandledConfigDirective line), false)

/-- How a call of `LoadSentinelConfigFile` ends when it does not panic: it
returns an error value (`none` is nil), or `log.Fatal` ends the process. -/
inductive LoadOutcome where
  | returned (w : World) (err : Option GoError)
  | exited (w : World)
  deriving DecidableEq, Repr

/-- The `for` loop of `LoadSentinelConfigFile` over the successive results of
`bf.ReadString`.  Once the results are used up the reader returns the empty
string with `io.EOF`, and the loop body returns on that. -/
def loadLoop : World → List (String × ReadError) → Except Panic LoadOutcome
  | w, [] => do
    let r ← loadLine w "" true
    return LoadOutcome.returned r.1 none
  | w, (rawline, err) :: rest =>
    if err = ReadError.other then
      Except.ok (LoadOutcome.exited (emit w (Event.print "LOAD FILE ERROR")))
    else do
      let r ← loadLine w rawline (decide (err = ReadError.EOF))
      if r.2 then
        return LoadOutcome.returned r.1 none
      else
        loadLoop r.1 rest

/-- Function `LoadSentinelConfigFile` of `src/main.go`.  `file` is `none` when
`os.Open` fails and otherwise the successive results of `bf.ReadString`. -/
def LoadSentinelConfigFile (file : Option (List (String × ReadError))) (w : World) :
    Except Panic LoadOutcome :=
  let w := { w with lsconf := { w.lsconf with ManagedPodConfigs := [], KnownSentinels := [] } }
  match file with
  | none =>
    Except.ok (LoadOutcome.returned (emit w (Event.print "open failed"))
      (some GoError.openFailed))
  | some reads => loadLoop w reads

/-- The loop body of `LoadSentinelConfigFile` applied to successive lines, each
read without error. -/
def loadLines (w : World) : List String → Except Panic World
  | [] => Except.ok w
  | rawline :: rest =>
    match loadLine w rawline false with
    | Except.ok r => loadLines r.1 rest
    | Except.error e => Except.error e

/-! ## The connectivity prober and the pod audit (`src/main.go`) -/

/-- Function `sentinelAvailable` of `src/main.go`.  `dial address password`
tells whether `client.DialWithConfig` succeeds, `ping address` whether
`conn.Ping()` returns nil.  The result is the new world, the boolean and the
error (`none` is nil). -/
def sentinelAvailable (dial : String → String → Bool) (ping : String → Bool) (w : World)
    (name : String) : World × Bool × Option GoError :=
  let w :=
    if w.lsconf.InvalidSentinels = none then
      { w with lsconf := { w.lsconf with InvalidSentinels := some [] } }
    else w
  let knownInvalid := mapHas (w.lsconf.InvalidSentinels.getD []) name
  if knownInvalid then
    (w, false, some GoError.knownInvalidSentinel)
  else
    let w := emit w (Event.dial name "")
    if !dial name "" then
      ({ w with lsconf := { w.lsconf with
          InvalidSentinels := some (mapStore (w.lsconf.InvalidSentinels.getD []) name "") } },
        false, some (GoError.dialFailed name))
    else
      let w := emit w (Event.ping name)
      (w, true, if ping name then none else some (GoError.pingFailed name))

/-- Body of the `range pc.Sentinels` loop of `validatePodSentinels` for one
declared sentinel.  Reading the nil map `lsconf.InvalidSentinels` finds no key;
the two maps of `pc` are not nil here (made before the loop). -/
def validateStep (dial : String → String → Bool) (ping : String → Bool)
    (st : SentinelPodConfig × World) (sentinel : String) : SentinelPodConfig × World :=
  let pc := st.1
  let w := st.2
  let knownInvalid := mapHas (w.lsconf.InvalidSentinels.getD []) sentinel
  let pc :=
    if knownInvalid then
      { pc with InvalidSentinels := some (mapStore (pc.InvalidSentinels.getD []) sentinel "") }
    else pc
  let r := sentinelAvailable dial ping w sentinel
  let isValid := r.2.1
  if isValid then
    let confirmed := mapStore (pc.ConfirmedSentinels.getD []) sentinel ""
    ({ pc with ConfirmedSentinels := some confirmed }, r.1)
  else
    let invalid := mapStore (pc.InvalidSentinels.getD []) sentinel ""
    ({ pc with InvalidSentinels := some invalid }, r.1)

/-- Method `(*SentinelPodConfig).validatePodSentinels` of `src/main.go`; `order`
is the sequence of keys that `range pc.Sentinels` visits. -/
def validatePodSentinels (dial : String → String → Bool) (ping : String → Bool)
    (order : List String) (pc : SentinelPodConfig) (w : World) : SentinelPodConfig × World :=
  let pc := if pc.ConfirmedSentinels = none then { pc with ConfirmedSentinels := some [] } else pc
  let pc := if pc.InvalidSentinels = none then { pc with InvalidSentinels := some [] } else pc
  order.foldl (validateStep dial ping) (pc, w)

/-- Successive calls of `sentinelAvailable`, one per name. -/
def probeAll (dial : String → String → Bool) (ping : String → Bool) (w : World) :
    List String → World
  | [] => w
  | name :: rest => probeAll dial ping (sentinelAvailable dial ping w name).1 rest

/-- The endpoint `e` is a key of the `Sentinels` map of some managed pod. -/
def declaredSentinel (w : World) (e : String) : Prop :=
  ∃ k pc sm, mapLookup w.lsconf.ManagedPodConfigs k = some pc ∧ pc.Sentinels = some sm ∧
    mapHas sm e = true

/-- The keys of `lsconf.KnownSentinels` are exactly the declared sentinel
endpoints other than `lsconf.Name`. -/
def RegistryInv (w : World) : Prop :=
  ∀ e, mapHas w.lsconf.KnownSentinels e = true ↔ (e ≠ w.lsconf.Name ∧ declaredSentinel w e)

/-- The directive `known-sentinel <podname> <ip> <port>` as `extractSentinelDirective`
receives it. -/
def knownSentinelDirective (d : String × String × String) : List String :=
  ["known-sentinel", d.1, d.2.1, d.2.2]

/-- The topology left by the lines `bind 10.0.0.1`, `port 26379` and
`sentinel monitor p 10.0.0.9 6379 2`. -/
def boundWorld : World :=
  { lsconf := { Name := "10.0.0.1:26379",
                Host := "10.0.0.1",
                Port := 26379,
                ManagedPodConfigs :=
                  [("p", { Name := "p", IP := "10.0.0.9", Port := 6379, Quorum := 2,
                           Sentinels := some [] })] },
    trace := [Event.listeningOn "10.0.0.1"] }

/-- The tokens `LoadSentinelConfigFile` sees on a line: none for a line it
skips as a comment. -/
def lineEntries (rawline : String) : Option (List String) :=
  if Contains (TrimSpace rawline) '#' then none else some (Split (TrimSpace rawline) ' ')

/-- The host named by a `bind` line, none for any other line. -/
def bindHost (rawline : String) : Option String :=
  match lineEntries rawline with
  | some (e0 :: e1 :: _) => if e0 = "bind" then some e1 else none
  | _ => none

/-- The port number `Atoi` reads on a `port` line, none for any other line. -/
def portValue (rawline : String) : Option Int :=
  match lineEntries rawline with
  | some (e0 :: e1 :: _) => if e0 = "port" then some (Atoi e1).1 else none
  | _ => none

/-- The host of the most recent `bind` line. -/
def lastBindHost (lines : List String) : Option String :=
  lines.foldl (fun acc l => match bindHost l with
    | some h => some h
    | none => acc) none

/-- The port number of the most recent `port` line. -/
def lastPortValue (lines : List String) : Option Int :=
  lines.foldl (fun acc l => match portValue l with
    | some p => some p
    | none => acc) none

/-- What relates the local identity fields of `lsconf` to the most recent
`bind` host `hb` and `port` number `pv` (none when no such line was seen). -/
def IdentityRel (hb : Option String) (pv : Option Int) (w : World) : Prop :=
  w.lsconf.Host = hb.getD "" ∧ w.lsconf.Port = pv.getD 0 ∧
  (w.lsconf.Host ≠ "" → 0 < w.lsconf.Port →
    w.lsconf.Name = sprintfAddr w.lsconf.Host w.lsconf.Port) ∧
  (pv = none → w.lsconf.Name = "") ∧
  (hb = none → w.lsconf.Name = "")

/-- The process-wide invalid-endpoint cache `lsconf.InvalidSentinels` as the
program reads it: a nil map has no keys. -/
def invalidCache (w : World) : GoMap String String := w.lsconf.InvalidSentinels.getD []

/-- How many times the trace records a dial of the sentinel `e`. -/
def dialCount (e : String) (w : World) : Nat := w.trace.count (Event.dial e "")

/-- Loop invariant of `validatePodSentinels` after the declared sentinels
`pre` have been visited, for a pod `pc0` and a world `w0` at the start of the
loop: the confirmed sentinels are the visited ones that were not in the
invalid cache of `w0` and whose dial succeeds, the invalid sentinels are the
other visited ones, and the cache has gained the visited sentinels whose dial
fails. -/
def ValidateInv (dial : String → String → Bool) (w0 : World) (pc0 : SentinelPodConfig)
    (pre : List String) (st : SentinelPodConfig × World) : Prop :=
  ∃ confirmed invalid : GoMap String String,
    st.1 = { pc0 with ConfirmedSentinels := some confirmed, InvalidSentinels := some invalid } ∧
    mapWF confirmed ∧ mapWF invalid ∧
    (∀ e, mapHas confirmed e = true ↔
      (e ∈ pre ∧ mapHas (invalidCache w0) e = false ∧ dial e "" = true)) ∧
    (∀ e, mapHas invalid e = true ↔
      (e ∈ pre ∧ (mapHas (invalidCache w0) e = true ∨ dial e "" = false))) ∧
    (∀ e, mapHas (invalidCache st.2) e = true ↔
      (mapHas (invalidCache w0) e = true ∨ (e ∈ pre ∧ dial e "" = false)))

/-- A monitored pod with quorum 2 that declares the sentinels `10.0.0.1:26379`
and `10.0.0.2:26379`, before any audit. -/
def twoSentinelPod : SentinelPodConfig :=
  { Name := "p", IP := "10.0.0.9", Port := 6379, Quorum := 2,
    Sentinels := some [("10.0.0.1:26379", ""), ("10.0.0.2:26379", "")] }

/-- Dial outcomes in which only `10.0.0.1:26379` accepts connections. -/
def onlyFirstReachable (address password : String) : Bool :=
  decide (address = "10.0.0.1:26379" ∧ password = "")

/-- The endpoint text `ip:port` that a `known-sentinel` directive with these
two arguments declares. -/
def endpoint (d : String × String) : String := d.1 ++ ":" ++ d.2

/-- A configuration declaring one pod with quorum 2: the directive
`monitor <pname> <ip> <port> 2` followed by one `known-sentinel` directive for
that pod per element of `ds`. -/
def onePodDirectives (pname ip port : String) (ds : List (String × String)) :
    List (List String) :=
  ["monitor", pname, ip, port, "2"] ::
    ds.map (fun d => knownSentinelDirective (pname, d.1, d.2))

/-! ## The master address query (`libredis/client/sentinel.go`) -/

/-- Go struct `MasterAddress`. -/
structure MasterAddress where
  Host : String := ""
  Port : Int := 0
  deriving DecidableEq, Repr

/-- The error values `SentinelGetMaster` can return: the error of
`ExecuteCommand`, the error of `ListValue`, or the error of `strconv.Atoi`. -/
inductive ClientError where
  | command
  | listValue
  | atoi (e : NumError)
  deriving DecidableEq, Repr

/-- Method `(*Redis).SentinelGetMaster` of `libredis/client/sentinel.go`.
`rp` is `none` when `r.ExecuteCommand` returns an error; otherwise it holds
what `rp.ListValue()` returns: the list `info` and whether its error is
non-nil.  The line printed on a bad port is not modelled. -/
def SentinelGetMaster (rp : Option (List String × Bool)) :
    Except Panic (MasterAddress × Option ClientError) := do
  let conninfo : MasterAddress := {}
  match rp with
  | none => return (conninfo, some ClientError.command)
  | some (info, listErr) =>
    let err : Option ClientError := if listErr then some ClientError.listValue else none
    if info.length ≠ 0 then
      let i0 ← index info 0
      let conninfo := { conninfo with Host := i0 }
      let i1 ← index info 1
      let r := Atoi i1
      let conninfo := { conninfo with Port := r.1 }
      let err := r.2.map ClientError.atoi
      return (conninfo, err)
    else
      return (conninfo, err)

/-! ## Lines written with single spaces -/

/-- The character lists `ts` joined by single spaces. -/
def joinChars : List (List Char) → List Char
  | [] => []
  | [t] => t
  | t :: ts => t ++ ' ' :: joinChars ts

/-- The line made of `tokens` separated by single spaces. -/
def joinTokens (tokens : List String) : String := ⟨joinChars (tokens.map String.data)⟩

/-- A token: a non-empty string without white space. -/
def isToken (t : String) : Bool := !t.data.isEmpty && t.data.all (fun c => !isSpace c)

/-! ## The reports and `main` (`src/main.go`) -/

/-- Method `(ConfigIssue).String` of `src/main.go`. -/
def issueString (ci : ConfigIssue) : String :=
  let s := ""
  match ci with
  | ConfigIssue.NOTENOUGHSENTINELS => s ++ "Not Enough Sentinels"
  | ConfigIssue.NOQUORUM => s ++ "NO Quorum Possible"
  | ConfigIssue.NOSLAVES => s ++ "No Slaves Configured/Known"
  | ConfigIssue.NOVALIDSLAVES => s ++ "No Valid Slaves"
  | ConfigIssue.HASINVALIDSENTINELS =>
    s ++ "Has Sentinels Configured which do not exist or are unreachable"
  | ConfigIssue.DUPLICATEMASTERIP => s ++ "Shares a master IP with another pod."
  | ConfigIssue.DUPLICATESLAVEIP => s ++ "Shares a slave IP with another pod."

/-- Function `BaseConfigReport` of `src/main.go`. -/
def BaseConfigReport (w : World) : World :=
  let w :=
    if w.lsconf.Name = "" then
      let w := emit w (Event.print "WARNING: MISSING BIND DIRECTIVE!")
      emit w (Event.print "Bind Statement Present: False")
    else
      emit w (Event.print "Bind Statement Present: True")
  if w.lsconf.Port ≠ 26379 then
    emit w (Event.print
      ("WARNING: Sentinel is running on non-standard port: " ++ toString w.lsconf.Port ++ "."))
  else w

/-- Body of the `range lsconf.KnownSentinels` loop of `KnownSentinelsReport`
(the text of the error is left out of the printed line). -/
def knownSentinelsStep (dial : String → String → Bool) (ping : String → Bool) (w : World)
    (s : String) : World :=
  let r := sentinelAvailable dial ping w s
  let isAvailable := r.2.1
  if isAvailable then emit r.1 (Event.print (s ++ " (Available)"))
  else emit r.1 (Event.print (s ++ " (MISSING)"))

/-- Function `KnownSentinelsReport` of `src/main.go`; `order` is the sequence
of keys that `range lsconf.KnownSentinels` visits. -/
def KnownSentinelsReport (dial : String → String → Bool) (ping : String → Bool)
    (order : List String) (w : World) : World :=
  let w := emit w (Event.print
    ("Known Sentinels (" ++ toString (mapLen w.lsconf.KnownSentinels) ++ "):"))
  let w := emit w (Event.print "=====================")
  let w := order.foldl (knownSentinelsStep dial ping) w
  emit w (Event.print "")

/-- Body of the `range lsconf.ManagedPodConfigs` loop of `PodReport` for the
key `kv.1` and the copy `kv.2` of its value; the second component of the state
is the local counter `PodsWithIssues`.

The loop variable `v` is a copy of the stored struct and
`v.validatePodSentinels()` works on `&v`: nothing is assigned back to
`lsconf.ManagedPodConfigs[k]`.  A stored entry has nil `ConfirmedSentinels` and
`InvalidSentinels` in every state the parser produces, so the maps the method
makes belong to the copy alone. -/
def podReportStep (dial : String → String → Bool) (ping : String → Bool)
    (sentinelOrder : SentinelPodConfig → List String) (st : World × Nat)
    (kv : String × SentinelPodConfig) : World × Nat :=
  let w := st.1
  let PodsWithIssues := st.2
  let k := kv.1
  let r := validatePodSentinels dial ping (sentinelOrder kv.2) kv.2 w
  let v := r.1
  let w := r.2
  let issues := ConfigIssues v
  if issues.length > 0 then
    let w := emit w (Event.print
      (k ++ " has " ++ toString issues.length ++ " configuration issues"))
    let PodsWithIssues := PodsWithIssues + 1
    let w := issues.foldl (fun w issue => appendIssue w issue v) w
    (w, PodsWithIssues)
  else (w, PodsWithIssues)

/-- Body of the `range lsconf.ConfigIssueMapping` loop of `PodReport`. -/
def printIssue (w : World) (e : ConfigIssue × List SentinelPodConfig) : World :=
  let w := emit w (Event.print ("Config Issue: '" ++ issueString e.1 ++ "'"))
  let w := emit w (Event.print ("Pods with issue " ++ toString e.2.length))
  let w := emit w (Event.print "=============================")
  e.2.foldl (fun w pod => emit w (Event.print ("  " ++ pod.Name))) w

/-- Function `PodReport` of `src/main.go`.  `order` is the sequence of entries
that `range lsconf.ManagedPodConfigs` visits, `sentinelOrder pc` the sequence of
keys that `range pc.Sentinels` visits in `validatePodSentinels`, and
`issueOrder m` the sequence of entries that `range lsconf.ConfigIssueMapping`
visits.  The first line prints the package-level nil map `PodsWithIssues`, which
the local counter declared further down shadows from there on. -/
def PodReport (dial : String → String → Bool) (ping : String → Bool)
    (order : List (String × SentinelPodConfig))
    (sentinelOrder : SentinelPodConfig → List String)
    (issueOrder : GoMap ConfigIssue (List SentinelPodConfig) →
      List (ConfigIssue × List SentinelPodConfig))
    (w : World) : World :=
  let w := emit w (Event.print
    ("map[] of " ++ toString (mapLen w.lsconf.ManagedPodConfigs) ++
      " Pods have configuration issues"))
  let w := emit w (Event.print "")
  let w := emit w (Event.print
    ("Locally Configured Pods: " ++ toString (mapLen w.lsconf.ManagedPodConfigs)))
  let st := order.foldl (podReportStep dial ping sentinelOrder) (w, 0)
  let w := st.1
  let PodsWithIssues := st.2
  if PodsWithIssues > 0 then
    (issueOrder w.lsconf.ConfigIssueMapping).foldl printIssue w
  else w

/-- What a run depends on besides the configuration file and the command line:
the outcomes of dials and pings, and for each `range` statement the order in
which it visits the map it is given. -/
structure Runtime where
  dial : String → String → Bool
  ping : String → Bool
  knownSentinelsOrder : GoMap String String → List String
  masterOrder : GoMap String SentinelPodConfig → List SentinelPodConfig
  slaveOrder : GoMap String SentinelPodConfig → List SentinelPodConfig
  podOrder : GoMap String SentinelPodConfig → List (String × SentinelPodConfig)
  sentinelOrder : SentinelPodConfig → List String
  issueOrder : GoMap ConfigIssue (List SentinelPodConfig) →
    List (ConfigIssue × List SentinelPodConfig)

/-- Body of the `range reportFlag` loop of `main`: the `switch rep`. -/
def runReport (rt : Runtime) (w : World) (rep : String) : World :=
  if rep = "baseconfig" then
    BaseConfigReport w
  else if rep = "known-sentinels" then
    KnownSentinelsReport rt.dial rt.ping (rt.knownSentinelsOrder w.lsconf.KnownSentinels) w
  else if rep = "all" then
    let w := BaseConfigReport w
    let w := KnownSentinelsReport rt.dial rt.ping
      (rt.knownSentinelsOrder w.lsconf.KnownSentinels) w
    let w := FindDupeMasterIPs rt.dial (rt.masterOrder w.lsconf.ManagedPodConfigs) w
    let w := FindDupeSlaveIPs (rt.slaveOrder w.lsconf.ManagedPodConfigs) w
    PodReport rt.dial rt.ping (rt.podOrder w.lsconf.ManagedPodConfigs) rt.sentinelOrder
      rt.issueOrder w
  else
    emit w (Event.print ("Unknown report '" ++ rep ++ "'"))

/-- Function `main` of `src/main.go`, from the zero values of the package-level
variables.  `file` is what `LoadSentinelConfigFile` finds and `reportFlag` the
parsed `-report` flag.  The result is the final world with the exit status of
the process: 0 when `main` returns, 1 when `log.Fatal` ends it.  The value that
`LoadSentinelConfigFile` returns is not looked at. -/
def main (rt : Runtime) (file : Option (List (String × ReadError)))
    (reportFlag : List String) : Except Panic (World × Int) :=
  let w : World := {}
  let w := emit w (Event.print ("Reports to run: " ++ toString reportFlag))
  let w := emit w (Event.print "Running sentinel config audit")
  let w := { w with lsconf := { w.lsconf with ConfigIssueMapping := [] } }
  match LoadSentinelConfigFile file w with
  | Except.error p => Except.error p
  | Except.ok (LoadOutcome.exited w) => Except.ok (w, 1)
  | Except.ok (LoadOutcome.returned w _) =>
    let w := emit w (Event.print
      ("Configuration Audit Run for Sentinel '" ++ w.lsconf.Name ++ "'"))
    let w := emit w (Event.print "")
    Except.ok (reportFlag.foldl (runReport rt) w, 0)

/-- The topology left by `sentinel monitor p 10.0.0.9 6379 1` and
`sentinel known-sentinel p 10.0.0.2 26379`. -/
def oneSentinelWorld : World :=
  { lsconf := { ManagedPodConfigs :=
      [("p", { Name := "p", IP := "10.0.0.9", Port := 6379, Quorum := 1,
               Sentinels := some [("10.0.0.2:26379", "")] })],
                KnownSentinels := [("10.0.0.2:26379", "10.0.0.2:26379")] } }

/-- The invalid caches of two worlds agree on every endpoint whose dial
succeeds. -/
def cacheAgree (dial : String → String → Bool) (w1 w2 : World) : Prop :=
  ∀ e, dial e "" = true → mapHas (invalidCache w1) e = mapHas (invalidCache w2) e

/-- The copy of the pod `pc` as `validatePodSentinels` classifies it when the
invalid cache is the one of `w`. -/
def classifiedCopy (dial : String → String → Bool) (ping : String → Bool)
    (sentinelOrder : SentinelPodConfig → List String) (w : World) (pc : SentinelPodConfig) :
    SentinelPodConfig :=
  (validatePodSentinels dial ping (sentinelOrder pc) pc w).1

/-- Every stored pod has nil `ConfirmedSentinels` and `InvalidSentinels`. -/
def auditMapsNil (w : World) : Prop :=
  ∀ kv ∈ w.lsconf.ManagedPodConfigs,
    kv.2.ConfirmedSentinels = none ∧ kv.2.InvalidSentinels = none

/-! ## The parser copy of `src/commands/common.go` -/

namespace Commands

/-- Go struct `SentinelPodConfig` of `src/commands/common.go`: the struct of
`src/main.go` without the field `Slaves`. -/
structure SentinelPodConfig where
  IP : String := ""
  Port : Int := 0
  Quorum : Int := 0
  Name : String := ""
  AuthToken : String := ""
  Sentinels : Option (GoMap String String) := none
  ConfirmedSentinels : Option (GoMap String String) := none
  InvalidSentinels : Option (GoMap String String) := none
  deriving DecidableEq, Repr

instance : Inhabited SentinelPodConfig := ⟨{}⟩

/-- Go struct `LocalSentinelConfig` of `src/commands/common.go`.  The type
`ConfigIssue` of this package has the first five constants of the one in
`src/main.go`, with the same values. -/
structure LocalSentinelConfig where
  Name : String := ""
  Host : String := ""
  Port : Int := 0
  ManagedPodConfigs : GoMap String SentinelPodConfig := []
  Dir : String := ""
  KnownSentinels : GoMap String String := []
  InvalidSentinels : Option (GoMap String String) := none
  ConfigIssueMapping : GoMap ConfigIssue (List SentinelPodConfig) := []
  deriving DecidableEq, Repr

/-- The package-level variable `lsconf` of `src/commands/common.go` together
with the event trace. -/
structure World where
  lsconf : LocalSentinelConfig := {}
  trace : List Event := []
  deriving DecidableEq, Repr

/-- Function `extractSentinelDirective` of `src/commands/common.go`.  The case
`known-slave` returns nil without reading its arguments. -/
def extractSentinelDirective (w : World) (entries : List String) :
    Except Panic (World × Option String) := do
  let e0 ← index entries 0
  if e0 = "monitor" then
    let pname ← index entries 1
    let e3 ← index entries 3
    let port := (Atoi e3).1
    let e4 ← index entries 4
    let quorum := (Atoi e4).1
    let e2 ← index entries 2
    let spc : SentinelPodConfig := { Name := pname, IP := e2, Port := port, Quorum := quorum }
    let spc := { spc with Sentinels := some [] }
    let addr := sprintfAddr e2 port
    let addrExists := mapHas w.lsconf.ManagedPodConfigs addr
    if !addrExists then
      let k ← index entries 1
      return ({ w with lsconf := { w.lsconf with
        ManagedPodConfigs := mapStore w.lsconf.ManagedPodConfigs k spc } }, none)
    else
      return (w, none)
  else if e0 = "auth-pass" then
    let pname ← index entries 1
    let pc := mapGet w.lsconf.ManagedPodConfigs pname
    let e2 ← index entries 2
    let pc := { pc with AuthToken := e2 }
    return ({ w with lsconf := { w.lsconf with
      ManagedPodConfigs := mapStore w.lsconf.ManagedPodConfigs pname pc } }, none)
  else if e0 = "known-sentinel" then
    let podname ← index entries 1
    let e2 ← index entries 2
    let e3 ← index entries 3
    let sentinel_address := e2 ++ ":" ++ e3
    let pc := mapGet w.lsconf.ManagedPodConfigs podname
    match pc.Sentinels with
    | none => throw Panic.assignmentToEntryInNilMap
    | some sentinels =>
      let pc := { pc with Sentinels := some (mapStore sentinels sentinel_address "") }
      let lsconf := { w.lsconf with
        ManagedPodConfigs := mapStore w.lsconf.ManagedPodConfigs podname pc }
      let isMe : Bool := sentinel_address = lsconf.Name
      if !isMe then
        return ({ w with lsconf := { lsconf with
          KnownSentinels := mapStore lsconf.KnownSentinels sentinel_address sentinel_address } },
          none)
      else
        return ({ w with lsconf := lsconf }, none)
  else if e0 = "known-slave" then
    -- Currently ignoring this
    return (w, none)
  else if e0 = "config-epoch" ∨ e0 = "leader-epoch" ∨ e0 = "current-epoch"
      ∨ e0 = "down-after-milliseconds" ∨ e0 = "maxclients" then
    return (w, none)
  else
    return ({ w with trace := w.trace ++ [Event.unhandledSentinelDirective entries] }, none)

/-- Method `(*SentinelPodConfig).ConfigIssues` of `src/commands/common.go`. -/
def ConfigIssues (pc : SentinelPodConfig) : List ConfigIssue :=
  let issues : List ConfigIssue := []
  let issues :=
    if lenMap pc.InvalidSentinels > 0 then issues ++ [ConfigIssue.HASINVALIDSENTINELS]
    else issues
  let issues :=
    if (lenMap pc.ConfirmedSentinels : Int) < pc.Quorum then issues ++ [ConfigIssue.NOQUORUM]
    else issues
  let issues :=
    if (lenMap pc.ConfirmedSentinels : Int) < pc.Quorum then
      issues ++ [ConfigIssue.NOTENOUGHSENTINELS]
    else issues
  issues

/-- Successive calls of `extractSentinelDirective`, one per directive; the
returned errors are always nil and are dropped. -/
def runDirectives (w : World) : List (List String) → Except Panic World
  | [] => Except.ok w
  | entries :: rest =>
    match extractSentinelDirective w entries with
    | Except.ok r => runDirectives r.1 rest
    | Except.error e => Except.error e

end Commands

/-- A map with `f` applied to every value. -/
def mapValuesWith {K V V2 : Type} (f : V → V2) (m : GoMap K V) : GoMap K V2 :=
  m.map (fun e => (e.1, f e.2))

/-- The pod of `src/main.go` seen as a pod of `src/commands/common.go`: the
field `Slaves` is dropped. -/
def forgetPod (pc : SentinelPodConfig) : Commands.SentinelPodConfig :=
  { IP := pc.IP, Port := pc.Port, Quorum := pc.Quorum, Name := pc.Name,
    AuthToken := pc.AuthToken, Sentinels := pc.Sentinels,
    ConfirmedSentinels := pc.ConfirmedSentinels, InvalidSentinels := pc.InvalidSentinels }

/-- The topology of `src/main.go` seen as one of `src/commands/common.go`:
every pod without its `Slaves`, everything else as it is. -/
def forgetWorld (w : World) : Commands.World :=
  { lsconf :=
      { Name := w.lsconf.Name, Host := w.lsconf.Host, Port := w.lsconf.Port,
        ManagedPodConfigs := mapValuesWith forgetPod w.lsconf.ManagedPodConfigs,
        Dir := w.lsconf.Dir, KnownSentinels := w.lsconf.KnownSentinels,
        InvalidSentinels := w.lsconf.InvalidSentinels,
        ConfigIssueMapping := mapValuesWith (List.map forgetPod) w.lsconf.ConfigIssueMapping },
    trace := w.trace }

/-- A `known-slave` directive is resolved in `w` when it has its three
arguments and names a pod that `w` already holds; every other directive is. -/
def knownSlaveResolved (w : World) (entries : List String) : Prop :=
  entries.head? = some "known-slave" →
    4 ≤ entries.length ∧ mapHas w.lsconf.ManagedPodConfigs (entries.getD 1 "") = true

/-- Every `known-slave` directive of the sequence is resolved in the topology
that `src/main.go` has reached when the directive is read. -/
def knownSlavesResolved : World → List (List String) → Prop
  | _, [] => True
  | w, d :: ds =>
    knownSlaveResolved w d ∧
      match extractSentinelDirective w d with
      | Except.ok r => knownSlavesResolved r.1 ds
      | Except.error _ => True

/-- The pod name of a `sentinel monitor` line, none for any other line. -/
def monitorName (rawline : String) : Option String :=
  match lineEntries rawline with
  | some (e0 :: e1 :: p :: _) => if e0 = "sentinel" ∧ e1 = "monitor" then some p else none
  | _ => none

/-- No pod of the topology declares a sentinel. -/
def noSentinelDeclared (w : World) : Bool :=
  w.lsconf.ManagedPodConfigs.all (fun kv => (kv.2.Sentinels.getD []).isEmpty)

/-- The line `rawline` is read at a moment that keeps the registry in step
with the declarations: a `bind` or `port` line while no pod declares a
sentinel, a `sentinel monitor` line for a pod that declares no sentinel. -/
def registrySafeLine (w : World) (rawline : String) : Bool :=
  (if (bindHost rawline).isSome || (portValue rawline).isSome then noSentinelDeclared w
   else true) &&
  (match monitorName rawline with
   | some p => ((mapGet w.lsconf.ManagedPodConfigs p).Sentinels.getD []).isEmpty
   | none => true)

/-- Every line of the sequence satisfies `registrySafeLine` in the topology
reached when it is read. -/
def registrySafe : World → List String → Bool
  | _, [] => true
  | w, l :: ls =>
    registrySafeLine w l &&
      (match loadLine w l false with
       | Except.ok r => registrySafe r.1 ls
       | Except.error _ => true)

/-! ## Lemmas on Go maps -/

section MapLemmas
variable {K V : Type} [DecidableEq K]

theorem mapLookup_mapStore_self (m : GoMap K V) (k : K) (v : V) :
    mapLookup (mapStore m k v) k = some v := by
  induction m with
  | nil => simp [mapStore, mapLookup]
  | cons e rest ih =>
    obtain ⟨k', v'⟩ := e
    by_cases h : k' = k
    · simp [mapStore, mapLookup, h]
    · simp [mapStore, mapLookup, h, ih]

theorem mapLookup_mapStore_ne (m : GoMap K V) (k k' : K) (v : V) (h : k' ≠ k) :
    mapLookup (mapStore m k v) k' = mapLookup m k' := by
  induction m with
  | nil => simp [mapStore, mapLookup, Ne.symm h]
  | cons e rest ih =>
    obtain ⟨k0, v0⟩ := e
    by_cases h0 : k0 = k
    · subst h0
      simp [mapStore, mapLookup, Ne.symm h]
    · by_cases h1 : k0 = k'
      · subst h1
        simp [mapStore, mapLookup, h0]
      · simp [mapStore, mapLookup, h0, h1, ih]

theorem mapLookup_eq_none_iff (m : GoMap K V) (k : K) :
    mapLookup m k = none ↔ k ∉ mapKeys m := by
  induction m with
  | nil => simp [mapLookup, mapKeys]
  | cons e rest ih =>
    obtain ⟨k0, v0⟩ := e
    by_cases h0 : k0 = k
    · simp [mapLookup, mapKeys, h0]
    · have ih2 : mapLookup rest k = none ↔ k ∉ List.map Prod.fst rest := ih
      simp [mapLookup, mapKeys, h0, ih2, Ne.symm h0]

theorem mapLookup_mem (m : GoMap K V) (k : K) (v : V) (h : mapLookup m k = some v) :
    (k, v) ∈ m := by
  induction m with
  | nil => simp [mapLookup] at h
  | cons e rest ih =>
    obtain ⟨k0, v0⟩ := e
    by_cases h0 : k0 = k
    · simp [mapLookup, h0] at h
      simp [h0, h]
    · simp [mapLookup, h0] at h
      exact List.mem_cons_of_mem _ (ih h)

theorem mapStore_of_absent (m : GoMap K V) (k : K) (v : V) (h : mapLookup m k = none) :
    mapStore m k v = m ++ [(k, v)] := by
  induction m with
  | nil => rfl
  | cons e rest ih =>
    obtain ⟨k0, v0⟩ := e
    by_cases h0 : k0 = k
    · simp [mapLookup, h0] at h
    · simp [mapLookup, h0] at h
      simp [mapStore, h0, ih h]

theorem mapKeys_mapStore_of_present (m : GoMap K V) (k : K) (v : V)
    (h : mapLookup m k ≠ none) : mapKeys (mapStore m k v) = mapKeys m := by
  induction m with
  | nil => simp [mapLookup] at h
  | cons e rest ih =>
    obtain ⟨k0, v0⟩ := e
    by_cases h0 : k0 = k
    · simp [mapStore, mapKeys, h0]
    · simp [mapLookup, h0] at h
      have ih2 : List.map Prod.fst (mapStore rest k v) = List.map Prod.fst rest := ih h
      simp [mapStore, mapKeys, h0, ih2]

theorem mapWF_mapStore (m : GoMap K V) (k : K) (v : V) (h : mapWF m) :
    mapWF (mapStore m k v) := by
  by_cases hk : mapLookup m k = none
  · rw [mapStore_of_absent m k v hk]
    have hnot := (mapLookup_eq_none_iff m k).mp hk
    unfold mapWF mapKeys at *
    rw [List.map_append, List.nodup_append]
    refine ⟨h, by simp, ?_⟩
    intro a ha hb
    have hb2 : a = k := by simpa using hb
    subst hb2
    exact hnot ha
  · unfold mapWF
    rw [mapKeys_mapStore_of_present m k v hk]
    exact h

theorem mapGet_mapStore_self [Inhabited V] (m : GoMap K V) (k : K) (v : V) :
    mapGet (mapStore m k v) k = v := by
  simp [mapGet, mapLookup_mapStore_self]

theorem mapGet_mapStore_ne [Inhabited V] (m : GoMap K V) (k k' : K) (v : V) (h : k' ≠ k) :
    mapGet (mapStore m k v) k' = mapGet m k' := by
  simp [mapGet, mapLookup_mapStore_ne m k k' v h]

end MapLemmas

/-! ## Lemmas on `strconv.ParseInt` -/

theorem decFrom_cons (n : Nat) (d : Char) (ds : List Char) :
    decFrom n (d :: ds) = decFrom (n * 10 + (d.toNat - '0'.toNat)) ds := rfl

theorem le_decFrom (ds : List Char) : ∀ n, n ≤ decFrom n ds := by
  induction ds with
  | nil => intro n; exact Nat.le_refl n
  | cons d ds ih =>
    intro n
    rw [decFrom_cons]
    have := ih (n * 10 + (d.toNat - '0'.toNat))
    omega

theorem digit_val_le (d : Char) (h : '0' ≤ d ∧ d ≤ '9') : d.toNat - '0'.toNat ≤ 9 := by
  have h2 : d.toNat ≤ '9'.toNat := h.2
  have : '9'.toNat = 57 := by decide
  have : '0'.toNat = 48 := by decide
  omega

theorem parseUintLoop_ok (ds : List Char) :
    ∀ n, (∀ d ∈ ds, '0' ≤ d ∧ d ≤ '9') → decFrom n ds < 2 ^ 64 →
      parseUintLoop ds n = (decFrom n ds, none) := by
  induction ds with
  | nil => intro n _ _; rfl
  | cons d ds ih =>
    intro n hd hlt
    have hdig := hd d (List.mem_cons_self d ds)
    rw [decFrom_cons] at hlt
    have hle := le_decFrom ds (n * 10 + (d.toNat - '0'.toNat))
    have hv := digit_val_le d hdig
    have hrec := ih (n * 10 + (d.toNat - '0'.toNat)) (fun c hc => hd c (List.mem_cons_of_mem d hc)) hlt
    have h64 : (2:Nat) ^ 64 = 18446744073709551616 := by norm_num
    rw [h64] at hlt
    have hmod : (n * 10 + (d.toNat - '0'.toNat)) % 2 ^ 64 = n * 10 + (d.toNat - '0'.toNat) := by
      apply Nat.mod_eq_of_lt; omega
    have hc : ¬ n ≥ cutoff64 := by
      simp only [cutoff64]; omega
    have hov : ¬ ((n * 10 + (d.toNat - '0'.toNat)) % 2 ^ 64 < n * 10 ∨
        (n * 10 + (d.toNat - '0'.toNat)) % 2 ^ 64 > maxUint64) := by
      rw [hmod]; simp only [maxUint64]; omega
    rw [decFrom_cons]
    simp only [parseUintLoop, hdig, and_self, if_true, hc, if_false, hov]
    rw [hmod]; exact hrec

theorem parseUintLoop_none (ds : List Char) :
    ∀ n, n < 2 ^ 64 → (parseUintLoop ds n).2 = none →
      (∀ d ∈ ds, '0' ≤ d ∧ d ≤ '9') ∧ decFrom n ds < 2 ^ 64 := by
  induction ds with
  | nil => intro n hn _; exact ⟨fun d hd => absurd hd (List.not_mem_nil d), hn⟩
  | cons d ds ih =>
    intro n hn h
    have h64 : (2:Nat) ^ 64 = 18446744073709551616 := by norm_num
    by_cases hdig : '0' ≤ d ∧ d ≤ '9'
    · by_cases hc : n ≥ cutoff64
      · simp [parseUintLoop, hdig, hc] at h
      · by_cases hov : ((n * 10 + (d.toNat - '0'.toNat)) % 2 ^ 64 < n * 10 ∨
            (n * 10 + (d.toNat - '0'.toNat)) % 2 ^ 64 > maxUint64)
        · simp only [parseUintLoop, hdig, and_self, if_true, hc, if_false, hov] at h
          simp at h
        · simp only [parseUintLoop, hdig, and_self, if_true, hc, if_false, hov] at h
          have hv := digit_val_le d hdig
          have hmod : (n * 10 + (d.toNat - '0'.toNat)) % 2 ^ 64 = n * 10 + (d.toNat - '0'.toNat) := by
            apply Nat.mod_eq_of_lt
            simp only [cutoff64] at hc
            rw [h64] at hov ⊢
            omega
          rw [hmod] at h
          have hlt : n * 10 + (d.toNat - '0'.toNat) < 2 ^ 64 := by
            rw [← hmod]; exact Nat.mod_lt _ (by norm_num)
          obtain ⟨h1, h2⟩ := ih _ hlt h
          refine ⟨?_, by rw [decFrom_cons]; exact h2⟩
          intro c hcm
          rcases List.mem_cons.mp hcm with rfl | hcm
          · exact hdig
          · exact h1 c hcm
    · simp [parseUintLoop, hdig] at h

theorem parseUintLoop_range (ds : List Char) :
    ∀ n, (parseUintLoop ds n).2 = some NumError.ErrRange →
      (parseUintLoop ds n).1 = maxUint64 := by
  induction ds with
  | nil => intro n h; simp [parseUintLoop] at h
  | cons d ds ih =>
    intro n h
    by_cases hdig : '0' ≤ d ∧ d ≤ '9'
    · by_cases hc : n ≥ cutoff64
      · simp [parseUintLoop, hdig, hc]
      · by_cases hov : ((n * 10 + (d.toNat - '0'.toNat)) % 2 ^ 64 < n * 10 ∨
            (n * 10 + (d.toNat - '0'.toNat)) % 2 ^ 64 > maxUint64)
        · simp only [parseUintLoop, hdig, and_self, if_true, hc, if_false, hov]
        · simp only [parseUintLoop, hdig, and_self, if_true, hc, if_false, hov] at h ⊢
          exact ih _ h
    · simp [parseUintLoop, hdig] at h

theorem ParseInt_cons (c : Char) (cs : List Char) :
    ParseInt ⟨c :: cs⟩ =
      signedOfUint (decide (c = '-'))
        (ParseUint (if c = '+' then cs else if c = '-' then cs else c :: cs)) := rfl

theorem signedOfUint_ok_iff (neg : Bool) (body : List Char) (v : Int) :
    signedOfUint neg (ParseUint body) = (v, none) ↔
      (body ≠ [] ∧ (∀ d ∈ body, '0' ≤ d ∧ d ≤ '9')) ∧
      (if neg then -(decValue body : Int) else (decValue body : Int)) = v ∧
      -(2 ^ 63 : Int) ≤ v ∧ v < 2 ^ 63 := by
  have h63 : (2:Int) ^ 63 = 9223372036854775808 := by norm_num
  have h63n : (2:Nat) ^ 63 = 9223372036854775808 := by norm_num
  have h64 : (2:Nat) ^ 64 = 18446744073709551616 := by norm_num
  cases body with
  | nil => simp [ParseUint, signedOfUint]
  | cons d ds =>
    have hPU : ParseUint (d :: ds) = parseUintLoop (d :: ds) 0 := by simp [ParseUint]
    rw [hPU]
    generalize hr : parseUintLoop (d :: ds) 0 = r
    obtain ⟨un, err⟩ := r
    have hr2 : (parseUintLoop (d :: ds) 0).2 = err := by rw [hr]
    have hr1 : (parseUintLoop (d :: ds) 0).1 = un := by rw [hr]
    -- whenever the right-hand side holds the loop succeeds with the denoted value
    have key : (∀ c ∈ d :: ds, '0' ≤ c ∧ c ≤ '9') → decValue (d :: ds) < 2 ^ 64 →
        err = none ∧ un = decValue (d :: ds) := by
      intro hd hlt
      have := parseUintLoop_ok (d :: ds) 0 hd hlt
      rw [hr] at this
      exact ⟨(Prod.mk.inj this).2, (Prod.mk.inj this).1⟩
    cases err with
    | none =>
      obtain ⟨hd, hlt⟩ := parseUintLoop_none (d :: ds) 0 (by norm_num) hr2
      obtain ⟨-, hun⟩ := key hd hlt
      have hlt2 : decValue (d :: ds) < 2 ^ 64 := hlt
      rw [h64] at hlt2
      cases neg <;>
        simp only [signedOfUint, h63, h63n, Bool.not_false, Bool.not_true, Bool.true_and,
          Bool.false_and, ge_iff_le, gt_iff_lt, decide_eq_true_eq, Bool.false_eq_true,
          if_false, if_true, ne_eq, reduceCtorEq, not_false_eq_true, true_and] <;>
        split_ifs <;> simp only [Prod.mk.injEq, and_true, reduceCtorEq, and_false, false_iff,
          not_and, not_le, not_lt] <;>
        (try constructor) <;> intros <;> (try constructor) <;> (try exact hd) <;> omega
    | some e =>
      have hno : ¬ ((∀ c ∈ d :: ds, '0' ≤ c ∧ c ≤ '9') ∧ decValue (d :: ds) < 2 ^ 64) := by
        rintro ⟨hd, hlt⟩
        have := (key hd hlt).1
        simp at this
      cases e with
      | ErrSyntax =>
        simp only [signedOfUint, Prod.mk.injEq, reduceCtorEq, and_false, false_iff]
        rintro ⟨⟨-, hd⟩, hv, h1, h2⟩
        apply hno
        refine ⟨hd, ?_⟩
        rw [h64]
        cases neg <;> simp at hv <;> omega
      | ErrRange =>
        have hmax := parseUintLoop_range (d :: ds) 0 hr2
        rw [hr1] at hmax
        have hmax2 : un = 18446744073709551615 := by rw [hmax]; simp [maxUint64]
        have hL : (signedOfUint neg (un, some NumError.ErrRange)).2 ≠ none := by
          cases neg <;> simp [signedOfUint, hmax2]
        constructor
        · intro h; rw [h] at hL; exact absurd rfl hL
        · rintro ⟨⟨-, hd⟩, hv, h1, h2⟩
          exfalso; apply hno
          refine ⟨hd, ?_⟩
          rw [h64]
          cases neg <;> simp at hv <;> omega

/-- `ParseInt` succeeds exactly on the integer literals that denote a value
of the signed 64-bit range, and then returns the denoted value. -/
theorem ParseInt_ok_iff (s : String) (v : Int) :
    ParseInt s = (v, none) ↔
      isIntString s = true ∧ intValue s = v ∧ -(2 ^ 63 : Int) ≤ v ∧ v < 2 ^ 63 := by
  obtain ⟨cs⟩ := s
  cases cs with
  | nil => simp [ParseInt, isIntString]
  | cons c cs =>
    rw [ParseInt_cons, signedOfUint_ok_iff]
    simp only [isIntString, intValue, Bool.and_eq_true, Bool.not_eq_true', List.isEmpty_eq_false,
      List.all_eq_true, decide_eq_true_eq, ne_eq, and_assoc]

/-! ## The monitor directive -/

theorem extractSentinelDirective_monitor (w : World) (pname ip ps qs : String) :
    extractSentinelDirective w ["monitor", pname, ip, ps, qs] =
      Except.ok
        (if mapHas w.lsconf.ManagedPodConfigs (sprintfAddr ip (Atoi ps).1) = true then w
         else { w with lsconf := { w.lsconf with
           ManagedPodConfigs := mapStore w.lsconf.ManagedPodConfigs pname
             { Name := pname, IP := ip, Port := (Atoi ps).1, Quorum := (Atoi qs).1,
               Sentinels := some [] } } }, none) := by
  by_cases h : mapHas w.lsconf.ManagedPodConfigs (sprintfAddr ip (Atoi ps).1) = true
  · simp [extractSentinelDirective, index, h, bind, Except.bind, pure, Except.pure]
  · simp [extractSentinelDirective, index, h, bind, Except.bind, pure, Except.pure]

theorem Atoi_of_intString (s : String) (h : isIntString s = true)
    (hlo : -(2 ^ 63 : Int) ≤ intValue s) (hhi : intValue s < 2 ^ 63) :
    Atoi s = (intValue s, none) :=
  (ParseInt_ok_iff s (intValue s)).mpr ⟨h, rfl, hlo, hhi⟩

/-- C1, evaluated on the code: on the empty topology the directives
`monitor a 10.0.0.1 6379 2` and `monitor b 10.0.0.1 6379 2`, which name the same
master ip and port, both leave an entry; the second one is not dropped. -/
theorem monitor_same_address_both_kept :
    runDirectives {}
        [["monitor", "a", "10.0.0.1", "6379", "2"], ["monitor", "b", "10.0.0.1", "6379", "2"]] =
      Except.ok
        { lsconf := { ManagedPodConfigs :=
            [("a", { Name := "a", IP := "10.0.0.1", Port := 6379, Quorum := 2,
                     Sentinels := some [] }),
             ("b", { Name := "b", IP := "10.0.0.1", Port := 6379, Quorum := 2,
                     Sentinels := some [] })] } } := by
  rfl


/-- C2: the duplicate test of `monitor` looks the text `<ip>:<port>` up among
the pod names.  In the topology left by `auth-pass 10.0.0.1:6379 x` the pod
name `p` is not a key and no pod has the master address `10.0.0.1:6379`, yet
`monitor p 10.0.0.1 6379 2` adds no entry: the topology is returned unchanged
and `p` is still not a key. -/
theorem monitor_new_name_dropped :
    runDirectives {} [["auth-pass", "10.0.0.1:6379", "x"]] = Except.ok addressNamedWorld ∧
    mapHas addressNamedWorld.lsconf.ManagedPodConfigs "p" = false ∧
    extractSentinelDirective addressNamedWorld ["monitor", "p", "10.0.0.1", "6379", "2"] =
      Except.ok (addressNamedWorld, none) :=
  ⟨rfl, rfl, rfl⟩

/-- What `monitor <podname> <ip> <port> <quorum>` does when neither `podname`
nor the text `<ip>:<port>` (the port as `Atoi` reads it) is a key of
`ManagedPodConfigs`: the call returns nil and the new map is the old one
followed by exactly one binding, keyed by `podname`, whose `Name`, `IP`, `Port`
and `Quorum` are the given name and ip and the integers `Atoi` returns for the
port and quorum tokens (the denoted integers for integer literals of the
signed 64-bit range), with an empty `Sentinels` map; every other key reads as
before and nothing else in the world changes. -/
theorem monitor_new_pod_adds_entry (w : World) (pname ip ps qs : String)
    (hnew : mapHas w.lsconf.ManagedPodConfigs pname = false)
    (haddr : mapHas w.lsconf.ManagedPodConfigs (sprintfAddr ip (Atoi ps).1) = false) :
    ∃ spc : SentinelPodConfig, ∃ w' : World,
      extractSentinelDirective w ["monitor", pname, ip, ps, qs] = Except.ok (w', none) ∧
      w' = { w with lsconf := { w.lsconf with
              ManagedPodConfigs := w.lsconf.ManagedPodConfigs ++ [(pname, spc)] } } ∧
      spc = { Name := pname, IP := ip, Port := (Atoi ps).1, Quorum := (Atoi qs).1,
              Sentinels := some [] } ∧
      (isIntString ps = true → -(2 ^ 63 : Int) ≤ intValue ps → intValue ps < 2 ^ 63 →
        spc.Port = intValue ps) ∧
      (isIntString qs = true → -(2 ^ 63 : Int) ≤ intValue qs → intValue qs < 2 ^ 63 →
        spc.Quorum = intValue qs) ∧
      mapLookup w'.lsconf.ManagedPodConfigs pname = some spc ∧
      mapLen w'.lsconf.ManagedPodConfigs = mapLen w.lsconf.ManagedPodConfigs + 1 ∧
      (∀ k, k ≠ pname →
        mapLookup w'.lsconf.ManagedPodConfigs k = mapLookup w.lsconf.ManagedPodConfigs k) := by
  have hnone : mapLookup w.lsconf.ManagedPodConfigs pname = none := by
    simpa [mapHas] using hnew
  refine ⟨{ Name := pname, IP := ip, Port := (Atoi ps).1, Quorum := (Atoi qs).1,
            Sentinels := some [] }, _, ?_, rfl, rfl, ?_, ?_, ?_, ?_, ?_⟩
  · rw [extractSentinelDirective_monitor, haddr, mapStore_of_absent _ _ _ hnone]
    simp
  · intro h1 h2 h3
    show (Atoi ps).1 = intValue ps
    rw [Atoi_of_intString ps h1 h2 h3]
  · intro h1 h2 h3
    show (Atoi qs).1 = intValue qs
    rw [Atoi_of_intString qs h1 h2 h3]
  · show mapLookup (w.lsconf.ManagedPodConfigs ++ _) pname = _
    rw [← mapStore_of_absent _ _ _ hnone, mapLookup_mapStore_self]
  · simp [mapLen]
  · intro k hk
    show mapLookup (w.lsconf.ManagedPodConfigs ++ _) k = _
    rw [← mapStore_of_absent _ _ _ hnone, mapLookup_mapStore_ne _ _ _ _ hk]

/-! ## The findings of one pod -/

/-- C3: for every pod, `ConfigIssues` lists `NOQUORUM` exactly when
`len(ConfirmedSentinels) < Quorum`, and lists `NOTENOUGHSENTINELS` exactly
when `len(ConfirmedSentinels) < Quorum`: both are present below the quorum and
both are absent at or above it. -/
theorem ConfigIssues_quorum_findings (pc : SentinelPodConfig) :
    (ConfigIssue.NOQUORUM ∈ ConfigIssues pc ↔
      (lenMap pc.ConfirmedSentinels : Int) < pc.Quorum) ∧
    (ConfigIssue.NOTENOUGHSENTINELS ∈ ConfigIssues pc ↔
      (lenMap pc.ConfirmedSentinels : Int) < pc.Quorum) := by
  unfold ConfigIssues
  by_cases hq : (lenMap pc.ConfirmedSentinels : Int) < pc.Quorum <;>
    by_cases hi : lenMap pc.InvalidSentinels > 0 <;>
    simp [hq, hi]

/-- C4: for every pod, `ConfigIssues` lists `HASINVALIDSENTINELS` exactly when
`len(InvalidSentinels) > 0`, whatever `Quorum` and `ConfirmedSentinels` are. -/
theorem ConfigIssues_invalid_finding (pc : SentinelPodConfig) :
    ConfigIssue.HASINVALIDSENTINELS ∈ ConfigIssues pc ↔ 0 < lenMap pc.InvalidSentinels := by
  unfold ConfigIssues
  by_cases hq : (lenMap pc.ConfirmedSentinels : Int) < pc.Quorum <;>
    by_cases hi : lenMap pc.InvalidSentinels > 0 <;>
    simp [hq, hi]


/-! ## Duplicate master IPs -/

theorem two_le_countP {α : Type} (p : α → Bool) (l : List α) (a b : α)
    (ha : a ∈ l) (hb : b ∈ l) (hab : a ≠ b) (pa : p a = true) (pb : p b = true) :
    2 ≤ l.countP p := by
  induction l with
  | nil => simp at ha
  | cons x l ih =>
    rcases List.mem_cons.mp ha with rfl | ha'
    · rcases List.mem_cons.mp hb with hb' | hb'
      · exact absurd hb'.symm hab
      · have : 0 < l.countP p := List.countP_pos_iff.mpr ⟨b, hb', pb⟩
        rw [List.countP_cons_of_pos p l pa]
        omega
    · rcases List.mem_cons.mp hb with rfl | hb'
      · have : 0 < l.countP p := List.countP_pos_iff.mpr ⟨a, ha', pa⟩
        rw [List.countP_cons_of_pos p l pb]
        omega
      · have := ih ha' hb'
        rw [List.countP_cons]
        omega

theorem countP_le_one_of_unique {α : Type} (p : α → Bool) (l : List α) (a : α)
    (hnd : l.Nodup) (huniq : ∀ e ∈ l, p e = true → e = a) : l.countP p ≤ 1 := by
  induction l with
  | nil => simp
  | cons x l ih =>
    obtain ⟨hx, hl⟩ := List.nodup_cons.mp hnd
    by_cases px : p x = true
    · have hxa : x = a := huniq x (List.mem_cons_self x l) px
      have hzero : l.countP p = 0 := by
        rw [List.countP_eq_zero]
        intro e he pe
        have := huniq e (List.mem_cons_of_mem x he) pe
        rw [this, ← hxa] at he
        exact hx he
      rw [List.countP_cons_of_pos p l px, hzero]
    · rw [List.countP_cons_of_neg p l px]
      exact ih hl (fun e he pe => huniq e (List.mem_cons_of_mem x he) pe)

theorem mapWF_unique {K V : Type} [DecidableEq K] (m : GoMap K V) (h : mapWF m) (k : K)
    (v v' : V) (hv : (k, v) ∈ m) (hv' : (k, v') ∈ m) : v = v' := by
  induction m with
  | nil => simp at hv
  | cons e rest ih =>
    unfold mapWF mapKeys at h
    rw [List.map_cons, List.nodup_cons] at h
    obtain ⟨hnot, hrest⟩ := h
    rcases List.mem_cons.mp hv with h1 | h1
    · rcases List.mem_cons.mp hv' with h2 | h2
      · have := h1.trans h2.symm
        exact (Prod.mk.inj this).2
      · exfalso; apply hnot
        rw [← h1]
        exact List.mem_map.mpr ⟨(k, v'), h2, rfl⟩
    · rcases List.mem_cons.mp hv' with h2 | h2
      · exfalso; apply hnot
        rw [← h2]
        exact List.mem_map.mpr ⟨(k, v), h1, rfl⟩
      · exact ih hrest h1 h2

theorem issuePods_emit (w : World) (e : Event) (i : ConfigIssue) :
    issuePods (emit w e) i = issuePods w i := rfl

theorem issuePods_appendIssue_self (w : World) (i : ConfigIssue) (v : SentinelPodConfig) :
    issuePods (appendIssue w i v) i = issuePods w i ++ [v] := by
  simp [issuePods, appendIssue, mapGet_mapStore_self]

theorem issuePods_appendIssue_ne (w : World) (i j : ConfigIssue) (v : SentinelPodConfig)
    (h : j ≠ i) : issuePods (appendIssue w i v) j = issuePods w j := by
  simp [issuePods, appendIssue, mapGet_mapStore_ne _ _ _ _ h]

theorem dupeMasterStep_of_seen (dial : String → String → Bool) (w : World)
    (v opod : SentinelPodConfig) (h : mapLookup w.masterIPtoPodMapping v.IP = some opod) :
    issuePods (dupeMasterStep dial w v) ConfigIssue.DUPLICATEMASTERIP =
        issuePods w ConfigIssue.DUPLICATEMASTERIP ++ [v, opod] ∧
      (dupeMasterStep dial w v).masterIPtoPodMapping = w.masterIPtoPodMapping := by
  unfold dupeMasterStep
  rw [h]
  simp only
  split_ifs <;>
    simp [issuePods, emit, appendIssue, mapGet_mapStore_self]

theorem dupeMasterStep_of_unseen (dial : String → String → Bool) (w : World)
    (v : SentinelPodConfig) (h : mapLookup w.masterIPtoPodMapping v.IP = none) :
    issuePods (dupeMasterStep dial w v) ConfigIssue.DUPLICATEMASTERIP =
        issuePods w ConfigIssue.DUPLICATEMASTERIP ∧
      (dupeMasterStep dial w v).masterIPtoPodMapping =
        mapStore w.masterIPtoPodMapping v.IP v := by
  unfold dupeMasterStep
  rw [h]
  exact ⟨rfl, rfl⟩


theorem DupeMasterInv_step (dial : String → String → Bool) (pre : List SentinelPodConfig)
    (w : World) (v : SentinelPodConfig) (hinv : DupeMasterInv pre w) :
    DupeMasterInv (pre ++ [v]) (dupeMasterStep dial w v) := by
  obtain ⟨h1, h2, h3⟩ := hinv
  have hcount : ∀ x : SentinelPodConfig,
      (pre ++ [v]).countP (fun p => decide (p.IP = x.IP)) =
        pre.countP (fun p => decide (p.IP = x.IP)) + (if v.IP = x.IP then 1 else 0) := by
    intro x
    rw [List.countP_append, List.countP_cons, List.countP_nil]
    simp
  cases hL : mapLookup w.masterIPtoPodMapping v.IP with
  | none =>
    obtain ⟨hi, hm⟩ := dupeMasterStep_of_unseen dial w v hL
    have hno : ∀ a ∈ pre, a.IP ≠ v.IP := (h1 v.IP).mp hL
    refine ⟨?_, ?_, ?_⟩
    · intro ip
      rw [hm]
      by_cases hip : ip = v.IP
      · subst hip
        rw [mapLookup_mapStore_self]
        constructor
        · intro h; exact absurd h (by simp)
        · intro h; exact absurd rfl (h v (by simp))
      · rw [mapLookup_mapStore_ne _ _ _ _ hip, h1 ip]
        constructor
        · intro h a ha
          rcases List.mem_append.mp ha with ha | ha
          · exact h a ha
          · have : a = v := by simpa using ha
            rw [this]; exact fun e => hip e.symm
        · intro h a ha
          exact h a (List.mem_append_left _ ha)
    · intro ip opod
      rw [hm]
      by_cases hip : ip = v.IP
      · subst hip
        rw [mapLookup_mapStore_self]
        intro h
        have : v = opod := by simpa using h
        subst this
        exact ⟨by simp, rfl⟩
      · rw [mapLookup_mapStore_ne _ _ _ _ hip]
        intro h
        obtain ⟨ha, hb⟩ := h2 ip opod h
        exact ⟨List.mem_append_left _ ha, hb⟩
    · intro x
      rw [hi, h3 x, hcount x]
      constructor
      · rintro ⟨hx, hc⟩
        exact ⟨List.mem_append_left _ hx, by omega⟩
      · rintro ⟨hx, hc⟩
        by_cases hvx : v.IP = x.IP
        · have hzero : pre.countP (fun p => decide (p.IP = x.IP)) = 0 := by
            rw [List.countP_eq_zero]
            intro a ha
            have := hno a ha
            rw [hvx] at this
            simpa using this
          rw [hzero, if_pos hvx] at hc
          omega
        · rw [if_neg hvx] at hc
          rcases List.mem_append.mp hx with hx | hx
          · exact ⟨hx, by omega⟩
          · have : x = v := by simpa using hx
            rw [this] at hvx
            exact absurd rfl hvx
  | some opod =>
    obtain ⟨hi, hm⟩ := dupeMasterStep_of_seen dial w v opod hL
    obtain ⟨hop, hopIP⟩ := h2 _ _ hL
    refine ⟨?_, ?_, ?_⟩
    · intro ip
      rw [hm, h1 ip]
      constructor
      · intro h a ha
        rcases List.mem_append.mp ha with ha | ha
        · exact h a ha
        · have hav : a = v := by simpa using ha
          rw [hav]
          intro e
          exact h opod hop (hopIP.trans e)
      · intro h a ha
        exact h a (List.mem_append_left _ ha)
    · intro ip o
      rw [hm]
      intro h
      obtain ⟨ha, hb⟩ := h2 ip o h
      exact ⟨List.mem_append_left _ ha, hb⟩
    · intro x
      rw [hi, hcount x, List.mem_append, h3 x]
      constructor
      · rintro (⟨hx, hc⟩ | hx)
        · exact ⟨List.mem_append_left _ hx, by omega⟩
        · have hpos : ∀ y : SentinelPodConfig, y.IP = v.IP →
              0 < pre.countP (fun p => decide (p.IP = y.IP)) := by
            intro y hy
            rw [List.countP_pos_iff]
            exact ⟨opod, hop, by simp [hopIP, hy]⟩
          have hx2 : x = v ∨ x = opod := by simpa using hx
          rcases hx2 with rfl | rfl
          · have := hpos x rfl
            rw [if_pos rfl]
            exact ⟨by simp, by omega⟩
          · have := hpos x hopIP
            rw [if_pos hopIP.symm]
            exact ⟨List.mem_append_left _ hop, by omega⟩
      · rintro ⟨hx, hc⟩
        rcases List.mem_append.mp hx with hx | hx
        · by_cases h2c : 2 ≤ pre.countP (fun p => decide (p.IP = x.IP))
          · exact Or.inl ⟨hx, h2c⟩
          · right
            have hvx : v.IP = x.IP := by
              by_contra hne
              rw [if_neg hne] at hc
              omega
            have hxo : x = opod := by
              by_contra hne
              apply h2c
              exact two_le_countP _ pre x opod hx hop hne (by simp)
                (by simp [hopIP, hvx])
            simp [hxo]
        · right
          have : x = v := by simpa using hx
          simp [this]

theorem DupeMasterInv_foldl (dial : String → String → Bool) (vs : List SentinelPodConfig) :
    ∀ (pre : List SentinelPodConfig) (w : World), DupeMasterInv pre w →
      DupeMasterInv (pre ++ vs) (vs.foldl (dupeMasterStep dial) w) := by
  induction vs with
  | nil => intro pre w h; simpa using h
  | cons v vs ih =>
    intro pre w h
    have := ih (pre ++ [v]) (dupeMasterStep dial w v) (DupeMasterInv_step dial pre w v h)
    simpa using this


theorem DupeMasterInv_init (w : World) (hempty : w.lsconf.ConfigIssueMapping = []) :
    DupeMasterInv []
      { emit w Event.lookingForDuplicatedMasterIPs with masterIPtoPodMapping := [] } := by
  refine ⟨?_, ?_, ?_⟩
  · intro ip; simp [mapLookup]
  · intro ip opod h; simp [mapLookup] at h
  · intro x
    simp only [issuePods, emit, hempty, mapGet, mapLookup, Option.getD_none]
    constructor
    · intro h; exact absurd h (List.not_mem_nil x)
    · rintro ⟨h, -⟩; exact absurd h (List.not_mem_nil x)

/-- C5: let the managed pods be any map (no key bound twice), let the issue
index be empty, and let `FindDupeMasterIPs` visit the pods in any order (any
permutation of the map's entries), with any dial outcomes.  Then a managed pod
is listed under `DUPLICATEMASTERIP` if and only if a pod under another key has
the same master IP. -/
theorem FindDupeMasterIPs_lists_exactly_sharers (dial : String → String → Bool) (w : World)
    (order : List (String × SentinelPodConfig))
    (hwf : mapWF w.lsconf.ManagedPodConfigs)
    (hperm : order.Perm w.lsconf.ManagedPodConfigs)
    (hempty : w.lsconf.ConfigIssueMapping = [])
    (k : String) (v : SentinelPodConfig) (hkv : (k, v) ∈ w.lsconf.ManagedPodConfigs) :
    v ∈ issuePods (FindDupeMasterIPs dial (order.map Prod.snd) w)
          ConfigIssue.DUPLICATEMASTERIP ↔
      ∃ k' v', (k', v') ∈ w.lsconf.ManagedPodConfigs ∧ k' ≠ k ∧ v'.IP = v.IP := by
  have hinv := DupeMasterInv_foldl dial (order.map Prod.snd) [] _ (DupeMasterInv_init w hempty)
  have h3 := hinv.2.2 v
  rw [List.nil_append] at h3
  have hfold : FindDupeMasterIPs dial (order.map Prod.snd) w =
      (order.map Prod.snd).foldl (dupeMasterStep dial)
        { emit w Event.lookingForDuplicatedMasterIPs with masterIPtoPodMapping := [] } := rfl
  rw [hfold, h3]
  have hcnt : (order.map Prod.snd).countP (fun p => decide (p.IP = v.IP)) =
      w.lsconf.ManagedPodConfigs.countP (fun e => decide (e.2.IP = v.IP)) := by
    rw [List.countP_map]
    exact hperm.countP_eq _
  have hmem : v ∈ order.map Prod.snd :=
    List.mem_map.mpr ⟨(k, v), hperm.symm.subset hkv, rfl⟩
  have hnd : w.lsconf.ManagedPodConfigs.Nodup := List.Nodup.of_map Prod.fst hwf
  rw [hcnt]
  constructor
  · rintro ⟨-, hc⟩
    by_contra hnone
    have huniq : ∀ e ∈ w.lsconf.ManagedPodConfigs,
        (fun e : String × SentinelPodConfig => decide (e.2.IP = v.IP)) e = true → e = (k, v) := by
      rintro ⟨k', v'⟩ he hp
      have hip : v'.IP = v.IP := by simpa using hp
      by_cases hk : k' = k
      · subst hk
        rw [mapWF_unique _ hwf k' v' v he hkv]
      · exact absurd ⟨k', v', he, hk, hip⟩ hnone
    have := countP_le_one_of_unique _ _ (k, v) hnd huniq
    omega
  · rintro ⟨k', v', he, hk, hip⟩
    refine ⟨hmem, ?_⟩
    apply two_le_countP _ _ (k, v) (k', v') hkv he
    · intro h; exact hk (Prod.mk.inj h).1.symm
    · simp
    · simp [hip]

/-- C5, witness: in the three-pod topology visited in the order `c`, `b`, `a`,
pod `a` is listed because pod `b` shares its master IP. -/
theorem FindDupeMasterIPs_lists_exactly_sharers_witness :
    mapWF threePodWorld.lsconf.ManagedPodConfigs ∧
    threePodWorld.lsconf.ManagedPodConfigs.reverse.Perm threePodWorld.lsconf.ManagedPodConfigs ∧
    threePodWorld.lsconf.ConfigIssueMapping = [] ∧
    (("a", { Name := "a", IP := "10.0.0.1", Port := 6379, Quorum := 2, Sentinels := some [] }) :
        String × SentinelPodConfig) ∈ threePodWorld.lsconf.ManagedPodConfigs ∧
    (({ Name := "a", IP := "10.0.0.1", Port := 6379, Quorum := 2, Sentinels := some [] } :
        SentinelPodConfig) ∈
        issuePods (FindDupeMasterIPs (fun _ _ => true)
          (threePodWorld.lsconf.ManagedPodConfigs.reverse.map Prod.snd) threePodWorld)
          ConfigIssue.DUPLICATEMASTERIP ↔
      ∃ k' v', (k', v') ∈ threePodWorld.lsconf.ManagedPodConfigs ∧ k' ≠ "a" ∧
        v'.IP = ({ Name := "a", IP := "10.0.0.1", Port := 6379, Quorum := 2,
                   Sentinels := some [] } : SentinelPodConfig).IP) :=
  ⟨by decide, List.reverse_perm _, rfl, by decide,
    FindDupeMasterIPs_lists_exactly_sharers (fun _ _ => true) threePodWorld
      threePodWorld.lsconf.ManagedPodConfigs.reverse (by decide) (List.reverse_perm _) rfl
      "a" _ (by decide)⟩


/-! ## Duplicate replica addresses -/

/-- C6, evaluated on the code: pod `b` declares the replica `10.0.0.1:6379`,
which is the master address of pod `a`; after `FindDupeMasterIPs` and
`FindDupeSlaveIPs`, in either visiting order and for any dial outcomes, no pod
is listed under `DUPLICATESLAVEIP`. -/
theorem replica_on_master_address_not_listed (dial : String → String → Bool) :
    runDirectives {}
        [["monitor", "a", "10.0.0.1", "6379", "2"], ["monitor", "b", "10.0.0.2", "6379", "2"],
         ["known-slave", "b", "10.0.0.1", "6379"]] = Except.ok replicaOnMasterWorld ∧
    issuePods
        (FindDupeSlaveIPs (mapValues replicaOnMasterWorld.lsconf.ManagedPodConfigs)
          (FindDupeMasterIPs dial (mapValues replicaOnMasterWorld.lsconf.ManagedPodConfigs)
            replicaOnMasterWorld))
        ConfigIssue.DUPLICATESLAVEIP = [] ∧
    issuePods
        (FindDupeSlaveIPs (mapValues replicaOnMasterWorld.lsconf.ManagedPodConfigs).reverse
          (FindDupeMasterIPs dial (mapValues replicaOnMasterWorld.lsconf.ManagedPodConfigs).reverse
            replicaOnMasterWorld))
        ConfigIssue.DUPLICATESLAVEIP = [] :=
  ⟨rfl, rfl, rfl⟩

/-! ## The reply decoder -/

theorem buildIter_snd (step : StructField → Value → Value) (fields : List StructField)
    (st : Struct × Option NumError) (i : Nat) : (buildIter step fields st i).2 = st.2 := by
  unfold buildIter
  split <;> rfl

theorem buildIter_length (step : StructField → Value → Value) (fields : List StructField)
    (st : Struct × Option NumError) (i : Nat) :
    (buildIter step fields st i).1.length = st.1.length := by
  unfold buildIter
  split
  · simp
  · rfl

theorem buildIter_getElem?_ne (step : StructField → Value → Value) (fields : List StructField)
    (st : Struct × Option NumError) (i j : Nat) (h : i ≠ j) :
    (buildIter step fields st i).1[j]? = st.1[j]? := by
  unfold buildIter
  split
  · simp [List.getElem?_set_ne h]
  · rfl

theorem buildIter_getElem?_self (step : StructField → Value → Value)
    (fields : List StructField) (st : Struct × Option NumError) (i : Nat) (p : StructField)
    (f : Value) (hp : fields[i]? = some p) (hf : st.1[i]? = some f) :
    (buildIter step fields st i).1[i]? = some (step p f) := by
  unfold buildIter
  rw [hp, hf]
  have hlt : i < st.1.length := by
    rcases Nat.lt_or_ge i st.1.length with h | h
    · exact h
    · rw [List.getElem?_eq_none h] at hf; exact absurd hf (by simp)
  simp [List.getElem?_set_self hlt]

theorem foldl_buildIter (step : StructField → Value → Value) (fields : List StructField)
    (is : List Nat) (hnd : is.Nodup) :
    ∀ st : Struct × Option NumError,
      (is.foldl (buildIter step fields) st).2 = st.2 ∧
      (is.foldl (buildIter step fields) st).1.length = st.1.length ∧
      (∀ j, j ∉ is → (is.foldl (buildIter step fields) st).1[j]? = st.1[j]?) ∧
      (∀ j p f, j ∈ is → fields[j]? = some p → st.1[j]? = some f →
        (is.foldl (buildIter step fields) st).1[j]? = some (step p f)) := by
  induction is with
  | nil => intro st; simp
  | cons i is ih =>
    intro st
    obtain ⟨hi, hnd'⟩ := List.nodup_cons.mp hnd
    obtain ⟨h1, h2, h3, h4⟩ := ih hnd' (buildIter step fields st i)
    rw [List.foldl_cons]
    refine ⟨?_, ?_, ?_, ?_⟩
    · rw [h1, buildIter_snd]
    · rw [h2, buildIter_length]
    · intro j hj
      have hji : i ≠ j := fun e => hj (by simp [e])
      have hjis : j ∉ is := fun e => hj (List.mem_cons_of_mem i e)
      rw [h3 j hjis, buildIter_getElem?_ne _ _ _ _ _ hji]
    · intro j p f hj hp hf
      rcases List.mem_cons.mp hj with rfl | hj
      · rw [h3 j hi]
        exact buildIter_getElem?_self _ _ _ _ p f hp hf
      · have hji : i ≠ j := fun e => hi (e ▸ hj)
        apply h4 j p f hj hp
        rw [buildIter_getElem?_ne _ _ _ _ _ hji]
        exact hf

/-- The reflection loop returns the nil error and fills field `i` with what the
loop body computes from the zero value of that field. -/
theorem buildStruct_spec (step : StructField → Value → Value) (fields : List StructField) :
    (buildStruct step fields).2 = none ∧
    (buildStruct step fields).1.length = fields.length ∧
    (∀ (i : Nat) (p : StructField), fields[i]? = some p →
      (buildStruct step fields).1[i]? = some (step p (zeroValue p.Typ))) := by
  obtain ⟨h1, h2, -, h4⟩ := foldl_buildIter step fields (List.range fields.length)
    (List.nodup_range _) (zeroStruct fields, none)
  refine ⟨h1, ?_, ?_⟩
  · rw [buildStruct, h2]
    simp [zeroStruct]
  · intro i p hp
    have hlt : i < fields.length := by
      rcases Nat.lt_or_ge i fields.length with h | h
      · exact h
      · rw [List.getElem?_eq_none h] at hp; exact absurd hp (by simp)
    apply h4 i p (zeroValue p.Typ) (List.mem_range.mpr hlt) hp
    simp [zeroStruct, hp]


theorem ParseInt_empty : ParseInt "" = (0, some NumError.ErrSyntax) := rfl

theorem setBoolField_false (info : GoMap String String) (tag : String) :
    setBoolField info tag (Value.bool false) =
      Value.bool (decide (mapGet info tag ≠ "" ∧ (ParseInt (mapGet info tag)).2 = none ∧
        0 < (ParseInt (mapGet info tag)).1)) := by
  unfold setBoolField
  by_cases hs : mapGet info tag = ""
  · simp [hs]
  · rcases hP : ParseInt (mapGet info tag) with ⟨val, err⟩
    cases err with
    | none =>
      by_cases hv : val > 0
      · simp [hs, hv]
      · simp [hs, hv]
    | some e => simp [hs]

theorem masterFieldStep_zero (info : GoMap String String) (p : StructField) :
    masterFieldStep info p (zeroValue p.Typ) = decodeField info p := by
  rcases p with ⟨name, typ, tag⟩
  cases typ with
  | int =>
    simp only [masterFieldStep, decodeField, zeroValue, if_true, reduceCtorEq, if_false]
    by_cases hs : mapGet info tag = ""
    · simp [hs, ParseInt_empty]
    · rcases hP : ParseInt (mapGet info tag) with ⟨val, err⟩
      cases err <;> simp [hs]
  | string => simp [masterFieldStep, decodeField]
  | bool => simp [masterFieldStep, decodeField, zeroValue, setBoolField_false]

theorem slaveFieldStep_zero (info : GoMap String String) (p : StructField) :
    slaveFieldStep info p (zeroValue p.Typ) = decodeField info p := by
  rcases p with ⟨name, typ, tag⟩
  cases typ with
  | int =>
    simp only [slaveFieldStep, decodeField, zeroValue, if_true, reduceCtorEq, if_false]
    rcases hP : ParseInt (mapGet info tag) with ⟨val, err⟩
    cases err <;> simp
  | string => simp [slaveFieldStep, decodeField]
  | bool => simp [slaveFieldStep, decodeField, zeroValue, setBoolField_false]

theorem sentinelFieldStep_eq_slaveFieldStep : sentinelFieldStep = slaveFieldStep := rfl

theorem masterFieldStep_int_eq_slaveFieldStep (info : GoMap String String) (p : StructField)
    (hint : p.Typ = GoType.int) (f : Value) :
    masterFieldStep info p f = slaveFieldStep info p f := by
  simp only [masterFieldStep, slaveFieldStep, hint, if_true, reduceCtorEq, if_false]
  by_cases hs : mapGet info p.Tag = ""
  · simp [hs, ParseInt_empty]
  · simp [hs]

/-- Every decoder fills field `i` with the coercion of `info[tag]` that
`decodeField` describes, returns the nil error and a struct with all its fields. -/
theorem decoders_spec (d : (GoMap String String → Struct × Option NumError) × List StructField)
    (hd : d ∈ decoders) (info : GoMap String String) :
    (d.1 info).2 = none ∧ (d.1 info).1.length = d.2.length ∧
    (∀ (i : Nat) (p : StructField), d.2[i]? = some p →
      (d.1 info).1[i]? = some (decodeField info p)) := by
  simp only [decoders, List.mem_cons, List.mem_singleton, List.not_mem_nil, or_false] at hd
  rcases hd with rfl | rfl | rfl
  · obtain ⟨h1, h2, h3⟩ := buildStruct_spec (masterFieldStep info) MasterInfoFields
    refine ⟨h1, h2, ?_⟩
    intro i p hp
    show (buildStruct (masterFieldStep info) MasterInfoFields).1[i]? = _
    rw [h3 i p hp, masterFieldStep_zero]
  · obtain ⟨h1, h2, h3⟩ := buildStruct_spec (slaveFieldStep info) SlaveInfoFields
    refine ⟨h1, h2, ?_⟩
    intro i p hp
    show (buildStruct (slaveFieldStep info) SlaveInfoFields).1[i]? = _
    rw [h3 i p hp, slaveFieldStep_zero]
  · obtain ⟨h1, h2, h3⟩ := buildStruct_spec (sentinelFieldStep info) SentinelInfoFields
    refine ⟨h1, h2, ?_⟩
    intro i p hp
    show (buildStruct (sentinelFieldStep info) SentinelInfoFields).1[i]? = _
    rw [h3 i p hp, sentinelFieldStep_eq_slaveFieldStep, slaveFieldStep_zero]

theorem decodeField_congr (info1 info2 : GoMap String String) (p : StructField)
    (h : mapLookup info1 p.Tag = mapLookup info2 p.Tag) :
    decodeField info1 p = decodeField info2 p := by
  have hg : mapGet info1 p.Tag = mapGet info2 p.Tag := by simp [mapGet, h]
  simp [decodeField, hg]

theorem decodeField_absent (info : GoMap String String) (p : StructField)
    (h : mapLookup info p.Tag = none) : decodeField info p = zeroValue p.Typ := by
  have hg : mapGet info p.Tag = "" := by simp [mapGet, h]
  rcases p with ⟨name, typ, tag⟩
  cases typ <;> simp [decodeField, zeroValue, hg, ParseInt_empty] at *


theorem mapLookup_mapDelete_ne {K V : Type} [DecidableEq K] (m : GoMap K V) (k k' : K)
    (h : k' ≠ k) : mapLookup (mapDelete m k) k' = mapLookup m k' := by
  induction m with
  | nil => rfl
  | cons e rest ih =>
    obtain ⟨k0, v0⟩ := e
    by_cases h0 : k0 = k
    · subst h0
      simp [mapDelete, mapLookup, Ne.symm h]
    · by_cases h1 : k0 = k'
      · subst h1
        simp [mapDelete, mapLookup, h0]
      · simp [mapDelete, mapLookup, h0, h1, ih]

theorem mapLookup_mapDelete_self {K V : Type} [DecidableEq K] (m : GoMap K V) (k : K)
    (hwf : mapWF m) : mapLookup (mapDelete m k) k = none := by
  induction m with
  | nil => rfl
  | cons e rest ih =>
    obtain ⟨k0, v0⟩ := e
    unfold mapWF mapKeys at hwf
    rw [List.map_cons, List.nodup_cons] at hwf
    by_cases h0 : k0 = k
    · subst h0
      simp only [mapDelete, if_true]
      exact (mapLookup_eq_none_iff rest k0).mpr hwf.1
    · simp only [mapDelete, h0, if_false, mapLookup]
      exact ih hwf.2

theorem ParseInt_nil_error_iff (s : String) :
    (ParseInt s).2 = none ↔
      isIntString s = true ∧ -(2 ^ 63 : Int) ≤ intValue s ∧ intValue s < 2 ^ 63 := by
  constructor
  · intro h
    have hp : ParseInt s = ((ParseInt s).1, none) := Prod.ext rfl h
    obtain ⟨h1, h2, h3, h4⟩ := (ParseInt_ok_iff s _).mp hp
    rw [← h2] at h3 h4
    exact ⟨h1, h3, h4⟩
  · rintro ⟨h1, h2, h3⟩
    rw [(ParseInt_ok_iff s (intValue s)).mpr ⟨h1, rfl, h2, h3⟩]

theorem ParseInt_value_of_nil_error (s : String) (h : (ParseInt s).2 = none) :
    (ParseInt s).1 = intValue s := by
  have hp : ParseInt s = ((ParseInt s).1, none) := Prod.ext rfl h
  exact ((ParseInt_ok_iff s _).mp hp).2.1.symm

theorem isIntString_ne_empty (s : String) (h : isIntString s = true) : s ≠ "" := by
  intro e
  rw [e] at h
  exact absurd h (by decide)

/-- C7, counterexample: `9223372036854775808` is an integer literal denoting a
positive integer, yet `buildMasterInfoStruct` leaves `IsMasterDown` false for
it, because `ParseInt` reports a range error. -/
theorem bool_field_false_beyond_int64 :
    isIntString "9223372036854775808" = true ∧
    0 < intValue "9223372036854775808" ∧
    ParseInt "9223372036854775808" = (9223372036854775807, some NumError.ErrRange) ∧
    fieldValue MasterInfoFields
        (buildMasterInfoStruct [("is-master-down", "9223372036854775808")]).1 "IsMasterDown" =
      some (Value.bool false) :=
  ⟨by decide, by decide, by decide, by decide⟩

/-- C7, amended: for each of the three decoders, every input map and every
boolean field, the decoded field is true if and only if the value at its source
key is an integer literal (optional sign, then decimal digits: so present and
not empty) that denotes an integer greater than zero and at most `2^63 - 1`.
In particular an absent key, the empty value, a value that is not an integer
literal and the value `0` give false, and the value `1` gives true. -/
theorem bool_field_true_iff
    (d : (GoMap String String → Struct × Option NumError) × List StructField)
    (hd : d ∈ decoders) (info : GoMap String String) (i : Nat) (p : StructField)
    (hp : d.2[i]? = some p) (hb : p.Typ = GoType.bool) :
    ∃ b : Bool, (d.1 info).1[i]? = some (Value.bool b) ∧
      (b = true ↔ isIntString (mapGet info p.Tag) = true ∧ 0 < intValue (mapGet info p.Tag) ∧
        intValue (mapGet info p.Tag) < 2 ^ 63) ∧
      (mapLookup info p.Tag = none → b = false) ∧
      (mapGet info p.Tag = "" → b = false) ∧
      (isIntString (mapGet info p.Tag) = false → b = false) ∧
      (mapGet info p.Tag = "0" → b = false) ∧
      (mapGet info p.Tag = "1" → b = true) := by
  obtain ⟨-, -, h3⟩ := decoders_spec d hd info
  have hiff : (mapGet info p.Tag ≠ "" ∧ (ParseInt (mapGet info p.Tag)).2 = none ∧
        0 < (ParseInt (mapGet info p.Tag)).1) ↔
      (isIntString (mapGet info p.Tag) = true ∧ 0 < intValue (mapGet info p.Tag) ∧
        intValue (mapGet info p.Tag) < 2 ^ 63) := by
    constructor
    · rintro ⟨-, h2, h4⟩
      obtain ⟨a1, -, a3⟩ := (ParseInt_nil_error_iff _).mp h2
      rw [ParseInt_value_of_nil_error _ h2] at h4
      exact ⟨a1, h4, a3⟩
    · rintro ⟨a1, a2, a3⟩
      have h2 : (ParseInt (mapGet info p.Tag)).2 = none :=
        (ParseInt_nil_error_iff _).mpr ⟨a1, by omega, a3⟩
      refine ⟨isIntString_ne_empty _ a1, h2, ?_⟩
      rw [ParseInt_value_of_nil_error _ h2]
      exact a2
  have hb' : ∀ b : Bool, b = false ↔ ¬ (b = true) := by intro b; cases b <;> simp
  refine ⟨decide (mapGet info p.Tag ≠ "" ∧ (ParseInt (mapGet info p.Tag)).2 = none ∧
        0 < (ParseInt (mapGet info p.Tag)).1), ?_, ?_, ?_, ?_, ?_, ?_, ?_⟩
  · rw [h3 i p hp]
    simp only [decodeField, hb]
  · rw [decide_eq_true_iff]; exact hiff
  · intro h
    have hg : mapGet info p.Tag = "" := by simp [mapGet, h]
    rw [hb', decide_eq_true_iff, hg]
    simp
  · intro hg
    rw [hb', decide_eq_true_iff, hg]
    simp
  · intro h
    rw [hb', decide_eq_true_iff, hiff, h]
    simp
  · intro hg
    rw [hb', decide_eq_true_iff, hg]
    decide
  · intro hg
    rw [decide_eq_true_iff, hg]
    decide

/-- C7, witness: field 6 of `SlaveInfo` is the boolean `IsMasterDown`, and the
map binding `is-master-down` to `1` decodes it to true. -/
theorem bool_field_true_iff_witness :
    (buildSlaveInfoStruct, SlaveInfoFields) ∈ decoders ∧
    SlaveInfoFields[6]? = some ⟨"IsMasterDown", GoType.bool, "is-master-down"⟩ ∧
    (buildSlaveInfoStruct [("is-master-down", "1")]).1[6]? = some (Value.bool true) := by
  have hd : (buildSlaveInfoStruct, SlaveInfoFields) ∈ decoders := by simp [decoders]
  obtain ⟨b, h1, -, -, -, -, -, h7⟩ :=
    bool_field_true_iff (buildSlaveInfoStruct, SlaveInfoFields) hd [("is-master-down", "1")] 6
      ⟨"IsMasterDown", GoType.bool, "is-master-down"⟩ rfl rfl
  refine ⟨hd, rfl, ?_⟩
  rw [h1, h7 (by decide)]


/-- C8: for each of the three decoders, every input map and every integer
field, the decoded field is the integer `ParseInt` returns for the value at
its source key when `ParseInt` returns no error, and 0 otherwise; a value that
parses is an integer literal of the signed 64-bit range and the parsed integer
is the one it denotes; an absent key or an empty value gives 0; and on an
integer field the loop bodies of the three decoders are the same function, with
or without the test for the empty value. -/
theorem int_field_value
    (d : (GoMap String String → Struct × Option NumError) × List StructField)
    (hd : d ∈ decoders) (info : GoMap String String) (i : Nat) (p : StructField)
    (hp : d.2[i]? = some p) (hint : p.Typ = GoType.int) :
    (d.1 info).1[i]? =
        some (Value.int (if (ParseInt (mapGet info p.Tag)).2 = none
          then (ParseInt (mapGet info p.Tag)).1 else 0)) ∧
      ((ParseInt (mapGet info p.Tag)).2 = none ↔
        isIntString (mapGet info p.Tag) = true ∧
          -(2 ^ 63 : Int) ≤ intValue (mapGet info p.Tag) ∧
          intValue (mapGet info p.Tag) < 2 ^ 63) ∧
      ((ParseInt (mapGet info p.Tag)).2 = none →
        (d.1 info).1[i]? = some (Value.int (intValue (mapGet info p.Tag)))) ∧
      (mapLookup info p.Tag = none → (d.1 info).1[i]? = some (Value.int 0)) ∧
      (mapGet info p.Tag = "" → (d.1 info).1[i]? = some (Value.int 0)) ∧
      (∀ f : Value, masterFieldStep info p f = slaveFieldStep info p f ∧
        slaveFieldStep info p f = sentinelFieldStep info p f) := by
  obtain ⟨-, -, h3⟩ := decoders_spec d hd info
  have hval : (d.1 info).1[i]? =
      some (Value.int (if (ParseInt (mapGet info p.Tag)).2 = none
        then (ParseInt (mapGet info p.Tag)).1 else 0)) := by
    rw [h3 i p hp]
    simp only [decodeField, hint]
  refine ⟨hval, ParseInt_nil_error_iff _, ?_, ?_, ?_, ?_⟩
  · intro h
    rw [hval, if_pos h, ParseInt_value_of_nil_error _ h]
  · intro h
    have hg : mapGet info p.Tag = "" := by simp [mapGet, h]
    rw [hval, hg, ParseInt_empty]
    simp
  · intro hg
    rw [hval, hg, ParseInt_empty]
    simp
  · intro f
    exact ⟨masterFieldStep_int_eq_slaveFieldStep info p hint f, rfl⟩

/-- C8, witness: field 2 of `SentinelInfo` is the integer `Port`; the map
binding `port` to `26379` decodes it to 26379. -/
theorem int_field_value_witness :
    (buildSentinelInfoStruct, SentinelInfoFields) ∈ decoders ∧
    SentinelInfoFields[2]? = some ⟨"Port", GoType.int, "port"⟩ ∧
    (buildSentinelInfoStruct [("port", "26379")]).1[2]? = some (Value.int 26379) := by
  have hd : (buildSentinelInfoStruct, SentinelInfoFields) ∈ decoders := by simp [decoders]
  have h := (int_field_value (buildSentinelInfoStruct, SentinelInfoFields) hd
    [("port", "26379")] 2 ⟨"Port", GoType.int, "port"⟩ rfl rfl).1
  refine ⟨hd, rfl, ?_⟩
  rw [h]
  decide

/-- C9: for every input map each of the three decoders returns the nil error
together with a struct that has all the fields of its type. -/
theorem decoders_return_nil_error (info : GoMap String String) :
    ((buildMasterInfoStruct info).2 = none ∧
      (buildMasterInfoStruct info).1.length = MasterInfoFields.length) ∧
    ((buildSlaveInfoStruct info).2 = none ∧
      (buildSlaveInfoStruct info).1.length = SlaveInfoFields.length) ∧
    ((buildSentinelInfoStruct info).2 = none ∧
      (buildSentinelInfoStruct info).1.length = SentinelInfoFields.length) := by
  have hm := buildStruct_spec (masterFieldStep info) MasterInfoFields
  have hs := buildStruct_spec (slaveFieldStep info) SlaveInfoFields
  have hn := buildStruct_spec (sentinelFieldStep info) SentinelInfoFields
  exact ⟨⟨hm.1, hm.2.1⟩, ⟨hs.1, hs.2.1⟩, ⟨hn.1, hn.2.1⟩⟩

theorem decoders_eq_of_lookup_eq
    (d : (GoMap String String → Struct × Option NumError) × List StructField)
    (hd : d ∈ decoders) (info1 info2 : GoMap String String)
    (h : ∀ p ∈ d.2, mapLookup info1 p.Tag = mapLookup info2 p.Tag) :
    d.1 info1 = d.1 info2 := by
  obtain ⟨a1, a2, a3⟩ := decoders_spec d hd info1
  obtain ⟨b1, b2, b3⟩ := decoders_spec d hd info2
  apply Prod.ext
  · apply List.ext_getElem?
    intro i
    rcases Nat.lt_or_ge i d.2.length with hlt | hge
    · have hp : d.2[i]? = some d.2[i] := List.getElem?_eq_getElem hlt
      rw [a3 i _ hp, b3 i _ hp]
      exact congrArg some (decodeField_congr info1 info2 _ (h _ (List.getElem_mem hlt)))
    · rw [List.getElem?_eq_none (by omega), List.getElem?_eq_none (by omega)]
  · rw [a1, b1]

/-- C10: for each decoder and every input map `info`:
the source keys of the struct's fields are pairwise distinct;
a second map that agrees with `info` on the source key of a field (same value,
or absent in both) gives the same decoded field;
deleting a key from `info` sets the field whose source key it is to the zero
value of its type and leaves every other field as it was;
and storing or deleting a key that is no field's source key leaves the whole
result unchanged. -/
theorem decode_frame
    (d : (GoMap String String → Struct × Option NumError) × List StructField)
    (hd : d ∈ decoders) (info : GoMap String String) (hwf : mapWF info) :
    (d.2.map (fun p => p.Tag)).Nodup ∧
    (∀ (info2 : GoMap String String) (i : Nat) (p : StructField), d.2[i]? = some p →
      mapLookup info p.Tag = mapLookup info2 p.Tag → (d.1 info).1[i]? = (d.1 info2).1[i]?) ∧
    (∀ (k : String) (i : Nat) (p : StructField), d.2[i]? = some p →
      (d.1 (mapDelete info k)).1[i]? =
        if p.Tag = k then some (zeroValue p.Typ) else (d.1 info).1[i]?) ∧
    (∀ (k v : String), (∀ p ∈ d.2, p.Tag ≠ k) →
      d.1 (mapStore info k v) = d.1 info ∧ d.1 (mapDelete info k) = d.1 info) := by
  refine ⟨?_, ?_, ?_, ?_⟩
  · simp only [decoders, List.mem_cons, List.mem_singleton, List.not_mem_nil, or_false] at hd
    rcases hd with rfl | rfl | rfl <;> decide
  · intro info2 i p hp h
    rw [(decoders_spec d hd info).2.2 i p hp, (decoders_spec d hd info2).2.2 i p hp,
      decodeField_congr info info2 p h]
  · intro k i p hp
    rw [(decoders_spec d hd (mapDelete info k)).2.2 i p hp]
    by_cases hk : p.Tag = k
    · rw [if_pos hk, decodeField_absent]
      rw [hk]
      exact mapLookup_mapDelete_self info k hwf
    · rw [if_neg hk, (decoders_spec d hd info).2.2 i p hp,
        decodeField_congr _ info p (mapLookup_mapDelete_ne info k p.Tag hk)]
  · intro k v hk
    constructor
    · apply decoders_eq_of_lookup_eq d hd
      intro p hp
      exact mapLookup_mapStore_ne info k p.Tag v (hk p hp)
    · apply decoders_eq_of_lookup_eq d hd
      intro p hp
      exact mapLookup_mapDelete_ne info k p.Tag (hk p hp)

/-- C10, witness: for `buildMasterInfoStruct` and the map binding `port` and
`name`, deleting `port` resets field 1 (`Port`) to 0 and keeps field 0 (`Name`). -/
theorem decode_frame_witness :
    (buildMasterInfoStruct, MasterInfoFields) ∈ decoders ∧
    mapWF ([("port", "6379"), ("name", "p")] : GoMap String String) ∧
    (buildMasterInfoStruct (mapDelete [("port", "6379"), ("name", "p")] "port")).1[1]? =
      some (Value.int 0) ∧
    (buildMasterInfoStruct (mapDelete [("port", "6379"), ("name", "p")] "port")).1[0]? =
      (buildMasterInfoStruct [("port", "6379"), ("name", "p")]).1[0]? := by
  have hd : (buildMasterInfoStruct, MasterInfoFields) ∈ decoders := by simp [decoders]
  have hwf : mapWF ([("port", "6379"), ("name", "p")] : GoMap String String) := by decide
  have h := (decode_frame (buildMasterInfoStruct, MasterInfoFields) hd
    [("port", "6379"), ("name", "p")] hwf).2.2.1 "port"
  refine ⟨hd, hwf, ?_, ?_⟩
  · exact h 1 ⟨"Port", GoType.int, "port"⟩ rfl
  · exact h 0 ⟨"Name", GoType.string, "name"⟩ rfl


/-! ## Replica addresses declared by two pods -/

theorem slavePairs_append (l1 l2 : List SentinelPodConfig) :
    slavePairs (l1 ++ l2) = slavePairs l1 ++ slavePairs l2 := by
  induction l1 with
  | nil => rfl
  | cons v l1 ih => simp [slavePairs, ih]

theorem foldl_slaves_eq_foldl_slavePairs (order : List SentinelPodConfig) :
    ∀ st : World × GoMap String SentinelPodConfig,
      order.foldl (fun st v => v.Slaves.foldl (dupeSlaveStep v) st) st =
        (slavePairs order).foldl (fun st q => dupeSlaveStep q.1 st q.2) st := by
  induction order with
  | nil => intro st; rfl
  | cons v rest ih =>
    intro st
    simp only [List.foldl_cons, slavePairs, List.foldl_append, List.foldl_map]
    exact ih _

theorem dupeSlaveStep_facts (v : SentinelPodConfig)
    (st : World × GoMap String SentinelPodConfig) (s : String) :
    (∀ x, x ∈ issuePods st.1 ConfigIssue.DUPLICATESLAVEIP →
      x ∈ issuePods (dupeSlaveStep v st s).1 ConfigIssue.DUPLICATESLAVEIP) ∧
    (∀ o, mapLookup st.2 s = some o →
      v ∈ issuePods (dupeSlaveStep v st s).1 ConfigIssue.DUPLICATESLAVEIP ∧
      o ∈ issuePods (dupeSlaveStep v st s).1 ConfigIssue.DUPLICATESLAVEIP) ∧
    (∀ s', s' ≠ s → mapLookup (dupeSlaveStep v st s).2 s' = mapLookup st.2 s') ∧
    (mapLookup (dupeSlaveStep v st s).2 s = some v ∨
      ∃ o, mapLookup st.2 s = some o ∧ mapLookup (dupeSlaveStep v st s).2 s = some o) := by
  obtain ⟨w, m⟩ := st
  cases hs : mapLookup m s with
  | none =>
    cases hm : mapLookup w.masterIPtoPodMapping s with
    | none =>
      have hr : dupeSlaveStep v (w, m) s = (w, mapStore (mapStore m s v) s v) := by
        simp [dupeSlaveStep, hs, hm]
      rw [hr]
      refine ⟨fun x hx => hx, fun o ho => by simp at ho, ?_, ?_⟩
      · intro s' hne
        simp only
        rw [mapLookup_mapStore_ne _ _ _ _ hne, mapLookup_mapStore_ne _ _ _ _ hne]
      · left; exact mapLookup_mapStore_self _ _ _
    | some mo =>
      have hr : dupeSlaveStep v (w, m) s =
          (appendIssue (appendIssue (emit w (Event.foundDuplicateSlaveMaster s mo.Name v.Name))
            ConfigIssue.DUPLICATESLAVEIP v) ConfigIssue.DUPLICATESLAVEIP mo,
           mapStore m s v) := by
        simp [dupeSlaveStep, hs, hm, emit, appendIssue]
      rw [hr]
      refine ⟨?_, fun o ho => by simp at ho, ?_, ?_⟩
      · intro x hx
        simp only [issuePods_appendIssue_self, issuePods_emit, List.mem_append]
        exact Or.inl (Or.inl hx)
      · intro s' hne
        exact mapLookup_mapStore_ne _ _ _ _ hne
      · left; exact mapLookup_mapStore_self _ _ _
  | some so =>
    cases hm : mapLookup w.masterIPtoPodMapping s with
    | none =>
      have hr : dupeSlaveStep v (w, m) s =
          (appendIssue (appendIssue (emit w (Event.foundDuplicateSlave so.Name v.Name s))
            ConfigIssue.DUPLICATESLAVEIP v) ConfigIssue.DUPLICATESLAVEIP so,
           mapStore m s v) := by
        simp [dupeSlaveStep, hs, hm, emit, appendIssue]
      rw [hr]
      refine ⟨?_, ?_, ?_, ?_⟩
      · intro x hx
        simp only [issuePods_appendIssue_self, issuePods_emit, List.mem_append]
        exact Or.inl (Or.inl hx)
      · intro o ho
        have : so = o := by simpa using ho
        subst this
        simp [issuePods_appendIssue_self]
      · intro s' hne
        exact mapLookup_mapStore_ne _ _ _ _ hne
      · left; exact mapLookup_mapStore_self _ _ _
    | some mo =>
      have hr : dupeSlaveStep v (w, m) s =
          (appendIssue (appendIssue (emit
            (appendIssue (appendIssue (emit w (Event.foundDuplicateSlave so.Name v.Name s))
              ConfigIssue.DUPLICATESLAVEIP v) ConfigIssue.DUPLICATESLAVEIP so)
            (Event.foundDuplicateSlaveMaster s mo.Name v.Name))
            ConfigIssue.DUPLICATESLAVEIP v) ConfigIssue.DUPLICATESLAVEIP mo, m) := by
        simp [dupeSlaveStep, hs, hm, emit, appendIssue]
      rw [hr]
      refine ⟨?_, ?_, ?_, ?_⟩
      · intro x hx
        simp only [issuePods_appendIssue_self, issuePods_emit, List.mem_append]
        exact Or.inl (Or.inl (Or.inl (Or.inl hx)))
      · intro o ho
        have : so = o := by simpa using ho
        subst this
        simp [issuePods_appendIssue_self, issuePods_emit]
      · intro s' _
        rfl
      · right; exact ⟨so, rfl, hs⟩


theorem DupeSlaveInv_step (done : List (SentinelPodConfig × String))
    (st : World × GoMap String SentinelPodConfig) (v : SentinelPodConfig) (s : String)
    (hinv : DupeSlaveInv done st) :
    DupeSlaveInv (done ++ [(v, s)]) (dupeSlaveStep v st s) := by
  obtain ⟨hA, hB, hC⟩ := hinv
  obtain ⟨F1, F2, F3, F4⟩ := dupeSlaveStep_facts v st s
  have hseen : ∀ o, mapLookup st.2 s = some o → (o, s) ∈ done := by
    intro o ho
    by_contra hno
    have hex : ∃ v0, (v0, s) ∈ done := by
      by_contra hnone
      have := hA s (fun v0 h0 => hnone ⟨v0, h0⟩)
      rw [this] at ho
      exact absurd ho (by simp)
    obtain ⟨v0, hv0⟩ := hex
    obtain ⟨o', ho', hmem⟩ := hB s v0 hv0
    rw [ho] at ho'
    have : o = o' := by simpa using ho'
    rw [this] at hno
    exact hno hmem
  have hcount : ∀ s' : String,
      (done ++ [(v, s)]).countP (fun q => decide (q.2 = s')) =
        done.countP (fun q => decide (q.2 = s')) + (if s = s' then 1 else 0) := by
    intro s'
    rw [List.countP_append, List.countP_cons, List.countP_nil]
    simp
  refine ⟨?_, ?_, ?_⟩
  · intro s' hnone
    have hne : s' ≠ s := by
      intro e
      exact hnone v (by simp [e])
    rw [F3 s' hne]
    exact hA s' (fun v' h' => hnone v' (List.mem_append_left _ h'))
  · intro s' v' hmem
    by_cases hss : s' = s
    · subst hss
      rcases F4 with h | ⟨o, ho, hr⟩
      · exact ⟨v, h, by simp⟩
      · exact ⟨o, hr, List.mem_append_left _ (hseen o ho)⟩
    · have hd : (v', s') ∈ done := by
        rcases List.mem_append.mp hmem with h | h
        · exact h
        · have : (v', s') = (v, s) := by simpa using h
          exact absurd (Prod.mk.inj this).2 hss
      obtain ⟨o, ho, hom⟩ := hB s' v' hd
      exact ⟨o, by rw [F3 s' hss]; exact ho, List.mem_append_left _ hom⟩
  · intro s' v' hmem hc
    rw [hcount s'] at hc
    by_cases hss : s = s'
    · subst hss
      rw [if_pos rfl] at hc
      have hpos : 0 < done.countP (fun q => decide (q.2 = s)) := by omega
      obtain ⟨q, hq, hq2⟩ := List.countP_pos_iff.mp hpos
      have hq3 : q.2 = s := by simpa using hq2
      obtain ⟨o, ho, hom⟩ := hB s q.1 (by rw [← hq3]; exact hq)
      obtain ⟨hv, hol⟩ := F2 o ho
      rcases List.mem_append.mp hmem with h | h
      · by_cases h2 : 2 ≤ done.countP (fun q => decide (q.2 = s))
        · exact F1 v' (hC s v' h h2)
        · have hvo : v' = o := by
            by_contra hne
            apply h2
            apply two_le_countP _ done (v', s) (o, s) h hom
            · intro e; exact hne (Prod.mk.inj e).1
            · simp
            · simp
          rw [hvo]; exact hol
      · have : (v', s) = (v, s) := by simpa using h
        rw [(Prod.mk.inj this).1]; exact hv
    · rw [if_neg hss] at hc
      have hd : (v', s') ∈ done := by
        rcases List.mem_append.mp hmem with h | h
        · exact h
        · have : (v', s') = (v, s) := by simpa using h
          exact absurd (Prod.mk.inj this).2.symm hss
      exact F1 v' (hC s' v' hd (by omega))

theorem DupeSlaveInv_foldl (qs : List (SentinelPodConfig × String)) :
    ∀ (done : List (SentinelPodConfig × String))
      (st : World × GoMap String SentinelPodConfig), DupeSlaveInv done st →
      DupeSlaveInv (done ++ qs) (qs.foldl (fun st q => dupeSlaveStep q.1 st q.2) st) := by
  induction qs with
  | nil => intro done st h; simpa using h
  | cons q qs ih =>
    intro done st h
    have := ih (done ++ [q]) (dupeSlaveStep q.1 st q.2) (DupeSlaveInv_step done st q.1 q.2 h)
    simpa using this

theorem mem_slavePairs_cons (a : SentinelPodConfig) (l : List SentinelPodConfig) (s : String)
    (h : s ∈ a.Slaves) : (a, s) ∈ slavePairs (a :: l) := by
  simp only [slavePairs, List.mem_append, List.mem_map]
  exact Or.inl ⟨s, h, rfl⟩

/-- The half of C6 that the code does achieve: whenever two pods at different
places of the visiting order declare the same replica address, both are
listed under `DUPLICATESLAVEIP` after `FindDupeSlaveIPs`, whatever the world
before the call. -/
theorem FindDupeSlaveIPs_shared_replica_listed (w : World)
    (l1 l2 l3 : List SentinelPodConfig) (a b : SentinelPodConfig) (s : String)
    (ha : s ∈ a.Slaves) (hb : s ∈ b.Slaves) :
    a ∈ issuePods (FindDupeSlaveIPs (l1 ++ (a :: l2) ++ (b :: l3)) w)
          ConfigIssue.DUPLICATESLAVEIP ∧
    b ∈ issuePods (FindDupeSlaveIPs (l1 ++ (a :: l2) ++ (b :: l3)) w)
          ConfigIssue.DUPLICATESLAVEIP := by
  have hinit : DupeSlaveInv []
      (emit w Event.lookingForDuplicatedSlaveIPs, ([] : GoMap String SentinelPodConfig)) :=
    ⟨fun _ _ => rfl, fun _ _ h => absurd h (List.not_mem_nil _),
      fun _ _ h => absurd h (List.not_mem_nil _)⟩
  have hinv := DupeSlaveInv_foldl (slavePairs (l1 ++ (a :: l2) ++ (b :: l3))) [] _ hinit
  rw [List.nil_append, ← foldl_slaves_eq_foldl_slavePairs] at hinv
  have hC := hinv.2.2
  have hpa : (a, s) ∈ slavePairs (a :: l2) := mem_slavePairs_cons a l2 s ha
  have hpb : (b, s) ∈ slavePairs (b :: l3) := mem_slavePairs_cons b l3 s hb
  have hca : 0 < (slavePairs (a :: l2)).countP (fun q => decide (q.2 = s)) :=
    List.countP_pos_iff.mpr ⟨(a, s), hpa, by simp⟩
  have hcb : 0 < (slavePairs (b :: l3)).countP (fun q => decide (q.2 = s)) :=
    List.countP_pos_iff.mpr ⟨(b, s), hpb, by simp⟩
  have hcount : 2 ≤ (slavePairs (l1 ++ (a :: l2) ++ (b :: l3))).countP
      (fun q => decide (q.2 = s)) := by
    rw [slavePairs_append, slavePairs_append, List.countP_append, List.countP_append]
    omega
  have hma : (a, s) ∈ slavePairs (l1 ++ (a :: l2) ++ (b :: l3)) := by
    rw [slavePairs_append, slavePairs_append]
    exact List.mem_append_left _ (List.mem_append_right _ hpa)
  have hmb : (b, s) ∈ slavePairs (l1 ++ (a :: l2) ++ (b :: l3)) := by
    rw [slavePairs_append, slavePairs_append]
    exact List.mem_append_right _ hpb
  exact ⟨hC s a hma hcount, hC s b hmb hcount⟩


/-! ## Lines with too few arguments -/

/-- C11, evaluated on the code: the lines `port`, `bind`, `dir`, `sentinel` and
`sentinel monitor p 1.2.3.4` each end the loop body with an index-out-of-range
panic instead of being logged and skipped, and `LoadSentinelConfigFile` on a
file whose first line is `port` panics before it reaches the second line. -/
theorem short_line_panics :
    loadLines {} ["port\n"] = Except.error Panic.indexOutOfRange ∧
    loadLines {} ["bind\n"] = Except.error Panic.indexOutOfRange ∧
    loadLines {} ["dir\n"] = Except.error Panic.indexOutOfRange ∧
    loadLines {} ["sentinel\n"] = Except.error Panic.indexOutOfRange ∧
    loadLines {} ["sentinel monitor p 1.2.3.4\n"] = Except.error Panic.indexOutOfRange ∧
    LoadSentinelConfigFile
        (some [("port\n", ReadError.ok), ("bind 10.0.0.1\n", ReadError.ok)]) {} =
      Except.error Panic.indexOutOfRange :=
  ⟨rfl, rfl, rfl, rfl, rfl, rfl⟩

/-! ## The directives `known-sentinel`, `auth-pass` and `known-slave` -/

/-- C12, evaluated on the code: on the empty topology, and likewise after
`auth-pass p x` has created an entry for `p`, the directive
`known-sentinel p 10.0.0.1 26379` ends with the panic of an assignment to an
entry in a nil map. -/
theorem known_sentinel_without_monitor_panics :
    extractSentinelDirective {} ["known-sentinel", "p", "10.0.0.1", "26379"] =
      Except.error Panic.assignmentToEntryInNilMap ∧
    runDirectives {} [["auth-pass", "p", "x"], ["known-sentinel", "p", "10.0.0.1", "26379"]] =
      Except.error Panic.assignmentToEntryInNilMap :=
  ⟨rfl, rfl⟩

theorem extractSentinelDirective_known_sentinel (w : World) (podname ip port : String) :
    extractSentinelDirective w ["known-sentinel", podname, ip, port] =
      match (mapGet w.lsconf.ManagedPodConfigs podname).Sentinels with
      | none => Except.error Panic.assignmentToEntryInNilMap
      | some sentinels =>
        Except.ok
          ({ w with lsconf := { w.lsconf with
              ManagedPodConfigs := mapStore w.lsconf.ManagedPodConfigs podname
                { mapGet w.lsconf.ManagedPodConfigs podname with
                  Sentinels := some (mapStore sentinels (ip ++ ":" ++ port) "") },
              KnownSentinels :=
                if ip ++ ":" ++ port = w.lsconf.Name then w.lsconf.KnownSentinels
                else mapStore w.lsconf.KnownSentinels (ip ++ ":" ++ port)
                  (ip ++ ":" ++ port) } }, none) := by
  cases hs : (mapGet w.lsconf.ManagedPodConfigs podname).Sentinels with
  | none =>
    simp [extractSentinelDirective, index, hs, bind, Except.bind, pure, Except.pure, throw,
      throwThe, MonadExceptOf.throw]
  | some sentinels =>
    by_cases hme : ip ++ ":" ++ port = w.lsconf.Name
    · simp [extractSentinelDirective, index, hs, hme, bind, Except.bind, pure, Except.pure]
    · simp [extractSentinelDirective, index, hs, hme, bind, Except.bind, pure, Except.pure]

theorem extractSentinelDirective_auth_pass (w : World) (pname secret : String) :
    extractSentinelDirective w ["auth-pass", pname, secret] =
      Except.ok
        ({ w with lsconf := { w.lsconf with
            ManagedPodConfigs := mapStore w.lsconf.ManagedPodConfigs pname
              { mapGet w.lsconf.ManagedPodConfigs pname with AuthToken := secret } } },
          none) := by
  simp [extractSentinelDirective, index, bind, Except.bind, pure, Except.pure]

theorem extractSentinelDirective_known_slave (w : World) (podname ip port : String) :
    extractSentinelDirective w ["known-slave", podname, ip, port] =
      Except.ok
        ({ w with lsconf := { w.lsconf with
            ManagedPodConfigs := mapStore w.lsconf.ManagedPodConfigs podname
              { mapGet w.lsconf.ManagedPodConfigs podname with
                Slaves := (mapGet w.lsconf.ManagedPodConfigs podname).Slaves ++
                  [ip ++ ":" ++ port] } } },
          none) := by
  simp [extractSentinelDirective, index, bind, Except.bind, pure, Except.pure]

theorem mapLookup_mapStore (K V : Type) [DecidableEq K] (m : GoMap K V) (k k' : K) (v : V) :
    mapLookup (mapStore m k v) k' = if k' = k then some v else mapLookup m k' := by
  by_cases h : k' = k
  · rw [if_pos h, h, mapLookup_mapStore_self]
  · rw [if_neg h, mapLookup_mapStore_ne _ _ _ _ h]

theorem mapGet_eq_of_lookup {K V : Type} [DecidableEq K] [Inhabited V] (m : GoMap K V) (k : K) :
    mapGet m k = match mapLookup m k with
      | some v => v
      | none => default := by
  unfold mapGet
  cases mapLookup m k <;> rfl

/-- C14: for every topology and every directive `auth-pass <podname> <secret>`,
the call returns nil and changes nothing but `ManagedPodConfigs`; afterwards
`podname` is bound to its previous entry with `AuthToken` replaced by the
secret, or, when it had no entry, to the zero entry with `AuthToken` set to
the secret; every other key reads as before. -/
theorem auth_pass_sets_only_the_token (w : World) (pname secret : String) :
    ∃ w' : World,
      extractSentinelDirective w ["auth-pass", pname, secret] = Except.ok (w', none) ∧
      { w' with lsconf := { w'.lsconf with
          ManagedPodConfigs := w.lsconf.ManagedPodConfigs } } = w ∧
      ∀ k, mapLookup w'.lsconf.ManagedPodConfigs k =
        if k = pname then
          some (match mapLookup w.lsconf.ManagedPodConfigs pname with
            | some pc => { pc with AuthToken := secret }
            | none => { AuthToken := secret })
        else mapLookup w.lsconf.ManagedPodConfigs k := by
  refine ⟨_, extractSentinelDirective_auth_pass w pname secret, rfl, ?_⟩
  intro k
  simp only [mapLookup_mapStore, mapGet_eq_of_lookup]
  cases mapLookup w.lsconf.ManagedPodConfigs pname <;> rfl

/-- C15: for every topology and every directive
`known-slave <podname> <ip> <port>`, the call returns nil and changes nothing
but `ManagedPodConfigs`; afterwards `podname` is bound to its previous entry
with `ip:port` appended at the end of `Slaves` (to the zero entry with
`Slaves` holding just `ip:port` when it had no entry); every other key reads
as before. -/
theorem known_slave_appends_replica (w : World) (podname ip port : String) :
    ∃ w' : World,
      extractSentinelDirective w ["known-slave", podname, ip, port] = Except.ok (w', none) ∧
      { w' with lsconf := { w'.lsconf with
          ManagedPodConfigs := w.lsconf.ManagedPodConfigs } } = w ∧
      ∀ k, mapLookup w'.lsconf.ManagedPodConfigs k =
        if k = podname then
          some (match mapLookup w.lsconf.ManagedPodConfigs podname with
            | some pc => { pc with Slaves := pc.Slaves ++ [ip ++ ":" ++ port] }
            | none => { Slaves := [ip ++ ":" ++ port] })
        else mapLookup w.lsconf.ManagedPodConfigs k := by
  refine ⟨_, extractSentinelDirective_known_slave w podname ip port, rfl, ?_⟩
  intro k
  simp only [mapLookup_mapStore, mapGet_eq_of_lookup]
  cases mapLookup w.lsconf.ManagedPodConfigs podname <;> rfl


/-! ## The registry of known sentinels -/

theorem mapHas_mapStore {K V : Type} [DecidableEq K] (m : GoMap K V) (k k' : K) (v : V) :
    mapHas (mapStore m k v) k' = true ↔ (k' = k ∨ mapHas m k' = true) := by
  unfold mapHas
  rw [mapLookup_mapStore]
  by_cases h : k' = k
  · simp [h]
  · simp [h]

theorem RegistryInv_known_sentinel (w w' : World) (podname ip port : String)
    (hinv : RegistryInv w)
    (hrun : extractSentinelDirective w ["known-sentinel", podname, ip, port] =
      Except.ok (w', none)) :
    w'.lsconf.Name = w.lsconf.Name ∧ RegistryInv w' := by
  rw [extractSentinelDirective_known_sentinel] at hrun
  cases hs : (mapGet w.lsconf.ManagedPodConfigs podname).Sentinels with
  | none => rw [hs] at hrun; exact absurd hrun (by simp)
  | some sm =>
    rw [hs] at hrun
    simp only [Except.ok.injEq, Prod.mk.injEq, and_true] at hrun
    subst hrun
    refine ⟨rfl, ?_⟩
    -- the entry of `podname` before the call
    have hlook : mapLookup w.lsconf.ManagedPodConfigs podname =
        some (mapGet w.lsconf.ManagedPodConfigs podname) := by
      cases hl : mapLookup w.lsconf.ManagedPodConfigs podname with
      | none =>
        have : mapGet w.lsconf.ManagedPodConfigs podname = default := by simp [mapGet, hl]
        rw [this] at hs
        exact absurd hs (by simp [default])
      | some pc => simp [mapGet, hl]
    have hdecl : ∀ e, declaredSentinel
        { w with lsconf := { w.lsconf with
            ManagedPodConfigs := mapStore w.lsconf.ManagedPodConfigs podname
              { mapGet w.lsconf.ManagedPodConfigs podname with
                Sentinels := some (mapStore sm (ip ++ ":" ++ port) "") },
            KnownSentinels :=
              if ip ++ ":" ++ port = w.lsconf.Name then w.lsconf.KnownSentinels
              else mapStore w.lsconf.KnownSentinels (ip ++ ":" ++ port)
                (ip ++ ":" ++ port) } } e ↔
        (e = ip ++ ":" ++ port ∨ declaredSentinel w e) := by
      intro e
      constructor
      · rintro ⟨k, pc, sm', hk, hsm, hhas⟩
        simp only [mapLookup_mapStore] at hk
        by_cases hkp : k = podname
        · rw [if_pos hkp] at hk
          have hpc := Option.some.inj hk
          rw [← hpc] at hsm
          simp only [Option.some.injEq] at hsm
          rw [← hsm, mapHas_mapStore] at hhas
          rcases hhas with h | h
          · exact Or.inl h
          · exact Or.inr ⟨podname, _, sm, hlook, hs, h⟩
        · rw [if_neg hkp] at hk
          exact Or.inr ⟨k, pc, sm', hk, hsm, hhas⟩
      · rintro (h | ⟨k, pc, sm', hk, hsm, hhas⟩)
        · refine ⟨podname, ({ mapGet w.lsconf.ManagedPodConfigs podname with
              Sentinels := some (mapStore sm (ip ++ ":" ++ port) "") } : SentinelPodConfig),
            mapStore sm (ip ++ ":" ++ port) "", ?_, ?_, ?_⟩
          · simp only [mapLookup_mapStore, if_true]
          · rfl
          · rw [mapHas_mapStore]; exact Or.inl h
        · by_cases hkp : k = podname
          · subst hkp
            rw [hlook] at hk
            have hpc := Option.some.inj hk
            rw [← hpc, hs] at hsm
            have hsm2 : sm = sm' := Option.some.inj hsm
            refine ⟨k, ({ mapGet w.lsconf.ManagedPodConfigs k with
              Sentinels := some (mapStore sm (ip ++ ":" ++ port) "") } : SentinelPodConfig),
              mapStore sm (ip ++ ":" ++ port) "", ?_, ?_, ?_⟩
            · simp only [mapLookup_mapStore, if_true]
            · rfl
            · rw [mapHas_mapStore, hsm2]; exact Or.inr hhas
          · refine ⟨k, pc, sm', ?_, hsm, hhas⟩
            simp only [mapLookup_mapStore, if_neg hkp]
            exact hk
    intro e
    rw [hdecl e]
    by_cases hme : ip ++ ":" ++ port = w.lsconf.Name
    · simp only [hme, if_true]
      rw [hinv e]
      constructor
      · rintro ⟨h1, h2⟩; exact ⟨h1, Or.inr h2⟩
      · rintro ⟨h1, h2 | h2⟩
        · exact absurd h2 h1
        · exact ⟨h1, h2⟩
    · simp only [hme, if_false]
      rw [mapHas_mapStore, hinv e]
      constructor
      · rintro (h | ⟨h1, h2⟩)
        · exact ⟨by rw [h]; exact hme, Or.inl h⟩
        · exact ⟨h1, Or.inr h2⟩
      · rintro ⟨h1, h2 | h2⟩
        · exact Or.inl h2
        · exact Or.inr ⟨h1, h2⟩

theorem runDirectives_cons_ok (w w' : World) (d : List String) (ds : List (List String))
    (h : runDirectives w (d :: ds) = Except.ok w') :
    ∃ r, extractSentinelDirective w d = Except.ok r ∧ runDirectives r.1 ds = Except.ok w' := by
  unfold runDirectives at h
  cases hr : extractSentinelDirective w d with
  | error e => rw [hr] at h; exact absurd h (by simp)
  | ok r => rw [hr] at h; exact ⟨r, rfl, h⟩

theorem extractSentinelDirective_known_sentinel_err (w : World) (podname ip port : String)
    (r : World × Option String)
    (h : extractSentinelDirective w ["known-sentinel", podname, ip, port] = Except.ok r) :
    r.2 = none := by
  rw [extractSentinelDirective_known_sentinel] at h
  cases hs : (mapGet w.lsconf.ManagedPodConfigs podname).Sentinels with
  | none => rw [hs] at h; exact absurd h (by simp)
  | some sm =>
    rw [hs] at h
    simp only [Except.ok.injEq] at h
    rw [← h]


theorem RegistryInv_foldl (ds : List (String × String × String)) :
    ∀ w0 w : World, RegistryInv w0 →
      runDirectives w0 (ds.map knownSentinelDirective) = Except.ok w →
      w.lsconf.Name = w0.lsconf.Name ∧ RegistryInv w := by
  induction ds with
  | nil =>
    intro w0 w hinv hrun
    have : w0 = w := by simpa [runDirectives] using hrun
    rw [← this]
    exact ⟨rfl, hinv⟩
  | cons d ds ih =>
    intro w0 w hinv hrun
    rw [List.map_cons] at hrun
    obtain ⟨r, hr, hrest⟩ := runDirectives_cons_ok _ _ _ _ hrun
    have herr := extractSentinelDirective_known_sentinel_err w0 d.1 d.2.1 d.2.2 r hr
    have hr' : extractSentinelDirective w0 ["known-sentinel", d.1, d.2.1, d.2.2] =
        Except.ok (r.1, none) := by
      rw [← herr]; exact hr
    obtain ⟨hn, hinv'⟩ := RegistryInv_known_sentinel w0 r.1 d.1 d.2.1 d.2.2 hinv hr'
    obtain ⟨hn2, hinv2⟩ := ih r.1 w hinv' hrest
    exact ⟨hn2.trans hn, hinv2⟩

theorem RegistryInv_of_nothing_declared (w : World) (hks : w.lsconf.KnownSentinels = [])
    (hnone : ∀ e, ¬ declaredSentinel w e) : RegistryInv w := by
  intro e
  rw [hks]
  constructor
  · intro h; simp [mapHas, mapLookup] at h
  · rintro ⟨-, h⟩; exact absurd h (hnone e)

theorem RegistryInv_boundWorld : RegistryInv boundWorld := by
  apply RegistryInv_of_nothing_declared _ rfl
  rintro e ⟨k, pc, sm, hk, hsm, hhas⟩
  simp only [boundWorld, mapLookup] at hk
  split at hk
  · have hpc := Option.some.inj hk
    rw [← hpc] at hsm
    have : sm = [] := by simpa using hsm.symm
    rw [this] at hhas
    simp [mapHas, mapLookup] at hhas
  · exact absurd hk (by simp)


/-! ## The local identity -/

theorem extractSentinelDirective_identity (w : World) (entries : List String)
    (r : World × Option String) (h : extractSentinelDirective w entries = Except.ok r) :
    r.1.lsconf.Name = w.lsconf.Name ∧ r.1.lsconf.Host = w.lsconf.Host ∧
      r.1.lsconf.Port = w.lsconf.Port := by
  unfold extractSentinelDirective at h
  simp only [bind, Except.bind, pure, Except.pure, index, throw, throwThe,
    MonadExceptOf.throw] at h
  repeat' split at h
  all_goals (cases h <;> exact ⟨rfl, rfl, rfl⟩)

theorem loadLine_identity (w : World) (rawline : String) (r : World × Bool)
    (h : loadLine w rawline false = Except.ok r) :
    r.1.lsconf.Host = (bindHost rawline).getD w.lsconf.Host ∧
    r.1.lsconf.Port = (portValue rawline).getD w.lsconf.Port ∧
    r.1.lsconf.Name =
      (match bindHost rawline, portValue rawline with
        | some hst, _ =>
          if 0 < w.lsconf.Port then sprintfAddr hst w.lsconf.Port else w.lsconf.Name
        | none, some p =>
          if w.lsconf.Host ≠ "" then sprintfAddr w.lsconf.Host p else w.lsconf.Name
        | none, none => w.lsconf.Name) := by
  unfold loadLine at h
  unfold bindHost portValue lineEntries
  by_cases hc : Contains (TrimSpace rawline) '#' = true
  · simp only [hc, if_true, pure, Except.pure] at h ⊢
    cases h
    exact ⟨rfl, rfl, rfl⟩
  · simp only [hc, Bool.false_eq_true, if_false] at h ⊢
    generalize Split (TrimSpace rawline) ' ' = entries at h ⊢
    rcases entries with _ | ⟨e0, tl⟩
    · simp [index, bind, Except.bind] at h
    · simp only [index, List.getElem?_cons_zero, bind, Except.bind] at h
      by_cases h1 : e0 = "sentinel"
      · subst h1
        simp only [if_true, List.drop_succ_cons, List.drop_zero] at h
        cases hx : extractSentinelDirective w tl with
        | error e => rw [hx] at h; simp at h
        | ok x =>
          rw [hx] at h
          obtain ⟨a, b, c⟩ := extractSentinelDirective_identity w tl x hx
          have hr : r.1.lsconf = x.1.lsconf := by
            simp only at h
            split at h <;> (simp only [pure, Except.pure, Except.ok.injEq] at h; rw [← h]; try rfl)
          rw [hr, a, b, c]
          rcases tl with _ | ⟨e1, tl⟩ <;> simp
      · simp only [h1, if_false] at h
        by_cases h2 : e0 = "port"
        · subst h2
          rcases tl with _ | ⟨e1, tl⟩
          · simp at h
          · simp only [if_true, List.getElem?_cons_succ, List.getElem?_cons_zero, pure,
              Except.pure] at h
            by_cases hh : w.lsconf.Host = ""
            · simp [hh] at h
              rw [← h]
              simp [hh]
            · simp [hh] at h
              rw [← h]
              simp [hh]
        · simp only [h2, if_false] at h
          by_cases h3 : e0 = "dir"
          · subst h3
            rcases tl with _ | ⟨e1, tl⟩
            · simp at h
            · simp only [if_true, List.getElem?_cons_succ, List.getElem?_cons_zero, pure,
                Except.pure, Except.ok.injEq] at h
              rw [← h]
              simp
          · simp only [h3, if_false] at h
            by_cases h4 : e0 = "bind"
            · subst h4
              rcases tl with _ | ⟨e1, tl⟩
              · simp at h
              · simp only [if_true, List.getElem?_cons_succ, List.getElem?_cons_zero, pure,
                  Except.pure, emit] at h
                by_cases hp : 0 < w.lsconf.Port
                · simp [hp] at h
                  rw [← h]
                  simp [hp]
                · simp [hp] at h
                  rw [← h]
                  simp [hp]
            · simp only [h4, if_false, pure, Except.pure] at h
              have hr : r.1.lsconf = w.lsconf := by
                repeat' split at h
                all_goals (simp only [Except.ok.injEq] at h; rw [← h]; try rfl)
              rw [hr]
              rcases tl with _ | ⟨e1, tl⟩ <;> simp [h2, h4]

theorem portValue_of_bindHost (rawline : String) (h : String)
    (hb : bindHost rawline = some h) : portValue rawline = none := by
  unfold bindHost at hb
  unfold portValue
  generalize lineEntries rawline = le at hb ⊢
  rcases le with _ | entries
  · rfl
  · rcases entries with _ | ⟨e0, tl⟩
    · rfl
    · rcases tl with _ | ⟨e1, tl⟩
      · rfl
      · by_cases h0 : e0 = "bind"
        · subst h0
          exact if_neg (by decide)
        · simp [h0] at hb

theorem IdentityRel_step (hb : Option String) (pv : Option Int) (w : World)
    (rawline : String) (r : World × Bool) (hrel : IdentityRel hb pv w)
    (h : loadLine w rawline false = Except.ok r) :
    IdentityRel
      (match bindHost rawline with
        | some h => some h
        | none => hb)
      (match portValue rawline with
        | some p => some p
        | none => pv) r.1 := by
  obtain ⟨a, b, c⟩ := loadLine_identity w rawline r h
  obtain ⟨r1, r2, r3, r4, r5⟩ := hrel
  cases hbh : bindHost rawline with
  | some hst =>
    have hpv := portValue_of_bindHost rawline hst hbh
    rw [hbh, hpv] at c
    rw [hbh] at a
    rw [hpv] at b
    simp only [Option.getD_some, Option.getD_none] at a b c
    refine ⟨a, by rw [b, hpv]; exact r2, ?_, ?_, ?_⟩
    · intro _ hp
      rw [b] at hp
      rw [c, if_pos hp, a, b]
    · rw [hpv]
      intro hnone
      have hnone : pv = none := hnone
      have hp0 : w.lsconf.Port = 0 := by rw [r2, hnone]; rfl
      rw [c, hp0]
      simp only [lt_self_iff_false, if_false]
      exact r4 hnone
    · intro hcontra; exact absurd hcontra (by simp)
  | none =>
    rw [hbh] at a c
    simp only [Option.getD_none] at a
    cases hpv : portValue rawline with
    | some p =>
      rw [hpv] at b c
      simp only [Option.getD_some] at b c
      refine ⟨by rw [a]; exact r1, b, ?_, ?_, ?_⟩
      · intro hh _
        rw [a] at hh
        rw [c, if_pos hh, a, b]
      · intro hcontra; exact absurd hcontra (by simp)
      · intro hnone
        have hnone : hb = none := hnone
        have hh0 : w.lsconf.Host = "" := by rw [r1, hnone]; rfl
        rw [c, hh0]
        simp only [ne_eq, not_true_eq_false, if_false]
        exact r5 hnone
    | none =>
      rw [hpv] at b c
      simp only [Option.getD_none] at b c
      refine ⟨by rw [a]; exact r1, by rw [b]; exact r2, ?_, ?_, ?_⟩
      · intro hh hp
        rw [a] at hh
        rw [b] at hp
        rw [c, a, b]
        exact r3 hh hp
      · intro hnone; rw [c]; exact r4 hnone
      · intro hnone; rw [c]; exact r5 hnone

theorem IdentityRel_foldl (lines : List String) :
    ∀ (hb : Option String) (pv : Option Int) (w0 w : World), IdentityRel hb pv w0 →
      loadLines w0 lines = Except.ok w →
      IdentityRel
        (lines.foldl (fun acc l => match bindHost l with
          | some h => some h
          | none => acc) hb)
        (lines.foldl (fun acc l => match portValue l with
          | some p => some p
          | none => acc) pv) w := by
  induction lines with
  | nil =>
    intro hb pv w0 w hrel hrun
    have : w0 = w := by simpa [loadLines] using hrun
    rw [← this]
    exact hrel
  | cons l lines ih =>
    intro hb pv w0 w hrel hrun
    unfold loadLines at hrun
    cases hl : loadLine w0 l false with
    | error e => rw [hl] at hrun; exact absurd hrun (by simp)
    | ok r =>
      rw [hl] at hrun
      exact ih _ _ r.1 w (IdentityRel_step hb pv w0 l r hrel hl) hrun

/-- C16, counterexample: after the lines `bind 10.0.0.1`, `port 26379`, `port 0`
and `bind 10.0.0.2`, a `bind` with a non-empty host and a `port` with a valid
number have both been seen, the most recent host is `10.0.0.2`, and
`lsconf.Name` is `10.0.0.1:0`, which names neither the most recent host nor a
valid port. -/
theorem identity_stale_after_invalid_port :
    ∃ w : World,
      loadLines {} ["bind 10.0.0.1\n", "port 26379\n", "port 0\n", "bind 10.0.0.2\n"] =
        Except.ok w ∧
      w.lsconf.Host = "10.0.0.2" ∧ w.lsconf.Port = 0 ∧ w.lsconf.Name = "10.0.0.1:0" :=
  ⟨_, rfl, rfl, rfl, rfl⟩

/-- C16, amended: start from zero `Host`, `Port` and `Name` and process any
sequence of configuration lines without failure.  Then `Host` is the host of
the most recent `bind` line and `Port` the number of the most recent `port`
line (zero values if there is none); if the most recent `bind` line has a
non-empty host and the most recent `port` line a number greater than zero,
`lsconf.Name` is `host:port` for these two, whichever line came first; and as
long as no `port` line, or no `bind` line, has been seen, `lsconf.Name` is
still empty. -/
theorem local_identity_after_lines (w0 w : World) (lines : List String)
    (hHost : w0.lsconf.Host = "") (hPort : w0.lsconf.Port = 0) (hName : w0.lsconf.Name = "")
    (hrun : loadLines w0 lines = Except.ok w) :
    w.lsconf.Host = (lastBindHost lines).getD "" ∧
    w.lsconf.Port = (lastPortValue lines).getD 0 ∧
    (∀ (h : String) (p : Int), lastBindHost lines = some h → lastPortValue lines = some p →
      h ≠ "" → 0 < p → w.lsconf.Name = sprintfAddr h p) ∧
    (lastPortValue lines = none → w.lsconf.Name = "") ∧
    (lastBindHost lines = none → w.lsconf.Name = "") := by
  have hrel0 : IdentityRel none none w0 :=
    ⟨hHost, hPort, fun h => absurd hHost h, fun _ => hName, fun _ => hName⟩
  obtain ⟨r1, r2, r3, r4, r5⟩ := IdentityRel_foldl lines none none w0 w hrel0 hrun
  refine ⟨r1, r2, ?_, r4, r5⟩
  intro h p hh hp hne hpos
  have e1 : w.lsconf.Host = h := by rw [r1]; unfold lastBindHost at hh; rw [hh]; rfl
  have e2 : w.lsconf.Port = p := by rw [r2]; unfold lastPortValue at hp; rw [hp]; rfl
  rw [← e1, ← e2]
  exact r3 (by rw [e1]; exact hne) (by rw [e2]; exact hpos)

/-- C16, witness: the lines `port 26379` and `bind 10.0.0.1`, in this order,
are processed without failure from the zero state. -/
theorem local_identity_after_lines_witness :
    ∃ w : World,
      loadLines {} ["port 26379\n", "bind 10.0.0.1\n"] = Except.ok w ∧
      w.lsconf.Name = "10.0.0.1:26379" ∧
      (w.lsconf.Host = (lastBindHost ["port 26379\n", "bind 10.0.0.1\n"]).getD "" ∧
        w.lsconf.Port = (lastPortValue ["port 26379\n", "bind 10.0.0.1\n"]).getD 0 ∧
        (∀ (h : String) (p : Int),
          lastBindHost ["port 26379\n", "bind 10.0.0.1\n"] = some h →
          lastPortValue ["port 26379\n", "bind 10.0.0.1\n"] = some p →
          h ≠ "" → 0 < p → w.lsconf.Name = sprintfAddr h p) ∧
        (lastPortValue ["port 26379\n", "bind 10.0.0.1\n"] = none → w.lsconf.Name = "") ∧
        (lastBindHost ["port 26379\n", "bind 10.0.0.1\n"] = none → w.lsconf.Name = "")) :=
  ⟨_, rfl, rfl,
    local_identity_after_lines {} _ ["port 26379\n", "bind 10.0.0.1\n"] rfl rfl rfl rfl⟩


/-! ## The connectivity prober -/

theorem sentinelAvailable_known (dial : String → String → Bool) (ping : String → Bool)
    (w : World) (name : String) (h : mapHas (invalidCache w) name = true) :
    sentinelAvailable dial ping w name = (w, false, some GoError.knownInvalidSentinel) := by
  unfold invalidCache at h
  cases hc : w.lsconf.InvalidSentinels with
  | none => rw [hc] at h; simp [mapHas, mapLookup] at h
  | some c =>
    rw [hc] at h
    simp only [Option.getD_some] at h
    simp [sentinelAvailable, hc, h]

theorem sentinelAvailable_dial_failed (dial : String → String → Bool) (ping : String → Bool)
    (w : World) (name : String) (h : mapHas (invalidCache w) name = false)
    (hd : dial name "" = false) :
    sentinelAvailable dial ping w name =
      ({ w with
          lsconf := { w.lsconf with
            InvalidSentinels := some (mapStore (invalidCache w) name "") },
          trace := w.trace ++ [Event.dial name ""] },
        false, some (GoError.dialFailed name)) := by
  unfold invalidCache at h ⊢
  cases hc : w.lsconf.InvalidSentinels with
  | none => simp [sentinelAvailable, hc, hd, emit, mapHas, mapLookup]
  | some c =>
    rw [hc] at h
    simp only [Option.getD_some] at h
    simp [sentinelAvailable, hc, h, hd, emit]

theorem sentinelAvailable_dial_ok (dial : String → String → Bool) (ping : String → Bool)
    (w : World) (name : String) (h : mapHas (invalidCache w) name = false)
    (hd : dial name "" = true) :
    sentinelAvailable dial ping w name =
      ({ w with
          lsconf := { w.lsconf with InvalidSentinels := some (invalidCache w) },
          trace := w.trace ++ [Event.dial name "", Event.ping name] },
        true, if ping name then none else some (GoError.pingFailed name)) := by
  unfold invalidCache at h ⊢
  cases hc : w.lsconf.InvalidSentinels with
  | none => simp [sentinelAvailable, hc, hd, emit, mapHas, mapLookup]
  | some c =>
    rw [hc] at h
    simp only [Option.getD_some] at h
    simp [sentinelAvailable, hc, h, hd, emit]
    rw [← hc]

/-- The three ways a call of `sentinelAvailable` can go. -/
theorem sentinelAvailable_cases (dial : String → String → Bool) (ping : String → Bool)
    (w : World) (name : String) :
    (mapHas (invalidCache w) name = true ∧
      sentinelAvailable dial ping w name = (w, false, some GoError.knownInvalidSentinel)) ∨
    (mapHas (invalidCache w) name = false ∧ dial name "" = false ∧
      sentinelAvailable dial ping w name =
        ({ w with
            lsconf := { w.lsconf with
              InvalidSentinels := some (mapStore (invalidCache w) name "") },
            trace := w.trace ++ [Event.dial name ""] },
          false, some (GoError.dialFailed name))) ∨
    (mapHas (invalidCache w) name = false ∧ dial name "" = true ∧
      sentinelAvailable dial ping w name =
        ({ w with
            lsconf := { w.lsconf with InvalidSentinels := some (invalidCache w) },
            trace := w.trace ++ [Event.dial name "", Event.ping name] },
          true, if ping name then none else some (GoError.pingFailed name))) := by
  cases h : mapHas (invalidCache w) name with
  | true => exact Or.inl ⟨rfl, sentinelAvailable_known dial ping w name h⟩
  | false =>
    cases hd : dial name "" with
    | false => exact Or.inr (Or.inl ⟨rfl, rfl, sentinelAvailable_dial_failed dial ping w name h hd⟩)
    | true => exact Or.inr (Or.inr ⟨rfl, rfl, sentinelAvailable_dial_ok dial ping w name h hd⟩)

theorem invalidCache_mono (dial : String → String → Bool) (ping : String → Bool)
    (w : World) (name e : String) (h : mapHas (invalidCache w) e = true) :
    mapHas (invalidCache (sentinelAvailable dial ping w name).1) e = true := by
  rcases sentinelAvailable_cases dial ping w name with ⟨-, hr⟩ | ⟨-, -, hr⟩ | ⟨-, -, hr⟩
  · rw [hr]; exact h
  · rw [hr]
    simp only [invalidCache, Option.getD_some]
    rw [mapHas_mapStore]
    exact Or.inr h
  · rw [hr]
    simp only [invalidCache, Option.getD_some]
    exact h

theorem invalidCache_mono_probeAll (dial : String → String → Bool) (ping : String → Bool)
    (names : List String) :
    ∀ (w : World) (e : String), mapHas (invalidCache w) e = true →
      mapHas (invalidCache (probeAll dial ping w names)) e = true := by
  induction names with
  | nil => intro w e h; exact h
  | cons name names ih =>
    intro w e h
    exact ih _ e (invalidCache_mono dial ping w name e h)

theorem count_dial_append (t : List Event) (name e : String) :
    (t ++ [Event.dial name ""]).count (Event.dial e "") =
      t.count (Event.dial e "") + (if name = e then 1 else 0) := by
  rw [List.count_append, List.count_singleton]
  by_cases h : name = e
  · simp [h]
  · have hev : ¬ (Event.dial name "" = Event.dial e "") := by
      intro h2; injection h2 with h3; exact h h3
    simp [h, hev]

theorem count_dial_append_ping (t : List Event) (name e : String) :
    (t ++ [Event.dial name "", Event.ping name]).count (Event.dial e "") =
      t.count (Event.dial e "") + (if name = e then 1 else 0) := by
  have : t ++ [Event.dial name "", Event.ping name] =
      (t ++ [Event.dial name ""]) ++ [Event.ping name] := by simp
  rw [this, List.count_append, count_dial_append, List.count_singleton]
  simp

theorem dialCount_probeAll (dial : String → String → Bool) (ping : String → Bool)
    (e : String) (he : dial e "" = false) (names : List String) :
    ∀ w : World,
      dialCount e (probeAll dial ping w names) ≤ dialCount e w + 1 ∧
      (mapHas (invalidCache w) e = true →
        dialCount e (probeAll dial ping w names) = dialCount e w) := by
  induction names with
  | nil => intro w; exact ⟨Nat.le_succ _, fun _ => rfl⟩
  | cons name names ih =>
    intro w
    obtain ⟨ih1, ih2⟩ := ih (sentinelAvailable dial ping w name).1
    have hstep : probeAll dial ping w (name :: names) =
        probeAll dial ping (sentinelAvailable dial ping w name).1 names := rfl
    rw [hstep]
    rcases sentinelAvailable_cases dial ping w name with ⟨hk, hr⟩ | ⟨hk, hd, hr⟩ | ⟨hk, hd, hr⟩
    · have hw : (sentinelAvailable dial ping w name).1 = w := by rw [hr]
      rw [hw] at ih1 ih2 ⊢
      exact ⟨ih1, ih2⟩
    · have hcnt : dialCount e (sentinelAvailable dial ping w name).1 =
          dialCount e w + (if name = e then 1 else 0) := by
        rw [hr]; exact count_dial_append w.trace name e
      by_cases hne : name = e
      · subst hne
        have hin : mapHas (invalidCache (sentinelAvailable dial ping w name).1) name = true := by
          rw [hr]
          simp only [invalidCache, Option.getD_some]
          rw [mapHas_mapStore]; exact Or.inl rfl
        rw [if_pos rfl] at hcnt
        have := ih2 hin
        refine ⟨by omega, ?_⟩
        intro hcontra
        rw [hk] at hcontra
        exact absurd hcontra (by simp)
      · rw [if_neg hne] at hcnt
        refine ⟨by omega, ?_⟩
        intro hin
        rw [ih2 (invalidCache_mono dial ping w name e hin), hcnt]
        rfl
    · have hne : name ≠ e := by
        intro h; rw [h, he] at hd; exact absurd hd (by simp)
      have hcnt : dialCount e (sentinelAvailable dial ping w name).1 = dialCount e w := by
        rw [hr]
        have := count_dial_append_ping w.trace name e
        rw [if_neg hne] at this
        exact this
      refine ⟨by omega, ?_⟩
      intro hin
      rw [ih2 (invalidCache_mono dial ping w name e hin), hcnt]

/-- C17: for every world, endpoint and dial outcomes:
when the endpoint is not in `lsconf.InvalidSentinels` and its dial fails,
`sentinelAvailable` returns false with the dial error and the endpoint is in
the cache afterwards;
when the endpoint is in the cache, also after any further calls, the call
returns false with the error `Known Invalid Sentinel` and leaves the world as
it is, so no dial is recorded;
no sequence of calls removes an endpoint from the cache;
and over any sequence of calls an endpoint whose dial fails is dialed at most
once. -/
theorem sentinelAvailable_negative_cache (dial : String → String → Bool)
    (ping : String → Bool) (w : World) (name : String) :
    (mapHas (invalidCache w) name = false → dial name "" = false →
      (sentinelAvailable dial ping w name).2 = (false, some (GoError.dialFailed name)) ∧
      mapHas (invalidCache (sentinelAvailable dial ping w name).1) name = true) ∧
    (mapHas (invalidCache w) name = true → ∀ names : List String,
      sentinelAvailable dial ping (probeAll dial ping w names) name =
        (probeAll dial ping w names, false, some GoError.knownInvalidSentinel)) ∧
    (∀ (names : List String) (e : String), mapHas (invalidCache w) e = true →
      mapHas (invalidCache (probeAll dial ping w names)) e = true) ∧
    (∀ (names : List String) (e : String), dial e "" = false →
      dialCount e (probeAll dial ping w names) ≤ dialCount e w + 1) := by
  refine ⟨?_, ?_, ?_, ?_⟩
  · intro h hd
    rw [sentinelAvailable_dial_failed dial ping w name h hd]
    refine ⟨rfl, ?_⟩
    simp only [invalidCache, Option.getD_some]
    rw [mapHas_mapStore]; exact Or.inl rfl
  · intro h names
    exact sentinelAvailable_known dial ping _ name
      (invalidCache_mono_probeAll dial ping names w name h)
  · intro names e h
    exact invalidCache_mono_probeAll dial ping names w e h
  · intro names e he
    exact (dialCount_probeAll dial ping e he names w).1

/-- C17, witness: with every dial failing, probing `10.0.0.1:26379` on the
initial world records it, and three further probes of it add no dial. -/
theorem sentinelAvailable_negative_cache_witness :
    mapHas (invalidCache {}) "10.0.0.1:26379" = false ∧
    ((sentinelAvailable (fun _ _ => false) (fun _ => true) {} "10.0.0.1:26379").2 =
        (false, some (GoError.dialFailed "10.0.0.1:26379")) ∧
      mapHas (invalidCache
        (sentinelAvailable (fun _ _ => false) (fun _ => true) {} "10.0.0.1:26379").1)
        "10.0.0.1:26379" = true) ∧
    dialCount "10.0.0.1:26379"
        (probeAll (fun _ _ => false) (fun _ => true) {}
          ["10.0.0.1:26379", "10.0.0.1:26379", "10.0.0.1:26379", "10.0.0.1:26379"]) ≤
      dialCount "10.0.0.1:26379" {} + 1 :=
  ⟨rfl,
    (sentinelAvailable_negative_cache (fun _ _ => false) (fun _ => true) {}
      "10.0.0.1:26379").1 rfl rfl,
    (sentinelAvailable_negative_cache (fun _ _ => false) (fun _ => true) {}
      "10.0.0.1:26379").2.2.2 _ "10.0.0.1:26379" rfl⟩


/-! ## The audit of one pod -/

theorem mapHas_iff_mem_mapKeys {K V : Type} [DecidableEq K] (m : GoMap K V) (k : K) :
    mapHas m k = true ↔ k ∈ mapKeys m := by
  unfold mapHas
  rw [← not_iff_not, ← mapLookup_eq_none_iff]
  cases mapLookup m k <;> simp

theorem validateStep_known (dial : String → String → Bool) (ping : String → Bool)
    (pc : SentinelPodConfig) (w : World) (s : String)
    (hk : mapHas (invalidCache w) s = true) :
    validateStep dial ping (pc, w) s =
      ({ pc with
          InvalidSentinels := some (mapStore (mapStore (pc.InvalidSentinels.getD []) s "") s "") },
        w) := by
  have hr := sentinelAvailable_known dial ping w s hk
  unfold invalidCache at hk
  simp [validateStep, hr, hk]

theorem validateStep_dial_failed (dial : String → String → Bool) (ping : String → Bool)
    (pc : SentinelPodConfig) (w : World) (s : String)
    (hk : mapHas (invalidCache w) s = false) (hd : dial s "" = false) :
    validateStep dial ping (pc, w) s =
      ({ pc with InvalidSentinels := some (mapStore (pc.InvalidSentinels.getD []) s "") },
        (sentinelAvailable dial ping w s).1) := by
  have hr := sentinelAvailable_dial_failed dial ping w s hk hd
  unfold invalidCache at hk
  simp [validateStep, hr, hk]

theorem validateStep_dial_ok (dial : String → String → Bool) (ping : String → Bool)
    (pc : SentinelPodConfig) (w : World) (s : String)
    (hk : mapHas (invalidCache w) s = false) (hd : dial s "" = true) :
    validateStep dial ping (pc, w) s =
      ({ pc with ConfirmedSentinels := some (mapStore (pc.ConfirmedSentinels.getD []) s "") },
        (sentinelAvailable dial ping w s).1) := by
  have hr := sentinelAvailable_dial_ok dial ping w s hk hd
  unfold invalidCache at hk
  simp [validateStep, hr, hk]

theorem ValidateInv_step (dial : String → String → Bool) (ping : String → Bool) (w0 : World)
    (pc0 : SentinelPodConfig) (pre : List String) (st : SentinelPodConfig × World) (s : String)
    (hinv : ValidateInv dial w0 pc0 pre st) :
    ValidateInv dial w0 pc0 (pre ++ [s]) (validateStep dial ping st s) := by
  obtain ⟨pc, w⟩ := st
  obtain ⟨confirmed, invalid, hpc, hwc, hwi, hconf, hinvd, hcache⟩ := hinv
  simp only at hpc hcache
  subst hpc
  have hb : ∀ b : Bool, b = false ↔ ¬ b = true := by intro b; cases b <;> simp
  rcases sentinelAvailable_cases dial ping w s with ⟨hk, hr⟩ | ⟨hk, hd, hr⟩ | ⟨hk, hd, hr⟩
  · -- already in the cache
    rw [validateStep_known dial ping _ w s hk]
    have hks := (hcache s).mp hk
    refine ⟨confirmed, mapStore (mapStore invalid s "") s "", rfl, hwc,
      mapWF_mapStore _ _ _ (mapWF_mapStore _ _ _ hwi), ?_, ?_, ?_⟩
    · intro e
      rw [hconf e, List.mem_append, List.mem_singleton]
      constructor
      · rintro ⟨h1, h2, h3⟩; exact ⟨Or.inl h1, h2, h3⟩
      · rintro ⟨h1 | h1, h2, h3⟩
        · exact ⟨h1, h2, h3⟩
        · subst h1
          rcases hks with h | ⟨-, h⟩
          · rw [h] at h2; exact absurd h2 (by simp)
          · rw [h] at h3; exact absurd h3 (by simp)
    · intro e
      rw [mapHas_mapStore, mapHas_mapStore, hinvd e, List.mem_append, List.mem_singleton]
      constructor
      · rintro (h | h | ⟨h1, h2⟩)
        · subst h
          exact ⟨Or.inr rfl, hks.imp id (fun h => h.2)⟩
        · subst h
          exact ⟨Or.inr rfl, hks.imp id (fun h => h.2)⟩
        · exact ⟨Or.inl h1, h2⟩
      · rintro ⟨h1 | h1, h2⟩
        · exact Or.inr (Or.inr ⟨h1, h2⟩)
        · exact Or.inl h1
    · intro e
      simp only
      rw [hcache e, List.mem_append, List.mem_singleton]
      constructor
      · rintro (h | ⟨h1, h2⟩)
        · exact Or.inl h
        · exact Or.inr ⟨Or.inl h1, h2⟩
      · rintro (h | ⟨h1 | h1, h2⟩)
        · exact Or.inl h
        · exact Or.inr ⟨h1, h2⟩
        · subst h1
          exact hks.imp id (fun h => h)
  · -- the dial fails
    rw [validateStep_dial_failed dial ping _ w s hk hd]
    refine ⟨confirmed, mapStore invalid s "", rfl, hwc, mapWF_mapStore _ _ _ hwi, ?_, ?_, ?_⟩
    · intro e
      rw [hconf e, List.mem_append, List.mem_singleton]
      constructor
      · rintro ⟨h1, h2, h3⟩; exact ⟨Or.inl h1, h2, h3⟩
      · rintro ⟨h1 | h1, h2, h3⟩
        · exact ⟨h1, h2, h3⟩
        · subst h1
          rw [hd] at h3; exact absurd h3 (by simp)
    · intro e
      rw [mapHas_mapStore, hinvd e, List.mem_append, List.mem_singleton]
      constructor
      · rintro (h | ⟨h1, h2⟩)
        · subst h
          exact ⟨Or.inr rfl, Or.inr hd⟩
        · exact ⟨Or.inl h1, h2⟩
      · rintro ⟨h1 | h1, h2⟩
        · exact Or.inr ⟨h1, h2⟩
        · exact Or.inl h1
    · intro e
      simp only
      rw [hr]
      simp only [invalidCache, Option.getD_some]
      rw [mapHas_mapStore]
      have hce := hcache e
      simp only [invalidCache] at hce
      rw [hce, List.mem_append, List.mem_singleton]
      constructor
      · rintro (h | h | ⟨h1, h2⟩)
        · subst h
          exact Or.inr ⟨Or.inr rfl, hd⟩
        · exact Or.inl h
        · exact Or.inr ⟨Or.inl h1, h2⟩
      · rintro (h | ⟨h1 | h1, h2⟩)
        · exact Or.inr (Or.inl h)
        · exact Or.inr (Or.inr ⟨h1, h2⟩)
        · exact Or.inl h1
  · -- the dial succeeds
    rw [validateStep_dial_ok dial ping _ w s hk hd]
    have hnk : ¬ (mapHas (invalidCache w0) s = true ∨ (s ∈ pre ∧ dial s "" = false)) := by
      rw [← hcache s, hk]; simp
    refine ⟨mapStore confirmed s "", invalid, rfl, mapWF_mapStore _ _ _ hwc, hwi, ?_, ?_, ?_⟩
    · intro e
      rw [mapHas_mapStore, hconf e, List.mem_append, List.mem_singleton]
      constructor
      · rintro (h | ⟨h1, h2, h3⟩)
        · subst h
          refine ⟨Or.inr rfl, ?_, hd⟩
          rw [hb]
          exact fun h => hnk (Or.inl h)
        · exact ⟨Or.inl h1, h2, h3⟩
      · rintro ⟨h1 | h1, h2, h3⟩
        · exact Or.inr ⟨h1, h2, h3⟩
        · exact Or.inl h1
    · intro e
      rw [hinvd e, List.mem_append, List.mem_singleton]
      constructor
      · rintro ⟨h1, h2⟩; exact ⟨Or.inl h1, h2⟩
      · rintro ⟨h1 | h1, h2⟩
        · exact ⟨h1, h2⟩
        · subst h1
          rcases h2 with h | h
          · exact absurd (Or.inl h) hnk
          · rw [hd] at h; exact absurd h (by simp)
    · intro e
      simp only
      rw [hr]
      simp only [invalidCache, Option.getD_some]
      have hce := hcache e
      simp only [invalidCache] at hce
      rw [hce, List.mem_append, List.mem_singleton]
      constructor
      · rintro (h | ⟨h1, h2⟩)
        · exact Or.inl h
        · exact Or.inr ⟨Or.inl h1, h2⟩
      · rintro (h | ⟨h1 | h1, h2⟩)
        · exact Or.inl h
        · exact Or.inr ⟨h1, h2⟩
        · subst h1
          rw [hd] at h2; exact absurd h2 (by simp)

theorem ValidateInv_foldl (dial : String → String → Bool) (ping : String → Bool) (w0 : World)
    (pc0 : SentinelPodConfig) (ss : List String) :
    ∀ (pre : List String) (st : SentinelPodConfig × World), ValidateInv dial w0 pc0 pre st →
      ValidateInv dial w0 pc0 (pre ++ ss) (ss.foldl (validateStep dial ping) st) := by
  induction ss with
  | nil => intro pre st h; simpa using h
  | cons s ss ih =>
    intro pre st h
    have := ih (pre ++ [s]) _ (ValidateInv_step dial ping w0 pc0 pre st s h)
    simpa using this

/-- What `validatePodSentinels` leaves in a pod whose two result maps start
nil, for any visiting order `order`. -/
theorem validatePodSentinels_spec (dial : String → String → Bool) (ping : String → Bool)
    (w : World) (pc : SentinelPodConfig) (order : List String)
    (hc : pc.ConfirmedSentinels = none) (hi : pc.InvalidSentinels = none) :
    ValidateInv dial w pc order (validatePodSentinels dial ping order pc w) := by
  have h0 : ValidateInv dial w pc []
      ({ pc with ConfirmedSentinels := some [], InvalidSentinels := some [] }, w) := by
    refine ⟨[], [], rfl, ?_, ?_, ?_, ?_, ?_⟩
    · unfold mapWF mapKeys; simp
    · unfold mapWF mapKeys; simp
    · intro e; simp [mapHas, mapLookup]
    · intro e; simp [mapHas, mapLookup]
    · intro e; simp
  have := ValidateInv_foldl dial ping w pc order [] _ h0
  rw [List.nil_append] at this
  unfold validatePodSentinels
  simp only [hc, hi, if_true]
  exact this


theorem sentinelAvailable_true_iff (dial : String → String → Bool) (ping : String → Bool)
    (w : World) (e : String) :
    (sentinelAvailable dial ping w e).2.1 = true ↔
      (mapHas (invalidCache w) e = false ∧ dial e "" = true) := by
  rcases sentinelAvailable_cases dial ping w e with ⟨hk, hr⟩ | ⟨hk, hd, hr⟩ | ⟨hk, hd, hr⟩
  · rw [hr]; simp [hk]
  · rw [hr]; simp [hk, hd]
  · rw [hr]; simp [hk, hd]

theorem sentinelAvailable_false_iff (dial : String → String → Bool) (ping : String → Bool)
    (w : World) (e : String) :
    (sentinelAvailable dial ping w e).2.1 = false ↔
      (mapHas (invalidCache w) e = true ∨ dial e "" = false) := by
  rcases sentinelAvailable_cases dial ping w e with ⟨hk, hr⟩ | ⟨hk, hd, hr⟩ | ⟨hk, hd, hr⟩
  · rw [hr]; simp [hk]
  · rw [hr]; simp [hk, hd]
  · rw [hr]; simp [hk, hd]

/-- C18: for every pod whose `ConfirmedSentinels` and `InvalidSentinels` are
nil, every world, all dial and ping outcomes and every order in which the
declared sentinels are visited, `validatePodSentinels` changes only these two
maps of the pod, and afterwards: `ConfirmedSentinels` holds exactly the
declared sentinels whose probe succeeds, `InvalidSentinels` exactly the
declared sentinels whose probe fails; every declared sentinel is in one of the
two and none is in both; and every declared sentinel that was already in the
process-wide invalid cache is in `InvalidSentinels`. -/
theorem validatePodSentinels_partitions (dial : String → String → Bool)
    (ping : String → Bool) (w : World) (pc : SentinelPodConfig) (order : List String)
    (hc : pc.ConfirmedSentinels = none) (hi : pc.InvalidSentinels = none)
    (hperm : order.Perm (mapKeys (pc.Sentinels.getD []))) :
    ∃ confirmed invalid : GoMap String String,
      (validatePodSentinels dial ping order pc w).1 =
        { pc with ConfirmedSentinels := some confirmed, InvalidSentinels := some invalid } ∧
      (∀ e, mapHas confirmed e = true ↔
        (mapHas (pc.Sentinels.getD []) e = true ∧
          (sentinelAvailable dial ping w e).2.1 = true)) ∧
      (∀ e, mapHas invalid e = true ↔
        (mapHas (pc.Sentinels.getD []) e = true ∧
          (sentinelAvailable dial ping w e).2.1 = false)) ∧
      (∀ e, mapHas (pc.Sentinels.getD []) e = true ↔
        (mapHas confirmed e = true ∨ mapHas invalid e = true)) ∧
      (∀ e, ¬ (mapHas confirmed e = true ∧ mapHas invalid e = true)) ∧
      (∀ e, mapHas (pc.Sentinels.getD []) e = true → mapHas (invalidCache w) e = true →
        mapHas invalid e = true) := by
  obtain ⟨confirmed, invalid, hpc, -, -, hconf, hinvd, -⟩ :=
    validatePodSentinels_spec dial ping w pc order hc hi
  have hdecl : ∀ e, e ∈ order ↔ mapHas (pc.Sentinels.getD []) e = true := by
    intro e
    rw [mapHas_iff_mem_mapKeys]
    exact hperm.mem_iff
  have hc' : ∀ e, mapHas confirmed e = true ↔
      (mapHas (pc.Sentinels.getD []) e = true ∧
        (sentinelAvailable dial ping w e).2.1 = true) := by
    intro e; rw [hconf e, hdecl e, sentinelAvailable_true_iff]
  have hi' : ∀ e, mapHas invalid e = true ↔
      (mapHas (pc.Sentinels.getD []) e = true ∧
        (sentinelAvailable dial ping w e).2.1 = false) := by
    intro e; rw [hinvd e, hdecl e, sentinelAvailable_false_iff]
  refine ⟨confirmed, invalid, hpc, hc', hi', ?_, ?_, ?_⟩
  · intro e
    rw [hc' e, hi' e]
    constructor
    · intro h
      cases hb : (sentinelAvailable dial ping w e).2.1 with
      | true => exact Or.inl ⟨h, rfl⟩
      | false => exact Or.inr ⟨h, rfl⟩
    · rintro (⟨h, -⟩ | ⟨h, -⟩) <;> exact h
  · intro e
    rw [hc' e, hi' e]
    rintro ⟨⟨-, h1⟩, ⟨-, h2⟩⟩
    rw [h1] at h2
    exact absurd h2 (by simp)
  · intro e h1 h2
    rw [hinvd e, hdecl e]
    exact ⟨h1, Or.inl h2⟩

/-- C18, witness: the pod with the two declared sentinels, audited on the
initial world in the order second, first. -/
theorem validatePodSentinels_partitions_witness :
    twoSentinelPod.ConfirmedSentinels = none ∧ twoSentinelPod.InvalidSentinels = none ∧
    ["10.0.0.2:26379", "10.0.0.1:26379"].Perm (mapKeys (twoSentinelPod.Sentinels.getD [])) ∧
    ∃ confirmed invalid : GoMap String String,
      (validatePodSentinels onlyFirstReachable (fun _ => true)
          ["10.0.0.2:26379", "10.0.0.1:26379"] twoSentinelPod {}).1 =
        { twoSentinelPod with
          ConfirmedSentinels := some confirmed, InvalidSentinels := some invalid } ∧
      (∀ e, mapHas confirmed e = true ↔
        (mapHas (twoSentinelPod.Sentinels.getD []) e = true ∧
          (sentinelAvailable onlyFirstReachable (fun _ => true) {} e).2.1 = true)) ∧
      (∀ e, mapHas invalid e = true ↔
        (mapHas (twoSentinelPod.Sentinels.getD []) e = true ∧
          (sentinelAvailable onlyFirstReachable (fun _ => true) {} e).2.1 = false)) ∧
      (∀ e, mapHas (twoSentinelPod.Sentinels.getD []) e = true ↔
        (mapHas confirmed e = true ∨ mapHas invalid e = true)) ∧
      (∀ e, ¬ (mapHas confirmed e = true ∧ mapHas invalid e = true)) ∧
      (∀ e, mapHas (twoSentinelPod.Sentinels.getD []) e = true →
        mapHas (invalidCache {}) e = true → mapHas invalid e = true) :=
  ⟨rfl, rfl, List.Perm.swap _ _ _,
    validatePodSentinels_partitions onlyFirstReachable (fun _ => true) {} twoSentinelPod
      ["10.0.0.2:26379", "10.0.0.1:26379"] rfl rfl (List.Perm.swap _ _ _)⟩


/-! ## End to end: one pod with quorum 2 -/

theorem ConfigIssues_eq (pc : SentinelPodConfig) :
    ConfigIssues pc =
      (if 0 < lenMap pc.InvalidSentinels then [ConfigIssue.HASINVALIDSENTINELS] else []) ++
      (if (lenMap pc.ConfirmedSentinels : Int) < pc.Quorum then
        [ConfigIssue.NOQUORUM, ConfigIssue.NOTENOUGHSENTINELS] else []) := by
  unfold ConfigIssues
  by_cases hq : (lenMap pc.ConfirmedSentinels : Int) < pc.Quorum <;>
    by_cases hi : lenMap pc.InvalidSentinels > 0 <;>
    simp [hq, hi]

theorem mapLen_eq_of_keys {V : Type} (m : GoMap String V) (l : List String) (hwf : mapWF m)
    (hl : l.Nodup) (h : ∀ e, mapHas m e = true ↔ e ∈ l) : m.length = l.length := by
  have hperm : (mapKeys m).Perm l := by
    rw [List.perm_ext_iff_of_nodup hwf hl]
    intro e
    rw [← mapHas_iff_mem_mapKeys]
    exact h e
  have := hperm.length_eq
  simpa [mapKeys] using this

theorem mapLen_pos_iff {V : Type} (m : GoMap String V) :
    0 < m.length ↔ ∃ e, mapHas m e = true := by
  constructor
  · intro h
    rcases m with _ | ⟨⟨k, v⟩, rest⟩
    · simp at h
    · exact ⟨k, by simp [mapHas, mapLookup]⟩
  · rintro ⟨e, he⟩
    rcases m with _ | ⟨⟨k, v⟩, rest⟩
    · simp [mapHas, mapLookup] at he
    · simp

theorem runDirectives_known_sentinels (p : String) (ds : List (String × String)) :
    ∀ (w : World) (pc : SentinelPodConfig) (sm : GoMap String String),
      w.lsconf.ManagedPodConfigs = [(p, pc)] → pc.Sentinels = some sm → mapWF sm →
      ∃ (w' : World) (sm' : GoMap String String),
        runDirectives w (ds.map (fun d => knownSentinelDirective (p, d.1, d.2))) =
          Except.ok w' ∧
        w'.lsconf.ManagedPodConfigs = [(p, { pc with Sentinels := some sm' })] ∧
        mapWF sm' ∧
        (∀ e, mapHas sm' e = true ↔ (mapHas sm e = true ∨ e ∈ ds.map endpoint)) ∧
        w'.lsconf.InvalidSentinels = w.lsconf.InvalidSentinels ∧
        w'.lsconf.ConfigIssueMapping = w.lsconf.ConfigIssueMapping ∧
        w'.masterIPtoPodMapping = w.masterIPtoPodMapping := by
  induction ds with
  | nil =>
    intro w pc sm hm hs hwf
    refine ⟨w, sm, rfl, ?_, hwf, by simp, rfl, rfl, rfl⟩
    rw [hm, ← hs]
  | cons d ds ih =>
    intro w pc sm hm hs hwf
    have hget : mapGet w.lsconf.ManagedPodConfigs p = pc := by
      rw [hm]; simp [mapGet, mapLookup]
    have hstep := extractSentinelDirective_known_sentinel w p d.1 d.2
    rw [hget, hs] at hstep
    simp only at hstep
    obtain ⟨w', sm', hrun, hmpc, hwf', hkeys, h1, h2, h3⟩ :=
      ih
        { w with lsconf := { w.lsconf with
            ManagedPodConfigs := mapStore w.lsconf.ManagedPodConfigs p
              { pc with Sentinels := some (mapStore sm (d.1 ++ ":" ++ d.2) "") },
            KnownSentinels :=
              if d.1 ++ ":" ++ d.2 = w.lsconf.Name then w.lsconf.KnownSentinels
              else mapStore w.lsconf.KnownSentinels (d.1 ++ ":" ++ d.2) (d.1 ++ ":" ++ d.2) } }
        { pc with Sentinels := some (mapStore sm (d.1 ++ ":" ++ d.2) "") }
        (mapStore sm (d.1 ++ ":" ++ d.2) "")
        (by
          show mapStore w.lsconf.ManagedPodConfigs p _ = _
          rw [hm]; simp [mapStore])
        rfl (mapWF_mapStore _ _ _ hwf)
    refine ⟨w', sm', ?_, hmpc, hwf', ?_, h1, h2, h3⟩
    · rw [List.map_cons]
      unfold runDirectives
      unfold knownSentinelDirective
      simp only
      rw [hstep]
      exact hrun
    · intro e
      rw [hkeys e, mapHas_mapStore, List.map_cons, List.mem_cons]
      unfold endpoint
      constructor
      · rintro ((h | h) | h)
        · exact Or.inr (Or.inl h)
        · exact Or.inl h
        · exact Or.inr (Or.inr h)
      · rintro (h | h | h)
        · exact Or.inl (Or.inr h)
        · exact Or.inl (Or.inl h)
        · exact Or.inr h

/-- Parsing a configuration of one pod with quorum 2 from a topology without
pods: the topology then holds exactly that pod, with quorum 2, no replicas, nil
audit maps, and the declared endpoints as its sentinels; the invalid cache and
the issue index are untouched. -/
theorem runDirectives_onePod (w0 : World) (pname ip port : String)
    (ds : List (String × String)) (h0 : w0.lsconf.ManagedPodConfigs = []) :
    ∃ (w : World) (sm : GoMap String String),
      runDirectives w0 (onePodDirectives pname ip port ds) = Except.ok w ∧
      w.lsconf.ManagedPodConfigs =
        [(pname, { Name := pname, IP := ip, Port := (Atoi port).1, Quorum := 2,
                   Sentinels := some sm })] ∧
      mapWF sm ∧
      (∀ e, mapHas sm e = true ↔ e ∈ ds.map endpoint) ∧
      w.lsconf.InvalidSentinels = w0.lsconf.InvalidSentinels ∧
      w.lsconf.ConfigIssueMapping = w0.lsconf.ConfigIssueMapping ∧
      w.masterIPtoPodMapping = w0.masterIPtoPodMapping := by
  have hmon := extractSentinelDirective_monitor w0 pname ip port "2"
  have hno : mapHas w0.lsconf.ManagedPodConfigs (sprintfAddr ip (Atoi port).1) = false := by
    rw [h0]; rfl
  rw [hno, h0] at hmon
  simp only [Bool.false_eq_true, if_false, mapStore] at hmon
  have hq : (Atoi "2").1 = 2 := by decide
  rw [hq] at hmon
  obtain ⟨w, sm, hrun, hmpc, hwf, hkeys, h1, h2, h3⟩ :=
    runDirectives_known_sentinels pname ds
      { w0 with lsconf := { w0.lsconf with
          ManagedPodConfigs :=
            [(pname, { Name := pname, IP := ip, Port := (Atoi port).1, Quorum := 2,
                       Sentinels := some [] })] } }
      { Name := pname, IP := ip, Port := (Atoi port).1, Quorum := 2, Sentinels := some [] }
      [] rfl rfl (by unfold mapWF mapKeys; simp)
  refine ⟨w, sm, ?_, hmpc, hwf, ?_, h1, h2, h3⟩
  · unfold onePodDirectives runDirectives
    rw [hmon]
    exact hrun
  · intro e
    rw [hkeys e]
    simp [mapHas, mapLookup]


/-- The audit of a freshly parsed pod with quorum 2 on a world whose invalid
cache is still nil: the confirmed sentinels are the declared endpoints whose
dial succeeds, the invalid ones those whose dial fails. -/
theorem validatePodSentinels_fresh (dial : String → String → Bool) (ping : String → Bool)
    (w : World) (pc : SentinelPodConfig) (sm : GoMap String String) (es order : List String)
    (hc : pc.ConfirmedSentinels = none)
    (hi : pc.InvalidSentinels = none) (hcache : w.lsconf.InvalidSentinels = none)
    (hkeys : ∀ e, mapHas sm e = true ↔ e ∈ es) (hperm : order.Perm (mapKeys sm)) :
    ∃ confirmed invalid : GoMap String String,
      (validatePodSentinels dial ping order pc w).1 =
        { pc with ConfirmedSentinels := some confirmed, InvalidSentinels := some invalid } ∧
      mapWF confirmed ∧ mapWF invalid ∧
      (∀ e, mapHas confirmed e = true ↔ (e ∈ es ∧ dial e "" = true)) ∧
      (∀ e, mapHas invalid e = true ↔ (e ∈ es ∧ dial e "" = false)) := by
  obtain ⟨confirmed, invalid, hpc, hwc, hwi, hconf, hinvd, -⟩ :=
    validatePodSentinels_spec dial ping w pc order hc hi
  have hempty : ∀ e, mapHas (invalidCache w) e = false := by
    intro e; simp [invalidCache, hcache, mapHas, mapLookup]
  have hdecl : ∀ e, e ∈ order ↔ e ∈ es := by
    intro e
    rw [← hkeys e, mapHas_iff_mem_mapKeys]
    exact hperm.mem_iff
  refine ⟨confirmed, invalid, hpc, hwc, hwi, ?_, ?_⟩
  · intro e
    rw [hconf e, hdecl e, hempty e]
    simp
  · intro e
    rw [hinvd e, hdecl e, hempty e]
    simp

/-! ## A second monitor directive for the same pod -/

theorem mapLen_mapStore_of_present {K V : Type} [DecidableEq K] (m : GoMap K V) (k : K) (v : V)
    (h : mapLookup m k ≠ none) : mapLen (mapStore m k v) = mapLen m := by
  have := congrArg List.length (mapKeys_mapStore_of_present m k v h)
  simpa [mapKeys, mapLen] using this

/-- C26: for every topology in which `pname` is a key of `ManagedPodConfigs`
and the text `<ip>:<port>` is not, the directive
`monitor <pname> <ip> <port> <quorum>` returns nil and rebinds `pname` to a
fresh entry: the given name and ip, the port and quorum `Atoi` reads, an empty
`Sentinels` map, no `Slaves`, an empty `AuthToken` and nil audit maps, whatever
the entry held before; the number of pods is unchanged, every other key reads
as before and nothing else in the world changes. -/
theorem monitor_existing_pod_replaced (w : World) (pname ip ps qs : String)
    (hex : mapHas w.lsconf.ManagedPodConfigs pname = true)
    (haddr : mapHas w.lsconf.ManagedPodConfigs (sprintfAddr ip (Atoi ps).1) = false) :
    ∃ w' : World,
      extractSentinelDirective w ["monitor", pname, ip, ps, qs] = Except.ok (w', none) ∧
      { w' with lsconf := { w'.lsconf with
          ManagedPodConfigs := w.lsconf.ManagedPodConfigs } } = w ∧
      mapLookup w'.lsconf.ManagedPodConfigs pname =
        some { IP := ip, Port := (Atoi ps).1, Quorum := (Atoi qs).1, Name := pname,
               AuthToken := "", Sentinels := some [], Slaves := [],
               ConfirmedSentinels := none, InvalidSentinels := none } ∧
      mapLen w'.lsconf.ManagedPodConfigs = mapLen w.lsconf.ManagedPodConfigs ∧
      (∀ k, k ≠ pname →
        mapLookup w'.lsconf.ManagedPodConfigs k = mapLookup w.lsconf.ManagedPodConfigs k) := by
  have hne : mapLookup w.lsconf.ManagedPodConfigs pname ≠ none := by
    intro h
    rw [mapHas, h] at hex
    exact absurd hex (by simp)
  refine ⟨{ w with lsconf := { w.lsconf with
      ManagedPodConfigs := mapStore w.lsconf.ManagedPodConfigs pname
        { Name := pname, IP := ip, Port := (Atoi ps).1, Quorum := (Atoi qs).1,
          Sentinels := some [] } } }, ?_, rfl, ?_, ?_, ?_⟩
  · rw [extractSentinelDirective_monitor, haddr]
    simp only [Bool.false_eq_true, if_false]
  · exact mapLookup_mapStore_self _ _ _
  · exact mapLen_mapStore_of_present _ _ _ hne
  · intro k hk
    exact mapLookup_mapStore_ne _ _ _ _ hk

/-- C26, witness: in the topology left by `monitor p 10.0.0.9 6379 2` with the
local identity bound, a second `monitor p 10.0.0.8 6380 3` meets both
hypotheses. -/
theorem monitor_existing_pod_replaced_witness :
    mapHas boundWorld.lsconf.ManagedPodConfigs "p" = true ∧
    mapHas boundWorld.lsconf.ManagedPodConfigs (sprintfAddr "10.0.0.8" (Atoi "6380").1) = false ∧
    ∃ w' : World,
      extractSentinelDirective boundWorld ["monitor", "p", "10.0.0.8", "6380", "3"] =
        Except.ok (w', none) ∧
      { w' with lsconf := { w'.lsconf with
          ManagedPodConfigs := boundWorld.lsconf.ManagedPodConfigs } } = boundWorld ∧
      mapLookup w'.lsconf.ManagedPodConfigs "p" =
        some { IP := "10.0.0.8", Port := (Atoi "6380").1, Quorum := (Atoi "3").1, Name := "p",
               AuthToken := "", Sentinels := some [], Slaves := [],
               ConfirmedSentinels := none, InvalidSentinels := none } ∧
      mapLen w'.lsconf.ManagedPodConfigs = mapLen boundWorld.lsconf.ManagedPodConfigs ∧
      (∀ k, k ≠ "p" →
        mapLookup w'.lsconf.ManagedPodConfigs k =
          mapLookup boundWorld.lsconf.ManagedPodConfigs k) :=
  ⟨rfl, rfl, monitor_existing_pod_replaced boundWorld "p" "10.0.0.8" "6380" "3" rfl rfl⟩

/-! ## The liveness command -/

/-- C28: for every endpoint that is not in the invalid cache and whose dial
succeeds, whatever `Ping` returns: `sentinelAvailable` returns true together
with the error of `Ping` (nil or not), the keys of `lsconf.InvalidSentinels`
are as before (a nil map has become an empty one), and `validatePodSentinels`
on any pod with nil audit maps that visits the endpoint puts it in
`ConfirmedSentinels` and not in `InvalidSentinels`. -/
theorem sentinelAvailable_ignores_ping (dial : String → String → Bool) (ping : String → Bool)
    (w : World) (name : String) (hk : mapHas (invalidCache w) name = false)
    (hd : dial name "" = true) :
    (sentinelAvailable dial ping w name).2.1 = true ∧
    (sentinelAvailable dial ping w name).2.2 =
      (if ping name then none else some (GoError.pingFailed name)) ∧
    invalidCache (sentinelAvailable dial ping w name).1 = invalidCache w ∧
    (∀ (pc : SentinelPodConfig) (order : List String),
      pc.ConfirmedSentinels = none → pc.InvalidSentinels = none → name ∈ order →
      ∃ confirmed invalid : GoMap String String,
        (validatePodSentinels dial ping order pc w).1.ConfirmedSentinels = some confirmed ∧
        (validatePodSentinels dial ping order pc w).1.InvalidSentinels = some invalid ∧
        mapHas confirmed name = true ∧ mapHas invalid name = false) := by
  have hr := sentinelAvailable_dial_ok dial ping w name hk hd
  refine ⟨by rw [hr], by rw [hr], by rw [hr]; rfl, ?_⟩
  intro pc order hc hi hmem
  obtain ⟨confirmed, invalid, hpc, -, -, hconf, hinvd, -⟩ :=
    validatePodSentinels_spec dial ping w pc order hc hi
  refine ⟨confirmed, invalid, by rw [hpc], by rw [hpc], (hconf name).mpr ⟨hmem, hk, hd⟩, ?_⟩
  cases hin : mapHas invalid name with
  | false => rfl
  | true =>
    rcases ((hinvd name).mp hin).2 with h | h
    · rw [hk] at h; exact absurd h (by simp)
    · rw [hd] at h; exact absurd h (by simp)

/-- C28, witness: `10.0.0.1:26379` accepts the connection and fails `Ping`; the
probe on the initial world returns true with the ping error. -/
theorem sentinelAvailable_ignores_ping_witness :
    mapHas (invalidCache {}) "10.0.0.1:26379" = false ∧
    onlyFirstReachable "10.0.0.1:26379" "" = true ∧
    (sentinelAvailable onlyFirstReachable (fun _ => false) {} "10.0.0.1:26379").2 =
      (true, some (GoError.pingFailed "10.0.0.1:26379")) :=
  ⟨rfl, by decide,
    Prod.ext
      (sentinelAvailable_ignores_ping onlyFirstReachable (fun _ => false) {} "10.0.0.1:26379"
        rfl (by decide)).1
      (sentinelAvailable_ignores_ping onlyFirstReachable (fun _ => false) {} "10.0.0.1:26379"
        rfl (by decide)).2.1⟩

/-! ## Probes after a master IP collision -/

/-- C23, counterexample: pods `a` and `b` share the master IP and every dial
fails; `FindDupeMasterIPs` visiting `a`, `b`, `c` dials only the master of the
newly visited pod `b` and flags only `b`: the master of the previously seen
pod `a` is neither dialed nor flagged. -/
theorem only_new_pod_probed_when_both_fail :
    (FindDupeMasterIPs (fun _ _ => false) (mapValues threePodWorld.lsconf.ManagedPodConfigs)
        threePodWorld).trace =
      [Event.lookingForDuplicatedMasterIPs,
       Event.foundDuplicateMaster "a" "b" "10.0.0.1",
       Event.dial "10.0.0.1:6380" "",
       Event.recommendDeleting "b" "10.0.0.1"] :=
  rfl

/-- C23, amended: for every master-IP collision that `FindDupeMasterIPs` finds
between the newly visited pod `v` and the previously seen pod `opod`, and all
dial outcomes: the master address of `v` is dialed with the `AuthToken` of
`v`; if that dial fails, `v` is flagged and `opod` is not dialed; if it
succeeds, the master address of `opod` is dialed with the `AuthToken` of
`opod` and `opod` is flagged exactly when that dial fails.  So at most one of
the two pods is flagged. -/
theorem dupeMasterStep_probes (dial : String → String → Bool) (w : World)
    (v opod : SentinelPodConfig) (h : mapLookup w.masterIPtoPodMapping v.IP = some opod) :
    (dupeMasterStep dial w v).trace =
      w.trace ++
        [Event.foundDuplicateMaster opod.Name v.Name v.IP,
         Event.dial (sprintfAddr v.IP v.Port) v.AuthToken] ++
        (if dial (sprintfAddr v.IP v.Port) v.AuthToken = false then
          [Event.recommendDeleting v.Name v.IP]
        else
          Event.dial (sprintfAddr opod.IP opod.Port) opod.AuthToken ::
            (if dial (sprintfAddr opod.IP opod.Port) opod.AuthToken = false then
              [Event.recommendDeleting opod.Name opod.IP]
            else [])) := by
  unfold dupeMasterStep
  rw [h]
  cases h1 : dial (sprintfAddr v.IP v.Port) v.AuthToken <;>
    cases h2 : dial (sprintfAddr opod.IP opod.Port) opod.AuthToken <;>
    simp [emit, appendIssue, h1, h2]

/-- C23, witness: a world in which the master IP of the visited pod is already
bound, with the first dial succeeding and the second failing. -/
theorem dupeMasterStep_probes_witness :
    (dupeMasterStep (fun a _ => decide (a = "10.0.0.1:6380"))
        { masterIPtoPodMapping := [("10.0.0.1", { Name := "a", IP := "10.0.0.1", Port := 6379 })] }
        { Name := "b", IP := "10.0.0.1", Port := 6380 }).trace =
      [Event.foundDuplicateMaster "a" "b" "10.0.0.1",
       Event.dial "10.0.0.1:6380" "",
       Event.dial "10.0.0.1:6379" "",
       Event.recommendDeleting "a" "10.0.0.1"] :=
  dupeMasterStep_probes (fun a _ => decide (a = "10.0.0.1:6380"))
    { masterIPtoPodMapping := [("10.0.0.1", { Name := "a", IP := "10.0.0.1", Port := 6379 })] }
    { Name := "b", IP := "10.0.0.1", Port := 6380 }
    { Name := "a", IP := "10.0.0.1", Port := 6379 } rfl


/-! ## The master address query -/

/-- C27: `SentinelGetMaster` tests `len(info) != 0` and then reads `info[1]`.
For every reply list of exactly one element the read is out of range and the
call panics; the empty list gives the zero `MasterAddress` with the error of
`ListValue`, and a list of two or more elements gives `Host` = first element
and `Port` = the second element as `Atoi` reads it, with the error of `Atoi`. -/
theorem SentinelGetMaster_one_element_panics (host : String) (listErr : Bool) :
    SentinelGetMaster (some ([host], listErr)) = Except.error Panic.indexOutOfRange ∧
    SentinelGetMaster (some ([], listErr)) =
      Except.ok ({}, if listErr then some ClientError.listValue else none) ∧
    ∀ (port : String) (rest : List String),
      SentinelGetMaster (some (host :: port :: rest, listErr)) =
        Except.ok ({ Host := host, Port := (Atoi port).1 },
          (Atoi port).2.map ClientError.atoi) :=
  ⟨rfl, rfl, fun _ _ => by
    simp [SentinelGetMaster, index, bind, Except.bind, pure, Except.pure]⟩

/-! ## Splitting a line into tokens -/

theorem splitChars_of_not_mem (sep : Char) (t : List Char) (h : sep ∉ t) :
    splitChars sep t = [t] := by
  induction t with
  | nil => rfl
  | cons c cs ih =>
    have hc : c ≠ sep := fun e => h (by simp [e])
    have hcs : sep ∉ cs := fun e => h (by simp [e])
    simp [splitChars, hc, ih hcs]

theorem splitChars_append_sep (sep : Char) (t rest : List Char) (h : sep ∉ t) :
    splitChars sep (t ++ sep :: rest) = t :: splitChars sep rest := by
  induction t with
  | nil => simp [splitChars]
  | cons c cs ih =>
    have hc : c ≠ sep := fun e => h (by simp [e])
    have hcs : sep ∉ cs := fun e => h (by simp [e])
    simp [splitChars, hc, ih hcs]

theorem splitChars_joinChars (ts : List (List Char)) (hne : ts ≠ [])
    (h : ∀ t ∈ ts, ' ' ∉ t) : splitChars ' ' (joinChars ts) = ts := by
  induction ts with
  | nil => exact absurd rfl hne
  | cons t ts ih =>
    cases ts with
    | nil => exact splitChars_of_not_mem ' ' t (h t (by simp))
    | cons t2 ts2 =>
      have e : joinChars (t :: t2 :: ts2) = t ++ ' ' :: joinChars (t2 :: ts2) := rfl
      rw [e, splitChars_append_sep ' ' t _ (h t (by simp)),
        ih (by simp) (fun x hx => h x (List.mem_cons_of_mem _ hx))]

theorem isToken_iff (t : String) :
    isToken t = true ↔ t.data ≠ [] ∧ ∀ c ∈ t.data, isSpace c = false := by
  unfold isToken
  cases t.data <;> simp

theorem Split_joinTokens (tokens : List String) (hne : tokens ≠ [])
    (h : ∀ t ∈ tokens, isToken t = true) : Split (joinTokens tokens) ' ' = tokens := by
  unfold Split joinTokens
  rw [splitChars_joinChars]
  · simp [List.map_map, Function.comp_def]
  · simpa using hne
  · intro t ht hsp
    obtain ⟨s, hs, rfl⟩ := List.mem_map.mp ht
    have := ((isToken_iff s).mp (h s hs)).2 ' ' hsp
    exact absurd this (by decide)

theorem joinChars_head (ts : List (List Char)) (hne : ts ≠ [])
    (h : ∀ t ∈ ts, t ≠ [] ∧ ∀ c ∈ t, isSpace c = false) :
    ∃ c r, joinChars ts = c :: r ∧ isSpace c = false := by
  cases ts with
  | nil => exact absurd rfl hne
  | cons t ts =>
    obtain ⟨htne, hts⟩ := h t (by simp)
    cases t with
    | nil => exact absurd rfl htne
    | cons c t' =>
      cases ts with
      | nil => exact ⟨c, t', rfl, hts c (by simp)⟩
      | cons t2 ts2 => exact ⟨c, t' ++ ' ' :: joinChars (t2 :: ts2), rfl, hts c (by simp)⟩

theorem joinChars_last (ts : List (List Char)) (hne : ts ≠ [])
    (h : ∀ t ∈ ts, t ≠ [] ∧ ∀ c ∈ t, isSpace c = false) :
    ∃ c r, joinChars ts = r ++ [c] ∧ isSpace c = false := by
  induction ts with
  | nil => exact absurd rfl hne
  | cons t ts ih =>
    cases ts with
    | nil =>
      obtain ⟨htne, hts⟩ := h t (by simp)
      refine ⟨t.getLast htne, t.dropLast, ?_, hts _ (List.getLast_mem htne)⟩
      exact (List.dropLast_append_getLast htne).symm
    | cons t2 ts2 =>
      obtain ⟨c, r, hr, hc⟩ := ih (by simp) (fun x hx => h x (List.mem_cons_of_mem _ hx))
      refine ⟨c, t ++ ' ' :: r, ?_, hc⟩
      have e : joinChars (t :: t2 :: ts2) = t ++ ' ' :: joinChars (t2 :: ts2) := rfl
      rw [e, hr]
      simp

theorem dropWhile_isSpace_pad (pre : List Char) (c : Char) (r : List Char)
    (hpre : ∀ x ∈ pre, isSpace x = true) (hc : isSpace c = false) :
    (pre ++ c :: r).dropWhile isSpace = c :: r := by
  induction pre with
  | nil => simp [List.dropWhile, hc]
  | cons x xs ih =>
    have hx : isSpace x = true := hpre x (by simp)
    have hxs : ∀ y ∈ xs, isSpace y = true := fun y hy => hpre y (List.mem_cons_of_mem _ hy)
    simp [List.dropWhile, hx, ih hxs]

theorem TrimSpace_pad (pre post s : List Char)
    (hpre : ∀ x ∈ pre, isSpace x = true) (hpost : ∀ x ∈ post, isSpace x = true)
    (hhead : ∃ c r, s = c :: r ∧ isSpace c = false)
    (hlast : ∃ c r, s = r ++ [c] ∧ isSpace c = false) :
    TrimSpace ⟨pre ++ s ++ post⟩ = ⟨s⟩ := by
  obtain ⟨c, r, hs, hc⟩ := hhead
  obtain ⟨c2, r2, hs2, hc2⟩ := hlast
  unfold TrimSpace
  have e1 : (pre ++ s ++ post).dropWhile isSpace = s ++ post := by
    rw [hs]
    have := dropWhile_isSpace_pad pre c (r ++ post) hpre hc
    simpa using this
  have e2 : (s ++ post).reverse.dropWhile isSpace = s.reverse := by
    rw [hs2]
    have := dropWhile_isSpace_pad post.reverse c2 r2.reverse
      (fun x hx => hpost x (List.mem_reverse.mp hx)) hc2
    simpa using this
  show String.mk (((pre ++ s ++ post).dropWhile isSpace).reverse.dropWhile isSpace).reverse =
    String.mk s
  rw [e1, e2, List.reverse_reverse]

theorem loadLine_congr (w : World) (r1 r2 : String) (atEOF : Bool)
    (h : TrimSpace r1 = TrimSpace r2) : loadLine w r1 atEOF = loadLine w r2 atEOF := by
  unfold loadLine
  simp only [h]

theorem TrimSpace_joinTokens_pad (tokens : List String) (pre post : String)
    (hne : tokens ≠ []) (htok : ∀ t ∈ tokens, isToken t = true)
    (hpre : pre.data.all isSpace = true) (hpost : post.data.all isSpace = true) :
    TrimSpace (pre ++ joinTokens tokens ++ post) = joinTokens tokens := by
  have hts : ∀ t ∈ tokens.map String.data, t ≠ [] ∧ ∀ c ∈ t, isSpace c = false := by
    intro t ht
    obtain ⟨s, hs, rfl⟩ := List.mem_map.mp ht
    exact (isToken_iff s).mp (htok s hs)
  have hne2 : tokens.map String.data ≠ [] := by simpa using hne
  have h := TrimSpace_pad pre.data post.data (joinChars (tokens.map String.data))
    (fun x hx => List.all_eq_true.mp hpre x hx) (fun x hx => List.all_eq_true.mp hpost x hx)
    (joinChars_head _ hne2 hts) (joinChars_last _ hne2 hts)
  have e : pre ++ joinTokens tokens ++ post =
      ⟨pre.data ++ joinChars (tokens.map String.data) ++ post.data⟩ := by
    apply String.ext
    simp [joinTokens]
  rw [e, h]
  rfl

/-- C21, counterexample: the line `port 26379` sets `Port` to 26379; with two
spaces between the tokens the second token is the empty string and `Port` is
0; with a tab between them the line is one token and is reported as an
unhandled directive, `Port` staying 0. -/
theorem repeated_space_or_tab_changes_state :
    (∃ w : World, loadLines {} ["port 26379\n"] = Except.ok w ∧ w.lsconf.Port = 26379) ∧
    Split "port  26379" ' ' = ["port", "", "26379"] ∧
    (∃ w : World, loadLines {} ["port  26379\n"] = Except.ok w ∧ w.lsconf.Port = 0) ∧
    Split "port\t26379" ' ' = ["port\t26379"] ∧
    (∃ w : World, loadLines {} ["port\t26379\n"] = Except.ok w ∧ w.lsconf.Port = 0 ∧
      w.trace = [Event.unhandledConfigDirective "port\t26379"]) :=
  ⟨⟨_, rfl, rfl⟩, rfl, ⟨_, rfl, rfl⟩, rfl, ⟨_, rfl, rfl, rfl⟩⟩

/-- C21, amended: `LoadSentinelConfigFile` trims the white space around a line
and splits what remains at every single space character.  For every non-empty
list of tokens (non-empty strings without white space) written with exactly one
space between neighbours, and any white space before and after: the trimmed
line is the single-spaced line, its split is the list of tokens, and the line
has the same effect on every topology state as the single-spaced line without
the padding. -/
theorem single_spaced_line_tokens (w : World) (tokens : List String) (pre post : String)
    (atEOF : Bool) (hne : tokens ≠ []) (htok : ∀ t ∈ tokens, isToken t = true)
    (hpre : pre.data.all isSpace = true) (hpost : post.data.all isSpace = true) :
    TrimSpace (pre ++ joinTokens tokens ++ post) = joinTokens tokens ∧
    Split (TrimSpace (pre ++ joinTokens tokens ++ post)) ' ' = tokens ∧
    loadLine w (pre ++ joinTokens tokens ++ post) atEOF =
      loadLine w (joinTokens tokens) atEOF := by
  have h1 := TrimSpace_joinTokens_pad tokens pre post hne htok hpre hpost
  have h0 : TrimSpace (joinTokens tokens) = joinTokens tokens := by
    have := TrimSpace_joinTokens_pad tokens "" "" hne htok rfl rfl
    simpa using this
  refine ⟨h1, ?_, ?_⟩
  · rw [h1]; exact Split_joinTokens tokens hne htok
  · exact loadLine_congr w _ _ atEOF (h1.trans h0.symm)

/-- C21, witness: the tokens `port` and `26379` with a space and a tab before
them and a line feed after. -/
theorem single_spaced_line_tokens_witness :
    (["port", "26379"] : List String) ≠ [] ∧
    (∀ t ∈ (["port", "26379"] : List String), isToken t = true) ∧
    TrimSpace (" \t" ++ joinTokens ["port", "26379"] ++ "\n") = joinTokens ["port", "26379"] ∧
    Split (TrimSpace (" \t" ++ joinTokens ["port", "26379"] ++ "\n")) ' ' = ["port", "26379"] ∧
    loadLine {} (" \t" ++ joinTokens ["port", "26379"] ++ "\n") false =
      loadLine {} (joinTokens ["port", "26379"]) false :=
  ⟨by decide, by decide,
    single_spaced_line_tokens {} ["port", "26379"] " \t" "\n" false (by decide) (by decide)
      (by decide) (by decide)⟩

/-! ## A configuration file that cannot be opened -/

/-- C22: when `os.Open` fails, `LoadSentinelConfigFile` returns a non-nil
error and leaves `ManagedPodConfigs` and `KnownSentinels` empty; `main` drops
that value: it goes on to run every requested report on the empty topology
and returns, so the process ends with status 0.  With `-report baseconfig` the
base report is printed for an unnamed sentinel on port 0. -/
theorem open_failure_reports_still_run (rt : Runtime) (reportFlag : List String) :
    (∀ w : World, ∃ w' : World,
      LoadSentinelConfigFile none w =
        Except.ok (LoadOutcome.returned w' (some GoError.openFailed)) ∧
      w'.lsconf.ManagedPodConfigs = [] ∧ w'.lsconf.KnownSentinels = []) ∧
    (∃ w0 : World, w0.lsconf.ManagedPodConfigs = [] ∧ w0.lsconf.KnownSentinels = [] ∧
      main rt none reportFlag = Except.ok (reportFlag.foldl (runReport rt) w0, 0)) ∧
    main rt none ["baseconfig"] =
      Except.ok
        ({ trace :=
            [Event.print "Reports to run: [baseconfig]",
             Event.print "Running sentinel config audit",
             Event.print "open failed",
             Event.print "Configuration Audit Run for Sentinel ''",
             Event.print "",
             Event.print "WARNING: MISSING BIND DIRECTIVE!",
             Event.print "Bind Statement Present: False",
             Event.print "WARNING: Sentinel is running on non-standard port: 0."] }, 0) :=
  ⟨fun _ => ⟨_, rfl, rfl, rfl⟩, ⟨_, rfl, rfl, rfl⟩, rfl⟩

/-! ## The audit pass over the pods -/

theorem sentinelAvailable_frame (dial : String → String → Bool) (ping : String → Bool)
    (w : World) (name : String) :
    (sentinelAvailable dial ping w name).1.lsconf.ManagedPodConfigs =
        w.lsconf.ManagedPodConfigs ∧
      (sentinelAvailable dial ping w name).1.lsconf.ConfigIssueMapping =
        w.lsconf.ConfigIssueMapping := by
  rcases sentinelAvailable_cases dial ping w name with ⟨_, hr⟩ | ⟨_, _, hr⟩ | ⟨_, _, hr⟩ <;>
    rw [hr] <;> exact ⟨rfl, rfl⟩

theorem validateStep_world (dial : String → String → Bool) (ping : String → Bool)
    (st : SentinelPodConfig × World) (s : String) :
    (validateStep dial ping st s).2 = (sentinelAvailable dial ping st.2 s).1 := by
  unfold validateStep
  simp only
  split <;> rfl

theorem validateFold_frame (dial : String → String → Bool) (ping : String → Bool)
    (order : List String) :
    ∀ st : SentinelPodConfig × World,
      (order.foldl (validateStep dial ping) st).2.lsconf.ManagedPodConfigs =
          st.2.lsconf.ManagedPodConfigs ∧
        (order.foldl (validateStep dial ping) st).2.lsconf.ConfigIssueMapping =
          st.2.lsconf.ConfigIssueMapping := by
  induction order with
  | nil => intro st; exact ⟨rfl, rfl⟩
  | cons s rest ih =>
    intro st
    have h := ih (validateStep dial ping st s)
    have hs := sentinelAvailable_frame dial ping st.2 s
    rw [validateStep_world] at h
    rw [List.foldl_cons]
    exact ⟨h.1.trans hs.1, h.2.trans hs.2⟩

theorem validatePodSentinels_frame (dial : String → String → Bool) (ping : String → Bool)
    (order : List String) (pc : SentinelPodConfig) (w : World) :
    (validatePodSentinels dial ping order pc w).2.lsconf.ManagedPodConfigs =
        w.lsconf.ManagedPodConfigs ∧
      (validatePodSentinels dial ping order pc w).2.lsconf.ConfigIssueMapping =
        w.lsconf.ConfigIssueMapping := by
  unfold validatePodSentinels
  exact validateFold_frame dial ping order _

theorem appendIssue_pods (w : World) (i : ConfigIssue) (v : SentinelPodConfig) :
    (appendIssue w i v).lsconf.ManagedPodConfigs = w.lsconf.ManagedPodConfigs := rfl

theorem appendIssues_frame (v : SentinelPodConfig) (issues : List ConfigIssue) :
    ∀ w : World,
      (issues.foldl (fun w issue => appendIssue w issue v) w).lsconf.ManagedPodConfigs =
        w.lsconf.ManagedPodConfigs := by
  induction issues with
  | nil => intro w; rfl
  | cons i rest ih => intro w; rw [List.foldl_cons, ih]; rfl

theorem appendIssues_issuePods (v : SentinelPodConfig) (issues : List ConfigIssue)
    (j : ConfigIssue) :
    ∀ w : World,
      issuePods (issues.foldl (fun w issue => appendIssue w issue v) w) j =
        issuePods w j ++ List.replicate (issues.count j) v := by
  induction issues with
  | nil => intro w; simp
  | cons i rest ih =>
    intro w
    rw [List.foldl_cons, ih]
    by_cases h : j = i
    · subst h
      rw [issuePods_appendIssue_self, List.count_cons_self, List.replicate_succ]
      simp
    · rw [issuePods_appendIssue_ne _ _ _ _ h, List.count_cons_of_ne h]


theorem mapStore_mapStore_same {K V : Type} [DecidableEq K] (m : GoMap K V) (k : K) (v : V) :
    mapStore (mapStore m k v) k v = mapStore m k v := by
  induction m with
  | nil => simp [mapStore]
  | cons e rest ih =>
    obtain ⟨k0, v0⟩ := e
    by_cases h : k0 = k
    · simp [mapStore, h]
    · simp [mapStore, h, ih]

theorem sentinelAvailable_cache_of_dial_ok (dial : String → String → Bool)
    (ping : String → Bool) (w : World) (name e : String) (he : dial e "" = true) :
    mapHas (invalidCache (sentinelAvailable dial ping w name).1) e =
      mapHas (invalidCache w) e := by
  rcases sentinelAvailable_cases dial ping w name with ⟨_, hr⟩ | ⟨_, hd, hr⟩ | ⟨_, _, hr⟩
  · rw [hr]
  · rw [hr]
    show mapHas (mapStore (invalidCache w) name "") e = _
    have hne : e ≠ name := fun h => by rw [h, hd] at he; exact absurd he (by simp)
    unfold mapHas
    rw [mapLookup_mapStore_ne _ _ _ _ hne]
  · rw [hr]
    rfl

theorem validateStep_congr (dial : String → String → Bool) (ping : String → Bool)
    (pc : SentinelPodConfig) (w1 w2 : World) (s : String) (h : cacheAgree dial w1 w2) :
    (validateStep dial ping (pc, w1) s).1 = (validateStep dial ping (pc, w2) s).1 ∧
      cacheAgree dial (validateStep dial ping (pc, w1) s).2
        (validateStep dial ping (pc, w2) s).2 := by
  refine ⟨?_, ?_⟩
  · cases hd : dial s ""
    · -- the dial fails: the sentinel is invalid whatever the caches hold
      have key : ∀ w : World, (validateStep dial ping (pc, w) s).1 =
          { pc with InvalidSentinels := some (mapStore (pc.InvalidSentinels.getD []) s "") } := by
        intro w
        cases hk : mapHas (invalidCache w) s
        · rw [validateStep_dial_failed dial ping pc w s hk hd]
        · rw [validateStep_known dial ping pc w s hk, mapStore_mapStore_same]
      rw [key w1, key w2]
    · have hag := h s hd
      cases hk : mapHas (invalidCache w1) s
      · rw [validateStep_dial_ok dial ping pc w1 s hk hd,
          validateStep_dial_ok dial ping pc w2 s (hag ▸ hk) hd]
      · rw [validateStep_known dial ping pc w1 s hk,
          validateStep_known dial ping pc w2 s (hag ▸ hk)]
  · intro e he
    rw [validateStep_world, validateStep_world, sentinelAvailable_cache_of_dial_ok _ _ _ _ _ he,
      sentinelAvailable_cache_of_dial_ok _ _ _ _ _ he]
    exact h e he

theorem validateFold_congr (dial : String → String → Bool) (ping : String → Bool)
    (order : List String) :
    ∀ (pc : SentinelPodConfig) (w1 w2 : World), cacheAgree dial w1 w2 →
      (order.foldl (validateStep dial ping) (pc, w1)).1 =
          (order.foldl (validateStep dial ping) (pc, w2)).1 ∧
        cacheAgree dial (order.foldl (validateStep dial ping) (pc, w1)).2
          (order.foldl (validateStep dial ping) (pc, w2)).2 := by
  induction order with
  | nil => intro pc w1 w2 h; exact ⟨rfl, h⟩
  | cons s rest ih =>
    intro pc w1 w2 h
    obtain ⟨h1, h2⟩ := validateStep_congr dial ping pc w1 w2 s h
    have e1 : validateStep dial ping (pc, w1) s =
        ((validateStep dial ping (pc, w1) s).1, (validateStep dial ping (pc, w1) s).2) := rfl
    have e2 : validateStep dial ping (pc, w2) s =
        ((validateStep dial ping (pc, w1) s).1, (validateStep dial ping (pc, w2) s).2) := by
      rw [h1]
    rw [List.foldl_cons, List.foldl_cons, e1, e2]
    exact ih _ _ _ h2

theorem classifiedCopy_congr (dial : String → String → Bool) (ping : String → Bool)
    (sentinelOrder : SentinelPodConfig → List String) (w1 w2 : World)
    (pc : SentinelPodConfig) (h : cacheAgree dial w1 w2) :
    classifiedCopy dial ping sentinelOrder w1 pc = classifiedCopy dial ping sentinelOrder w2 pc ∧
      cacheAgree dial (validatePodSentinels dial ping (sentinelOrder pc) pc w1).2
        (validatePodSentinels dial ping (sentinelOrder pc) pc w2).2 := by
  unfold classifiedCopy validatePodSentinels
  exact validateFold_congr dial ping (sentinelOrder pc) _ w1 w2 h

theorem validateFold_cache (dial : String → String → Bool) (ping : String → Bool)
    (order : List String) :
    ∀ st : SentinelPodConfig × World,
      cacheAgree dial (order.foldl (validateStep dial ping) st).2 st.2 := by
  induction order with
  | nil => intro st e _; rfl
  | cons s rest ih =>
    intro st e he
    rw [List.foldl_cons, ih _ e he, validateStep_world,
      sentinelAvailable_cache_of_dial_ok _ _ _ _ _ he]

theorem validatePodSentinels_cache (dial : String → String → Bool) (ping : String → Bool)
    (order : List String) (pc : SentinelPodConfig) (w : World) :
    cacheAgree dial (validatePodSentinels dial ping order pc w).2 w := by
  unfold validatePodSentinels
  exact validateFold_cache dial ping order _

theorem appendIssues_cache (v : SentinelPodConfig) (issues : List ConfigIssue) :
    ∀ w : World,
      invalidCache (issues.foldl (fun w issue => appendIssue w issue v) w) = invalidCache w := by
  induction issues with
  | nil => intro w; rfl
  | cons i rest ih => intro w; rw [List.foldl_cons, ih]; rfl

theorem ConfigIssues_nodup (pc : SentinelPodConfig) : (ConfigIssues pc).Nodup := by
  rw [ConfigIssues_eq]
  split <;> split <;> decide

theorem replicate_count_ConfigIssues (pc : SentinelPodConfig) (j : ConfigIssue) :
    List.replicate ((ConfigIssues pc).count j) pc =
      [pc].filter (fun p => decide (j ∈ ConfigIssues p)) := by
  by_cases h : j ∈ ConfigIssues pc
  · rw [List.count_eq_one_of_mem (ConfigIssues_nodup pc) h]
    simp [h]
  · rw [List.count_eq_zero_of_not_mem h]
    simp [h]

theorem podReportStep_spec (dial : String → String → Bool) (ping : String → Bool)
    (sentinelOrder : SentinelPodConfig → List String) (w : World)
    (st : World × Nat) (kv : String × SentinelPodConfig) (hag : cacheAgree dial st.1 w) :
    (podReportStep dial ping sentinelOrder st kv).1.lsconf.ManagedPodConfigs =
        st.1.lsconf.ManagedPodConfigs ∧
      cacheAgree dial (podReportStep dial ping sentinelOrder st kv).1 w ∧
      ∀ issue,
        issuePods (podReportStep dial ping sentinelOrder st kv).1 issue =
          issuePods st.1 issue ++
            [classifiedCopy dial ping sentinelOrder w kv.2].filter
              (fun p => decide (issue ∈ ConfigIssues p)) := by
  have hf := validatePodSentinels_frame dial ping (sentinelOrder kv.2) kv.2 st.1
  have hip : ∀ issue,
      issuePods (validatePodSentinels dial ping (sentinelOrder kv.2) kv.2 st.1).2 issue =
        issuePods st.1 issue := by
    intro issue
    unfold issuePods
    rw [hf.2]
  have hcopy : (validatePodSentinels dial ping (sentinelOrder kv.2) kv.2 st.1).1 =
      classifiedCopy dial ping sentinelOrder w kv.2 :=
    (classifiedCopy_congr dial ping sentinelOrder st.1 w kv.2 hag).1
  have hcache : cacheAgree dial
      (validatePodSentinels dial ping (sentinelOrder kv.2) kv.2 st.1).2 w := by
    intro e he
    rw [validatePodSentinels_cache dial ping _ _ _ e he]
    exact hag e he
  unfold podReportStep
  simp only
  rw [hcopy]
  split
  · refine ⟨?_, ?_, ?_⟩
    · rw [appendIssues_frame]
      exact hf.1
    · intro e he
      rw [appendIssues_cache]
      exact hcache e he
    · intro issue
      rw [appendIssues_issuePods, issuePods_emit, hip, replicate_count_ConfigIssues]
  · rename_i hlen
    refine ⟨hf.1, hcache, fun issue => ?_⟩
    have hnil : ConfigIssues (classifiedCopy dial ping sentinelOrder w kv.2) = [] := by
      cases hc : ConfigIssues (classifiedCopy dial ping sentinelOrder w kv.2) with
      | nil => rfl
      | cons a l => rw [hc] at hlen; simp at hlen
    rw [hip]
    simp [hnil]

theorem podReportFold_spec (dial : String → String → Bool) (ping : String → Bool)
    (sentinelOrder : SentinelPodConfig → List String) (w : World) :
    ∀ (l : List (String × SentinelPodConfig)) (st : World × Nat), cacheAgree dial st.1 w →
      (l.foldl (podReportStep dial ping sentinelOrder) st).1.lsconf.ManagedPodConfigs =
          st.1.lsconf.ManagedPodConfigs ∧
        ∀ issue,
          issuePods (l.foldl (podReportStep dial ping sentinelOrder) st).1 issue =
            issuePods st.1 issue ++
              (l.map (fun kv => classifiedCopy dial ping sentinelOrder w kv.2)).filter
                (fun p => decide (issue ∈ ConfigIssues p)) := by
  intro l
  induction l with
  | nil =>
    intro st _
    exact ⟨rfl, fun issue => by simp⟩
  | cons kv rest ih =>
    intro st hag
    obtain ⟨h1, h2, h3⟩ := podReportStep_spec dial ping sentinelOrder w st kv hag
    obtain ⟨r1, r2⟩ := ih (podReportStep dial ping sentinelOrder st kv) h2
    rw [List.foldl_cons]
    refine ⟨r1.trans h1, fun issue => ?_⟩
    rw [r2 issue, h3 issue, List.map_cons, List.append_assoc, ← List.filter_append]
    rfl

theorem printPods_lsconf (pods : List SentinelPodConfig) :
    ∀ w : World,
      (pods.foldl (fun w pod => emit w (Event.print ("  " ++ pod.Name))) w).lsconf =
        w.lsconf := by
  induction pods with
  | nil => intro w; rfl
  | cons p rest ih => intro w; rw [List.foldl_cons, ih]; rfl

theorem printIssues_lsconf (l : List (ConfigIssue × List SentinelPodConfig)) :
    ∀ w : World, (l.foldl printIssue w).lsconf = w.lsconf := by
  induction l with
  | nil => intro w; rfl
  | cons e rest ih =>
    intro w
    rw [List.foldl_cons, ih]
    unfold printIssue
    simp only
    rw [printPods_lsconf]
    rfl

theorem PodReport_spec (dial : String → String → Bool) (ping : String → Bool)
    (order : List (String × SentinelPodConfig))
    (sentinelOrder : SentinelPodConfig → List String)
    (issueOrder : GoMap ConfigIssue (List SentinelPodConfig) →
      List (ConfigIssue × List SentinelPodConfig))
    (w : World) :
    (PodReport dial ping order sentinelOrder issueOrder w).lsconf.ManagedPodConfigs =
        w.lsconf.ManagedPodConfigs ∧
      ∀ issue,
        issuePods (PodReport dial ping order sentinelOrder issueOrder w) issue =
          issuePods w issue ++
            (order.map (fun kv => classifiedCopy dial ping sentinelOrder w kv.2)).filter
              (fun p => decide (issue ∈ ConfigIssues p)) := by
  have h := podReportFold_spec dial ping sentinelOrder w order
    (emit (emit (emit w (Event.print
      ("map[] of " ++ toString (mapLen w.lsconf.ManagedPodConfigs) ++
        " Pods have configuration issues"))) (Event.print ""))
      (Event.print
        ("Locally Configured Pods: " ++ toString (mapLen w.lsconf.ManagedPodConfigs))), 0)
    (fun _ _ => rfl)
  unfold PodReport
  simp only
  split
  · refine ⟨?_, fun issue => ?_⟩
    · rw [printIssues_lsconf]; exact h.1
    · have ha := h.2 issue
      unfold issuePods at ha ⊢
      rw [printIssues_lsconf]
      exact ha
  · exact h

/-- C24, counterexample: the pod `p` declares the sentinel `10.0.0.2:26379`,
which refuses the connection.  After `PodReport` the entry stored under `p`
still has nil `ConfirmedSentinels` and `InvalidSentinels`, while the copy of
`p` listed in the issue index carries the classification. -/
theorem stored_pod_not_classified :
    mapLookup
        (PodReport (fun _ _ => false) (fun _ => false) oneSentinelWorld.lsconf.ManagedPodConfigs
          (fun pc => mapKeys (pc.Sentinels.getD [])) (fun m => m)
          oneSentinelWorld).lsconf.ManagedPodConfigs "p" =
      some { Name := "p", IP := "10.0.0.9", Port := 6379, Quorum := 1,
             Sentinels := some [("10.0.0.2:26379", "")],
             ConfirmedSentinels := none, InvalidSentinels := none } ∧
    issuePods
        (PodReport (fun _ _ => false) (fun _ => false) oneSentinelWorld.lsconf.ManagedPodConfigs
          (fun pc => mapKeys (pc.Sentinels.getD [])) (fun m => m) oneSentinelWorld)
        ConfigIssue.HASINVALIDSENTINELS =
      [{ Name := "p", IP := "10.0.0.9", Port := 6379, Quorum := 1,
         Sentinels := some [("10.0.0.2:26379", "")],
         ConfirmedSentinels := some [],
         InvalidSentinels := some [("10.0.0.2:26379", "")] }] :=
  ⟨rfl, rfl⟩

/-- C24, amended: `PodReport` audits a copy of each pod.  For every topology
whose stored pods have nil `ConfirmedSentinels` and `InvalidSentinels` (every
topology the parser produces), whatever the visiting orders and the probe
outcomes: `lsconf.ManagedPodConfigs` is the same after `PodReport`, so every
stored pod still has both audit maps nil.  Under each finding kind the issue
index gains exactly the classified copies of the pods that have this finding,
in visiting order, and nothing else; the classified copy of a pod is the pod
with both audit maps made, `ConfirmedSentinels` holding the visited sentinels
that are not in the invalid cache `PodReport` starts with and whose dial
succeeds, and `InvalidSentinels` holding the other visited sentinels.  A pod
without findings leaves no classified copy. -/
theorem PodReport_classifies_copies (dial : String → String → Bool) (ping : String → Bool)
    (order : List (String × SentinelPodConfig))
    (sentinelOrder : SentinelPodConfig → List String)
    (issueOrder : GoMap ConfigIssue (List SentinelPodConfig) →
      List (ConfigIssue × List SentinelPodConfig))
    (w : World) (hperm : order.Perm w.lsconf.ManagedPodConfigs)
    (hnil : ∀ kv ∈ w.lsconf.ManagedPodConfigs,
      kv.2.ConfirmedSentinels = none ∧ kv.2.InvalidSentinels = none) :
    (PodReport dial ping order sentinelOrder issueOrder w).lsconf.ManagedPodConfigs =
        w.lsconf.ManagedPodConfigs ∧
      (∀ kv ∈ (PodReport dial ping order sentinelOrder issueOrder w).lsconf.ManagedPodConfigs,
        kv.2.ConfirmedSentinels = none ∧ kv.2.InvalidSentinels = none) ∧
      (∀ issue,
        issuePods (PodReport dial ping order sentinelOrder issueOrder w) issue =
          issuePods w issue ++
            (order.map (fun kv => classifiedCopy dial ping sentinelOrder w kv.2)).filter
              (fun p => decide (issue ∈ ConfigIssues p))) ∧
      (∀ kv ∈ order, ∃ confirmed invalid : GoMap String String,
        classifiedCopy dial ping sentinelOrder w kv.2 =
          { kv.2 with ConfirmedSentinels := some confirmed, InvalidSentinels := some invalid } ∧
        mapWF confirmed ∧ mapWF invalid ∧
        (∀ e, mapHas confirmed e = true ↔
          (e ∈ sentinelOrder kv.2 ∧ mapHas (invalidCache w) e = false ∧ dial e "" = true)) ∧
        (∀ e, mapHas invalid e = true ↔
          (e ∈ sentinelOrder kv.2 ∧
            (mapHas (invalidCache w) e = true ∨ dial e "" = false)))) := by
  have h := PodReport_spec dial ping order sentinelOrder issueOrder w
  refine ⟨h.1, ?_, h.2, ?_⟩
  · rw [h.1]; exact hnil
  · intro kv hkv
    have hn := hnil kv (hperm.mem_iff.mp hkv)
    obtain ⟨confirmed, invalid, hpc, hwc, hwi, hconf, hinvd, -⟩ :=
      validatePodSentinels_spec dial ping w kv.2 (sentinelOrder kv.2) hn.1 hn.2
    exact ⟨confirmed, invalid, hpc, hwc, hwi, hconf, hinvd⟩

/-- C24, witness: the topology with the one pod `p` as the parser leaves it,
its sentinel refusing the connection; the index gains the classified copy of
`p` under `HASINVALIDSENTINELS`. -/
theorem PodReport_classifies_copies_witness :
    oneSentinelWorld.lsconf.ManagedPodConfigs.Perm oneSentinelWorld.lsconf.ManagedPodConfigs ∧
    (∀ kv ∈ oneSentinelWorld.lsconf.ManagedPodConfigs,
      kv.2.ConfirmedSentinels = none ∧ kv.2.InvalidSentinels = none) ∧
    issuePods
        (PodReport (fun _ _ => false) (fun _ => false) oneSentinelWorld.lsconf.ManagedPodConfigs
          (fun pc => mapKeys (pc.Sentinels.getD [])) (fun m => m) oneSentinelWorld)
        ConfigIssue.HASINVALIDSENTINELS =
      issuePods oneSentinelWorld ConfigIssue.HASINVALIDSENTINELS ++
        (oneSentinelWorld.lsconf.ManagedPodConfigs.map
          (fun kv => classifiedCopy (fun _ _ => false) (fun _ => false)
            (fun pc => mapKeys (pc.Sentinels.getD [])) oneSentinelWorld kv.2)).filter
          (fun p => decide (ConfigIssue.HASINVALIDSENTINELS ∈ ConfigIssues p)) :=
  ⟨List.Perm.refl _, by decide,
    (PodReport_classifies_copies (fun _ _ => false) (fun _ => false)
      oneSentinelWorld.lsconf.ManagedPodConfigs (fun pc => mapKeys (pc.Sentinels.getD []))
      (fun m => m) oneSentinelWorld (List.Perm.refl _) (by decide)).2.2.1
      ConfigIssue.HASINVALIDSENTINELS⟩

/-! ## The parser leaves the audit maps nil -/

theorem mem_mapStore {K V : Type} [DecidableEq K] (m : GoMap K V) (k : K) (v : V)
    (e : K × V) (h : e ∈ mapStore m k v) : e = (k, v) ∨ e ∈ m := by
  induction m with
  | nil => simpa [mapStore] using h
  | cons x rest ih =>
    obtain ⟨k0, v0⟩ := x
    unfold mapStore at h
    by_cases h0 : k0 = k
    · rw [if_pos h0] at h
      rcases List.mem_cons.mp h with h | h
      · exact Or.inl h
      · exact Or.inr (List.mem_cons_of_mem _ h)
    · rw [if_neg h0] at h
      rcases List.mem_cons.mp h with h | h
      · exact Or.inr (by rw [h]; exact List.mem_cons_self _ _)
      · rcases ih h with h | h
        · exact Or.inl h
        · exact Or.inr (List.mem_cons_of_mem _ h)

theorem auditMapsNil_mapGet (w : World) (hw : auditMapsNil w) (k : String) :
    (mapGet w.lsconf.ManagedPodConfigs k).ConfirmedSentinels = none ∧
      (mapGet w.lsconf.ManagedPodConfigs k).InvalidSentinels = none := by
  unfold mapGet
  cases h : mapLookup w.lsconf.ManagedPodConfigs k with
  | none => exact ⟨rfl, rfl⟩
  | some pc => exact hw (k, pc) (mapLookup_mem _ _ _ h)

theorem auditMapsNil_store (w : World) (hw : auditMapsNil w) (k : String)
    (pc : SentinelPodConfig) (m : GoMap String SentinelPodConfig)
    (hm : m = mapStore w.lsconf.ManagedPodConfigs k pc)
    (hc : pc.ConfirmedSentinels = none) (hi : pc.InvalidSentinels = none) :
    ∀ kv ∈ m, kv.2.ConfirmedSentinels = none ∧ kv.2.InvalidSentinels = none := by
  intro kv hkv
  rw [hm] at hkv
  rcases mem_mapStore _ _ _ _ hkv with h | h
  · rw [h]; exact ⟨hc, hi⟩
  · exact hw kv h

theorem extractSentinelDirective_auditMapsNil (w : World) (entries : List String)
    (r : World × Option String) (hw : auditMapsNil w)
    (h : extractSentinelDirective w entries = Except.ok r) : auditMapsNil r.1 := by
  have hget := auditMapsNil_mapGet w hw
  unfold extractSentinelDirective at h
  simp only [bind, Except.bind, pure, Except.pure, index, throw, throwThe,
    MonadExceptOf.throw] at h
  repeat' split at h
  all_goals (cases h; try exact hw)
  all_goals
    first
    | exact auditMapsNil_store w hw _ _ _ rfl rfl rfl
    | exact auditMapsNil_store w hw _ _ _ rfl (hget _).1 (hget _).2

theorem loadLine_auditMapsNil (w : World) (rawline : String) (atEOF : Bool)
    (r : World × Bool) (hw : auditMapsNil w)
    (h : loadLine w rawline atEOF = Except.ok r) : auditMapsNil r.1 := by
  unfold loadLine at h
  simp only [bind, Except.bind, pure, Except.pure, index] at h
  repeat' split at h
  all_goals (cases h; try exact hw)
  all_goals
    first
    | exact extractSentinelDirective_auditMapsNil _ _ _ hw (by assumption)

theorem loadLines_auditMapsNil (lines : List String) :
    ∀ (w w' : World), auditMapsNil w → loadLines w lines = Except.ok w' → auditMapsNil w' := by
  induction lines with
  | nil =>
    intro w w' hw h
    cases h
    exact hw
  | cons l rest ih =>
    intro w w' hw h
    unfold loadLines at h
    cases hl : loadLine w l false with
    | error e => rw [hl] at h; cases h
    | ok r =>
      rw [hl] at h
      exact ih r.1 w' (loadLine_auditMapsNil w l false r hw hl) h

/-! ## The two copies of the parser -/

theorem mapLookup_mapValuesWith {K V V2 : Type} [DecidableEq K] (f : V → V2) (m : GoMap K V)
    (k : K) : mapLookup (mapValuesWith f m) k = (mapLookup m k).map f := by
  induction m with
  | nil => rfl
  | cons e rest ih =>
    obtain ⟨k0, v0⟩ := e
    by_cases h : k0 = k
    · simp [mapValuesWith, mapLookup, h]
    · have ih2 : mapLookup (List.map (fun e => (e.1, f e.2)) rest) k =
          (mapLookup rest k).map f := ih
      simp [mapValuesWith, mapLookup, h, ih2]

theorem mapHas_mapValuesWith {K V V2 : Type} [DecidableEq K] (f : V → V2) (m : GoMap K V)
    (k : K) : mapHas (mapValuesWith f m) k = mapHas m k := by
  unfold mapHas
  rw [mapLookup_mapValuesWith]
  cases mapLookup m k <;> rfl

theorem mapGet_mapValuesWith {K V V2 : Type} [DecidableEq K] [Inhabited V] [Inhabited V2]
    (f : V → V2) (hf : f default = default) (m : GoMap K V) (k : K) :
    mapGet (mapValuesWith f m) k = f (mapGet m k) := by
  unfold mapGet
  rw [mapLookup_mapValuesWith]
  cases mapLookup m k with
  | none => exact hf.symm
  | some v => rfl

theorem mapStore_mapValuesWith {K V V2 : Type} [DecidableEq K] (f : V → V2) (m : GoMap K V)
    (k : K) (v : V) :
    mapStore (mapValuesWith f m) k (f v) = mapValuesWith f (mapStore m k v) := by
  induction m with
  | nil => rfl
  | cons e rest ih =>
    obtain ⟨k0, v0⟩ := e
    have ih2 : mapStore (List.map (fun e => (e.1, f e.2)) rest) k (f v) =
        List.map (fun e => (e.1, f e.2)) (mapStore rest k v) := ih
    by_cases h : k0 = k
    · simp [mapValuesWith, mapStore, h]
    · simp [mapValuesWith, mapStore, h, ih2]

theorem mapStore_eq_self {K V : Type} [DecidableEq K] (m : GoMap K V) (k : K) (v : V)
    (h : mapLookup m k = some v) : mapStore m k v = m := by
  induction m with
  | nil => simp [mapLookup] at h
  | cons e rest ih =>
    obtain ⟨k0, v0⟩ := e
    by_cases h0 : k0 = k
    · simp [mapLookup, h0] at h
      simp [mapStore, h0, h]
    · simp [mapLookup, h0] at h
      simp [mapStore, h0, ih h]

theorem forgetPod_default : forgetPod default = default := rfl

theorem forgetWorld_store (w : World) (k : String) (pc : SentinelPodConfig) :
    forgetWorld { w with lsconf := { w.lsconf with
        ManagedPodConfigs := mapStore w.lsconf.ManagedPodConfigs k pc } } =
      { forgetWorld w with lsconf := { (forgetWorld w).lsconf with
        ManagedPodConfigs := mapStore (forgetWorld w).lsconf.ManagedPodConfigs k (forgetPod pc) } } := by
  simp [forgetWorld, mapStore_mapValuesWith]

theorem forget_mapGet (w : World) (k : String) :
    mapGet (forgetWorld w).lsconf.ManagedPodConfigs k =
      forgetPod (mapGet w.lsconf.ManagedPodConfigs k) :=
  mapGet_mapValuesWith forgetPod forgetPod_default _ _

theorem forget_mapHas (w : World) (k : String) :
    mapHas (forgetWorld w).lsconf.ManagedPodConfigs k = mapHas w.lsconf.ManagedPodConfigs k :=
  mapHas_mapValuesWith forgetPod _ _

theorem forgetWorld_known_slave (w : World) (k : String) (pc pc2 : SentinelPodConfig)
    (hl : mapLookup w.lsconf.ManagedPodConfigs k = some pc) (hf : forgetPod pc2 = forgetPod pc) :
    forgetWorld { w with lsconf := { w.lsconf with
        ManagedPodConfigs := mapStore w.lsconf.ManagedPodConfigs k pc2 } } = forgetWorld w := by
  rw [forgetWorld_store, hf]
  have hl2 : mapLookup (forgetWorld w).lsconf.ManagedPodConfigs k = some (forgetPod pc) := by
    show mapLookup (mapValuesWith forgetPod w.lsconf.ManagedPodConfigs) k = _
    rw [mapLookup_mapValuesWith, hl]
    rfl
  rw [mapStore_eq_self _ _ _ hl2]

theorem extract_simulation (w : World) (entries : List String)
    (h : knownSlaveResolved w entries) :
    Commands.extractSentinelDirective (forgetWorld w) entries =
      (extractSentinelDirective w entries).map (fun r => (forgetWorld r.1, r.2)) := by
  rcases entries with _ | ⟨e0, rest⟩
  · rfl
  · by_cases h1 : e0 = "monitor"
    · subst h1
      rcases rest with _ | ⟨a, _ | ⟨b, _ | ⟨c, _ | ⟨d, rest⟩⟩⟩⟩
      · rfl
      · rfl
      · rfl
      · rfl
      · simp only [extractSentinelDirective, Commands.extractSentinelDirective, index, bind,
          Except.bind, pure, Except.pure, Except.map, List.getElem?_cons_zero,
          List.getElem?_cons_succ, if_true, forget_mapHas]
        cases mapHas w.lsconf.ManagedPodConfigs (sprintfAddr b (Atoi c).1)
        · simp only [Bool.not_false, if_true, Except.map]
          rw [forgetWorld_store]
          rfl
        · rfl
    · by_cases h2 : e0 = "auth-pass"
      · subst h2
        rcases rest with _ | ⟨a, _ | ⟨b, rest⟩⟩
        · rfl
        · rfl
        · simp only [extractSentinelDirective, Commands.extractSentinelDirective, index, bind,
            Except.bind, pure, Except.pure, Except.map, List.getElem?_cons_zero,
            List.getElem?_cons_succ, forget_mapGet]
          simp only [show ("auth-pass" = "monitor") = False from by decide, if_false, if_true,
            Except.map]
          rw [forgetWorld_store]
          rfl
      · by_cases h3 : e0 = "known-sentinel"
        · subst h3
          rcases rest with _ | ⟨a, _ | ⟨b, _ | ⟨c, rest⟩⟩⟩
          · rfl
          · rfl
          · rfl
          · simp only [extractSentinelDirective, Commands.extractSentinelDirective, index, bind,
              Except.bind, pure, Except.pure, Except.map, List.getElem?_cons_zero,
              List.getElem?_cons_succ, forget_mapGet]
            simp only [show ("known-sentinel" = "monitor") = False from by decide,
              show ("known-sentinel" = "auth-pass") = False from by decide, if_false, if_true]
            have e : (forgetPod (mapGet w.lsconf.ManagedPodConfigs a)).Sentinels =
                (mapGet w.lsconf.ManagedPodConfigs a).Sentinels := rfl
            cases hs : (mapGet w.lsconf.ManagedPodConfigs a).Sentinels with
            | none =>
              rw [hs] at e
              simp only [e, hs]
              rfl
            | some sm =>
              rw [hs] at e
              simp only [e, hs]
              have key : ∀ ks : GoMap String String,
                  forgetWorld { w with lsconf := { w.lsconf with
                    ManagedPodConfigs := mapStore w.lsconf.ManagedPodConfigs a
                      { mapGet w.lsconf.ManagedPodConfigs a with
                        Sentinels := some (mapStore sm (b ++ ":" ++ c) "") },
                    KnownSentinels := ks } } =
                  { lsconf := { (forgetWorld w).lsconf with
                      ManagedPodConfigs := mapStore (forgetWorld w).lsconf.ManagedPodConfigs a
                        { forgetPod (mapGet w.lsconf.ManagedPodConfigs a) with
                          Sentinels := some (mapStore sm (b ++ ":" ++ c) "") },
                      KnownSentinels := ks },
                    trace := w.trace } := by
                intro ks
                simp [forgetWorld, ← mapStore_mapValuesWith, forgetPod]
              have hn : (forgetWorld w).lsconf.Name = w.lsconf.Name := rfl
              rw [hn]
              by_cases hme : b ++ ":" ++ c = w.lsconf.Name
              · have hd : (!decide (b ++ ":" ++ c = w.lsconf.Name)) = false := by simp [hme]
                rw [hd]
                simp only [Bool.false_eq_true, if_false]
                exact congrArg (fun x => Except.ok (x, none)) (key _).symm
              · have hd : (!decide (b ++ ":" ++ c = w.lsconf.Name)) = true := by simp [hme]
                rw [hd]
                simp only [if_true]
                exact congrArg (fun x => Except.ok (x, none)) (key _).symm
        · by_cases h4 : e0 = "known-slave"
          · subst h4
            obtain ⟨hlen, hhas⟩ := h rfl
            rcases rest with _ | ⟨a, _ | ⟨b, _ | ⟨c, rest⟩⟩⟩
            · simp at hlen
            · simp at hlen
            · simp at hlen
            · simp only [extractSentinelDirective, Commands.extractSentinelDirective, index, bind,
                Except.bind, pure, Except.pure, Except.map, List.getElem?_cons_zero,
                List.getElem?_cons_succ]
              simp only [show ("known-slave" = "monitor") = False from by decide,
                show ("known-slave" = "auth-pass") = False from by decide,
                show ("known-slave" = "known-sentinel") = False from by decide,
                if_false, if_true]
              have hhas2 : mapHas w.lsconf.ManagedPodConfigs a = true := hhas
              cases hl : mapLookup w.lsconf.ManagedPodConfigs a with
              | none => rw [mapHas, hl] at hhas2; exact absurd hhas2 (by simp)
              | some pc =>
                have hg : mapGet w.lsconf.ManagedPodConfigs a = pc := by
                  unfold mapGet; rw [hl]; rfl
                rw [hg]
                exact congrArg (fun x => Except.ok (x, none))
                  (forgetWorld_known_slave w a pc
                    { pc with Slaves := pc.Slaves ++ [b ++ ":" ++ c] } hl rfl).symm
          · rcases rest with _ | ⟨a, rest⟩ <;>
              simp only [extractSentinelDirective, Commands.extractSentinelDirective, index, bind,
                Except.bind, pure, Except.pure, Except.map, List.getElem?_cons_zero,
                h1, h2, h3, h4, if_false] <;>
              split <;> rfl

theorem runDirectives_simulation (ds : List (List String)) :
    ∀ w : World, knownSlavesResolved w ds →
      Commands.runDirectives (forgetWorld w) ds = (runDirectives w ds).map forgetWorld := by
  induction ds with
  | nil => intro w _; rfl
  | cons d rest ih =>
    intro w h
    unfold knownSlavesResolved at h
    obtain ⟨hd, hrest⟩ := h
    unfold runDirectives Commands.runDirectives
    rw [extract_simulation w d hd]
    cases hr : extractSentinelDirective w d with
    | error e => rfl
    | ok r =>
      rw [hr] at hrest
      exact ih r.1 hrest

theorem known_slave_unknown_pod (w : World) (p ip port : String)
    (h : mapHas w.lsconf.ManagedPodConfigs p = false) :
    extractSentinelDirective w ["known-slave", p, ip, port] =
        Except.ok ({ w with lsconf := { w.lsconf with
          ManagedPodConfigs :=
            w.lsconf.ManagedPodConfigs ++ [(p, { Slaves := [ip ++ ":" ++ port] })] } }, none) ∧
      Commands.extractSentinelDirective (forgetWorld w) ["known-slave", p, ip, port] =
        Except.ok (forgetWorld w, none) := by
  have hl : mapLookup w.lsconf.ManagedPodConfigs p = none := by
    cases hl : mapLookup w.lsconf.ManagedPodConfigs p with
    | none => rfl
    | some pc => rw [mapHas, hl] at h; exact absurd h (by simp)
  have hg : mapGet w.lsconf.ManagedPodConfigs p = {} := by
    unfold mapGet; rw [hl]; rfl
  refine ⟨?_, rfl⟩
  rw [extractSentinelDirective_known_slave, hg, mapStore_of_absent _ _ _ hl]
  rfl

/-- C25, counterexample: the directive `known-slave` without arguments makes
`extractSentinelDirective` of `src/main.go` panic on `entries[1]`, while the
copy in `src/commands/common.go` returns nil and leaves the topology as it is.
And after `known-slave 10.0.0.1:6379 10.0.0.5 6379` the directive
`monitor p 10.0.0.1 6379 2` adds the pod `p` in `src/commands/common.go` only:
in `src/main.go` the entry that `known-slave` created under the key
`10.0.0.1:6379` makes the `monitor` guard drop the pod. -/
theorem known_slave_splits_the_copies :
    extractSentinelDirective {} ["known-slave"] = Except.error Panic.indexOutOfRange ∧
    Commands.extractSentinelDirective (forgetWorld {}) ["known-slave"] =
      Except.ok (forgetWorld {}, none) ∧
    (∃ w : World,
      runDirectives {} [["known-slave", "10.0.0.1:6379", "10.0.0.5", "6379"],
          ["monitor", "p", "10.0.0.1", "6379", "2"]] = Except.ok w ∧
      mapHas w.lsconf.ManagedPodConfigs "p" = false) ∧
    (∃ w : Commands.World,
      Commands.runDirectives (forgetWorld {})
          [["known-slave", "10.0.0.1:6379", "10.0.0.5", "6379"],
           ["monitor", "p", "10.0.0.1", "6379", "2"]] = Except.ok w ∧
      mapHas w.lsconf.ManagedPodConfigs "p" = true) :=
  ⟨rfl, rfl, ⟨_, rfl, rfl⟩, ⟨_, rfl, rfl⟩⟩

/-- C25, amended: the two copies of the parser agree up to replica tracking
on every sequence of sentinel directives in which each `known-slave` directive
has its three arguments and names a pod that is already held when it is read.
Started from a topology of `src/main.go` and from the same topology without
the `Slaves` fields, the two copies both panic or both finish, and the topology
of `src/commands/common.go` is the one of `src/main.go` without the `Slaves`
fields: same pods, master IP, port, quorum, auth tokens, declared sentinels,
known-sentinel registry, local identity and log.  Each single such directive
returns the same error value in both copies.  A `known-slave` directive with
three arguments that names an unknown pod returns nil in both copies; in
`src/main.go` it adds an entry holding only that replica and in
`src/commands/common.go` it changes nothing.  `ConfigIssues` gives the same
findings in both copies. -/
theorem parser_copies_agree_up_to_slaves (w : World) (ds : List (List String))
    (h : knownSlavesResolved w ds) :
    Commands.runDirectives (forgetWorld w) ds = (runDirectives w ds).map forgetWorld ∧
    (∀ (w1 : World) (d : List String), knownSlaveResolved w1 d →
      Commands.extractSentinelDirective (forgetWorld w1) d =
        (extractSentinelDirective w1 d).map (fun r => (forgetWorld r.1, r.2))) ∧
    (∀ (w1 : World) (p ip port : String), mapHas w1.lsconf.ManagedPodConfigs p = false →
      extractSentinelDirective w1 ["known-slave", p, ip, port] =
          Except.ok ({ w1 with lsconf := { w1.lsconf with
            ManagedPodConfigs :=
              w1.lsconf.ManagedPodConfigs ++ [(p, { Slaves := [ip ++ ":" ++ port] })] } },
            none) ∧
        Commands.extractSentinelDirective (forgetWorld w1) ["known-slave", p, ip, port] =
          Except.ok (forgetWorld w1, none)) ∧
    (∀ pc : SentinelPodConfig, Commands.ConfigIssues (forgetPod pc) = ConfigIssues pc) :=
  ⟨runDirectives_simulation ds w h, extract_simulation, known_slave_unknown_pod,
    fun _ => rfl⟩

/-- C25, witness: a pod declared by `monitor` and then given a replica. -/
theorem parser_copies_agree_up_to_slaves_witness :
    knownSlavesResolved {}
      [["monitor", "p", "10.0.0.9", "6379", "2"], ["known-slave", "p", "10.0.0.5", "6379"]] ∧
    Commands.runDirectives (forgetWorld {})
        [["monitor", "p", "10.0.0.9", "6379", "2"], ["known-slave", "p", "10.0.0.5", "6379"]] =
      (runDirectives {}
        [["monitor", "p", "10.0.0.9", "6379", "2"],
         ["known-slave", "p", "10.0.0.5", "6379"]]).map forgetWorld :=
  have hres : knownSlavesResolved {}
      [["monitor", "p", "10.0.0.9", "6379", "2"], ["known-slave", "p", "10.0.0.5", "6379"]] :=
    ⟨fun hk => absurd hk (by decide), fun _ => ⟨by decide, rfl⟩, trivial⟩
  ⟨hres, (parser_copies_agree_up_to_slaves {} _ hres).1⟩

/-! ## End to end: configurations that parse -/

theorem extractSentinelDirective_frame (w : World) (entries : List String)
    (r : World × Option String) (h : extractSentinelDirective w entries = Except.ok r) :
    r.2 = none ∧ r.1.lsconf.InvalidSentinels = w.lsconf.InvalidSentinels ∧
      r.1.lsconf.ConfigIssueMapping = w.lsconf.ConfigIssueMapping := by
  unfold extractSentinelDirective at h
  simp only [bind, Except.bind, pure, Except.pure, index, throw, throwThe,
    MonadExceptOf.throw] at h
  repeat' split at h
  all_goals (cases h <;> exact ⟨rfl, rfl, rfl⟩)

theorem loadLine_InvalidSentinels (w : World) (rawline : String) (atEOF : Bool)
    (r : World × Bool) (h : loadLine w rawline atEOF = Except.ok r) :
    r.1.lsconf.InvalidSentinels = w.lsconf.InvalidSentinels ∧
      r.1.lsconf.ConfigIssueMapping = w.lsconf.ConfigIssueMapping := by
  unfold loadLine at h
  simp only [bind, Except.bind, pure, Except.pure, index] at h
  repeat' split at h
  all_goals (cases h; try exact ⟨rfl, rfl⟩)
  all_goals
    first
    | exact (extractSentinelDirective_frame _ _ _ (by assumption)).2

theorem loadLines_InvalidSentinels (lines : List String) :
    ∀ (w w' : World), loadLines w lines = Except.ok w' →
      w'.lsconf.InvalidSentinels = w.lsconf.InvalidSentinels ∧
        w'.lsconf.ConfigIssueMapping = w.lsconf.ConfigIssueMapping := by
  induction lines with
  | nil =>
    intro w w' h
    cases h
    exact ⟨rfl, rfl⟩
  | cons l rest ih =>
    intro w w' h
    unfold loadLines at h
    cases hl : loadLine w l false with
    | error e => rw [hl] at h; cases h
    | ok r =>
      rw [hl] at h
      have h1 := ih r.1 w' h
      have h2 := loadLine_InvalidSentinels w l false r hl
      exact ⟨h1.1.trans h2.1, h1.2.trans h2.2⟩

theorem loadLine_sentinel (w : World) (rawline : String) (d : List String)
    (r : World × Option String) (hl : lineEntries rawline = some ("sentinel" :: d))
    (hr : extractSentinelDirective w d = Except.ok r) :
    loadLine w rawline false = Except.ok (r.1, false) := by
  have herr := (extractSentinelDirective_frame w d r hr).1
  unfold lineEntries at hl
  by_cases hc : Contains (TrimSpace rawline) '#' = true
  · rw [if_pos hc] at hl; cases hl
  · rw [if_neg hc] at hl
    have hs : Split (TrimSpace rawline) ' ' = "sentinel" :: d := Option.some.inj hl
    unfold loadLine
    simp only [hc, hs, Bool.false_eq_true, if_false, index, List.getElem?_cons_zero, bind,
      Except.bind, if_true, List.drop_succ_cons, List.drop_zero, hr, herr, pure, Except.pure]

theorem loadLines_of_runDirectives (ds : List (List String)) :
    ∀ (lines : List String) (w0 w : World),
      lines.map lineEntries = ds.map (fun d => some ("sentinel" :: d)) →
      runDirectives w0 ds = Except.ok w → loadLines w0 lines = Except.ok w := by
  induction ds with
  | nil =>
    intro lines w0 w hl hrun
    have : lines = [] := by simpa using hl
    rw [this]
    exact hrun
  | cons d rest ih =>
    intro lines w0 w hl hrun
    rcases lines with _ | ⟨l, ls⟩
    · simp at hl
    · simp only [List.map_cons, List.cons.injEq] at hl
      obtain ⟨r, hr, hrest⟩ := runDirectives_cons_ok _ _ _ _ hrun
      unfold loadLines
      rw [loadLine_sentinel w0 l d r hl.1 hr]
      exact ih ls r.1 w hl.2 hrest

/-- The audit of a pod with quorum 2 and nil audit maps, on a world whose
invalid cache is nil, when its declared sentinels are two distinct endpoints
whose dials succeed: no finding. -/
theorem pod_two_reachable_no_findings (dial : String → String → Bool) (ping : String → Bool)
    (w : World) (pc : SentinelPodConfig) (e1 e2 : String) (order : List String)
    (hc : pc.ConfirmedSentinels = none) (hi : pc.InvalidSentinels = none)
    (hcache : w.lsconf.InvalidSentinels = none) (hq : pc.Quorum = 2)
    (hkeys : ∀ e, mapHas (pc.Sentinels.getD []) e = true ↔ e ∈ [e1, e2])
    (hperm : order.Perm (mapKeys (pc.Sentinels.getD [])))
    (hne : e1 ≠ e2) (hd1 : dial e1 "" = true) (hd2 : dial e2 "" = true) :
    ConfigIssues (validatePodSentinels dial ping order pc w).1 = [] := by
  obtain ⟨confirmed, invalid, hpc, hwc, hwi, hconf, hinvd⟩ :=
    validatePodSentinels_fresh dial ping w pc (pc.Sentinels.getD []) _ order hc hi hcache
      hkeys hperm
  have hlc : confirmed.length = 2 := by
    have := mapLen_eq_of_keys confirmed [e1, e2] hwc (by simp [hne]) (by
      intro e
      rw [hconf e]
      simp only [List.mem_cons, List.mem_singleton, List.not_mem_nil, or_false]
      constructor
      · rintro ⟨h, -⟩; exact h
      · rintro (h | h)
        · exact ⟨Or.inl h, by rw [h]; exact hd1⟩
        · exact ⟨Or.inr h, by rw [h]; exact hd2⟩)
    simpa using this
  have hli : invalid.length = 0 := by
    have := mapLen_eq_of_keys invalid [] hwi (by simp) (by
      intro e
      rw [hinvd e]
      simp only [List.mem_cons, List.mem_singleton, List.not_mem_nil, or_false, iff_false,
        not_and]
      rintro (h | h)
      · rw [h, hd1]; simp
      · rw [h, hd2]; simp)
    simpa using this
  rw [ConfigIssues_eq, hpc]
  simp [lenMap, hlc, hli, hq]

/-- The audit of a pod with quorum 2 and nil audit maps, on a world whose
invalid cache is nil, when exactly one of its declared sentinels, `e0`, has a
dial that succeeds. -/
theorem pod_one_reachable_findings (dial : String → String → Bool) (ping : String → Bool)
    (w : World) (pc : SentinelPodConfig) (es : List String) (e0 : String)
    (order : List String)
    (hc : pc.ConfirmedSentinels = none) (hi : pc.InvalidSentinels = none)
    (hcache : w.lsconf.InvalidSentinels = none) (hq : pc.Quorum = 2)
    (hkeys : ∀ e, mapHas (pc.Sentinels.getD []) e = true ↔ e ∈ es)
    (hperm : order.Perm (mapKeys (pc.Sentinels.getD [])))
    (hmem : e0 ∈ es) (hdial : dial e0 "" = true)
    (huniq : ∀ e ∈ es, dial e "" = true → e = e0) :
    ConfigIssue.NOQUORUM ∈ ConfigIssues (validatePodSentinels dial ping order pc w).1 ∧
    ConfigIssue.NOTENOUGHSENTINELS ∈
      ConfigIssues (validatePodSentinels dial ping order pc w).1 ∧
    (ConfigIssue.HASINVALIDSENTINELS ∈
        ConfigIssues (validatePodSentinels dial ping order pc w).1 ↔
      ∃ e ∈ es, dial e "" = false) ∧
    ((∀ e ∈ es, e = e0) →
      ConfigIssue.HASINVALIDSENTINELS ∉
        ConfigIssues (validatePodSentinels dial ping order pc w).1) := by
  obtain ⟨confirmed, invalid, hpc, hwc, hwi, hconf, hinvd⟩ :=
    validatePodSentinels_fresh dial ping w pc (pc.Sentinels.getD []) _ order hc hi hcache
      hkeys hperm
  have hlc : confirmed.length = 1 := by
    have := mapLen_eq_of_keys confirmed [e0] hwc (by simp) (by
      intro e
      rw [hconf e, List.mem_singleton]
      constructor
      · rintro ⟨h1, h2⟩; exact huniq e h1 h2
      · intro h; rw [h]; exact ⟨hmem, hdial⟩)
    simpa using this
  have hhas : ConfigIssue.HASINVALIDSENTINELS ∈
      ConfigIssues (validatePodSentinels dial ping order pc w).1 ↔
      ∃ e ∈ es, dial e "" = false := by
    rw [ConfigIssues_eq, hpc]
    simp only [lenMap, hlc]
    rw [List.mem_append]
    have hli := mapLen_pos_iff invalid
    by_cases hpos : 0 < invalid.length
    · rw [if_pos hpos]
      obtain ⟨e, he⟩ := hli.mp hpos
      have := (hinvd e).mp he
      simp only [List.mem_singleton, true_or, true_iff]
      exact ⟨e, this.1, this.2⟩
    · rw [if_neg hpos]
      simp only [List.not_mem_nil, false_or]
      constructor
      · intro h; simp [hq] at h
      · rintro ⟨e, h1, h2⟩
        exact absurd (hli.mpr ⟨e, (hinvd e).mpr ⟨h1, h2⟩⟩) hpos
  refine ⟨?_, ?_, hhas, ?_⟩
  · rw [ConfigIssues_eq, hpc]
    simp [lenMap, hlc, hq]
  · rw [ConfigIssues_eq, hpc]
    simp [lenMap, hlc, hq]
  · intro honly
    rw [hhas]
    rintro ⟨e, h1, h2⟩
    rw [honly e h1, hdial] at h2
    exact absurd h2 (by simp)

/-- What parsing leaves behind, from a topology without pods and a nil invalid
cache: every stored pod has nil audit maps and the invalid cache is still nil. -/
theorem loadLines_fresh (lines : List String) (w0 w : World)
    (h0 : w0.lsconf.ManagedPodConfigs = []) (hcache : w0.lsconf.InvalidSentinels = none)
    (hrun : loadLines w0 lines = Except.ok w) :
    auditMapsNil w ∧ w.lsconf.InvalidSentinels = none := by
  refine ⟨loadLines_auditMapsNil lines w0 w ?_ hrun,
    (loadLines_InvalidSentinels lines w0 w hrun).1.trans hcache⟩
  intro kv hkv
  rw [h0] at hkv
  cases hkv

/-- The duplicate passes on a topology with a single pod that has no replicas
leave the issue index as it is. -/
theorem single_pod_no_duplicates (dial : String → String → Bool) (w : World) (k : String)
    (pc : SentinelPodConfig) (hm : w.lsconf.ManagedPodConfigs = [(k, pc)])
    (hs : pc.Slaves = []) :
    (FindDupeSlaveIPs (mapValues w.lsconf.ManagedPodConfigs)
        (FindDupeMasterIPs dial (mapValues w.lsconf.ManagedPodConfigs)
          w)).lsconf.ConfigIssueMapping = w.lsconf.ConfigIssueMapping := by
  rw [hm]
  simp [FindDupeMasterIPs, FindDupeSlaveIPs, dupeMasterStep, mapLookup, emit, mapValues, hs]

/-- C19, counterexample: one `monitor` line with quorum 2 and two
`known-sentinel` lines for that pod naming two distinct endpoints, the first
`known-sentinel` line standing before the `monitor` line.  The pod has no entry
yet when that line is read, `pc.Sentinels` is nil, and parsing ends in the
panic `assignment to entry in nil map`: nothing is audited. -/
theorem known_sentinel_before_monitor_fails :
    loadLines {}
        ["sentinel known-sentinel p 10.0.0.1 26379\n", "sentinel monitor p 10.0.0.9 6379 2\n",
         "sentinel known-sentinel p 10.0.0.2 26379\n"] =
      Except.error Panic.assignmentToEntryInNilMap ∧
    runDirectives {}
        [["known-sentinel", "p", "10.0.0.1", "26379"], ["monitor", "p", "10.0.0.9", "6379", "2"],
         ["known-sentinel", "p", "10.0.0.2", "26379"]] =
      Except.error Panic.assignmentToEntryInNilMap :=
  ⟨rfl, rfl⟩

/-- C19, amended: from a topology without pods and a nil invalid cache.
First, for every configuration made of `monitor <pname> <ip> <port> 2`
followed by two `known-sentinel` directives for that pod naming two distinct
endpoints whose dials both succeed: parsing succeeds, also as lines of the
file that read as `sentinel` followed by these directives, and leaves exactly
that pod, without replicas; `validatePodSentinels` followed by `ConfigIssues`
yields no finding for it, whatever the order in which the sentinels are
visited; and `FindDupeMasterIPs` followed by `FindDupeSlaveIPs` leaves the
issue index as it was before parsing.  Second, for every sequence of
configuration lines that is parsed without failure and every pod it leaves
with quorum 2 whose declared sentinels are these two endpoints:
`validatePodSentinels` followed by `ConfigIssues` yields no finding, and if
that pod is the only one and has no replicas the two duplicate passes leave
the issue index as it was before parsing. -/
theorem two_reachable_sentinels_no_findings (dial : String → String → Bool)
    (ping : String → Bool) (w0 : World) (pname ip port i1 p1 i2 p2 : String)
    (h0 : w0.lsconf.ManagedPodConfigs = []) (hcache : w0.lsconf.InvalidSentinels = none)
    (hne : endpoint (i1, p1) ≠ endpoint (i2, p2))
    (hd1 : dial (endpoint (i1, p1)) "" = true) (hd2 : dial (endpoint (i2, p2)) "" = true) :
    (∃ (w : World) (pc : SentinelPodConfig),
      runDirectives w0 (onePodDirectives pname ip port [(i1, p1), (i2, p2)]) = Except.ok w ∧
      (∀ lines : List String,
        lines.map lineEntries =
          (onePodDirectives pname ip port [(i1, p1), (i2, p2)]).map
            (fun d => some ("sentinel" :: d)) →
        loadLines w0 lines = Except.ok w) ∧
      w.lsconf.ManagedPodConfigs = [(pname, pc)] ∧ pc.Slaves = [] ∧
      (∀ order : List String, order.Perm (mapKeys (pc.Sentinels.getD [])) →
        ConfigIssues (validatePodSentinels dial ping order pc w).1 = []) ∧
      (FindDupeSlaveIPs (mapValues w.lsconf.ManagedPodConfigs)
          (FindDupeMasterIPs dial (mapValues w.lsconf.ManagedPodConfigs)
            w)).lsconf.ConfigIssueMapping = w0.lsconf.ConfigIssueMapping) ∧
    (∀ (lines2 : List String) (w : World) (k : String) (pc : SentinelPodConfig),
      loadLines w0 lines2 = Except.ok w →
      mapLookup w.lsconf.ManagedPodConfigs k = some pc → pc.Quorum = 2 →
      (∀ e, mapHas (pc.Sentinels.getD []) e = true ↔
        e ∈ [endpoint (i1, p1), endpoint (i2, p2)]) →
      (∀ order : List String, order.Perm (mapKeys (pc.Sentinels.getD [])) →
        ConfigIssues (validatePodSentinels dial ping order pc w).1 = []) ∧
      (w.lsconf.ManagedPodConfigs = [(k, pc)] → pc.Slaves = [] →
        (FindDupeSlaveIPs (mapValues w.lsconf.ManagedPodConfigs)
            (FindDupeMasterIPs dial (mapValues w.lsconf.ManagedPodConfigs)
              w)).lsconf.ConfigIssueMapping = w0.lsconf.ConfigIssueMapping)) := by
  refine ⟨?_, ?_⟩
  · obtain ⟨w, sm, hrun, hmpc, -, hkeys, hIS, hCIM, -⟩ :=
      runDirectives_onePod w0 pname ip port [(i1, p1), (i2, p2)] h0
    refine ⟨w, _, hrun,
      fun lines hlines => loadLines_of_runDirectives _ lines w0 w hlines hrun, hmpc, rfl,
      fun order hperm => ?_, ?_⟩
    · exact pod_two_reachable_no_findings dial ping w _ _ _ order rfl rfl (hIS.trans hcache) rfl
        (fun e => by
          show mapHas sm e = true ↔ _
          rw [hkeys e]
          simp) hperm hne hd1 hd2
    · rw [single_pod_no_duplicates dial w pname _ hmpc rfl]
      exact hCIM
  · intro lines2 w k pc hrun hlook hq hkeys
    obtain ⟨hnil, hc⟩ := loadLines_fresh lines2 w0 w h0 hcache hrun
    have hpcnil := hnil (k, pc) (mapLookup_mem _ _ _ hlook)
    refine ⟨fun order hperm =>
      pod_two_reachable_no_findings dial ping w pc _ _ order hpcnil.1 hpcnil.2 hc hq hkeys hperm
        hne hd1 hd2, fun hm hs => ?_⟩
    rw [single_pod_no_duplicates dial w k pc hm hs]
    exact (loadLines_InvalidSentinels lines2 w0 w hrun).2

/-- C19, witness: pod `p`, sentinels `10.0.0.1:26379` and `10.0.0.2:26379`, every
dial succeeding, on the initial world. -/
theorem two_reachable_sentinels_no_findings_witness :
    ({} : World).lsconf.ManagedPodConfigs = [] ∧
    ({} : World).lsconf.InvalidSentinels = none ∧
    endpoint ("10.0.0.1", "26379") ≠ endpoint ("10.0.0.2", "26379") ∧
    ["sentinel monitor p 10.0.0.9 6379 2\n", "sentinel known-sentinel p 10.0.0.1 26379\n",
        "sentinel known-sentinel p 10.0.0.2 26379\n"].map lineEntries =
      (onePodDirectives "p" "10.0.0.9" "6379"
        [("10.0.0.1", "26379"), ("10.0.0.2", "26379")]).map (fun d => some ("sentinel" :: d)) ∧
    ∃ (w : World) (pc : SentinelPodConfig),
      runDirectives {}
        (onePodDirectives "p" "10.0.0.9" "6379"
          [("10.0.0.1", "26379"), ("10.0.0.2", "26379")]) = Except.ok w ∧
      (∀ lines : List String,
        lines.map lineEntries =
          (onePodDirectives "p" "10.0.0.9" "6379"
            [("10.0.0.1", "26379"), ("10.0.0.2", "26379")]).map
            (fun d => some ("sentinel" :: d)) →
        loadLines {} lines = Except.ok w) ∧
      w.lsconf.ManagedPodConfigs = [("p", pc)] ∧ pc.Slaves = [] ∧
      (∀ order : List String, order.Perm (mapKeys (pc.Sentinels.getD [])) →
        ConfigIssues (validatePodSentinels (fun _ _ => true) (fun _ => true) order pc w).1 =
          []) ∧
      (FindDupeSlaveIPs (mapValues w.lsconf.ManagedPodConfigs)
          (FindDupeMasterIPs (fun _ _ => true) (mapValues w.lsconf.ManagedPodConfigs)
            w)).lsconf.ConfigIssueMapping = ({} : World).lsconf.ConfigIssueMapping :=
  ⟨rfl, rfl, by decide, rfl,
    (two_reachable_sentinels_no_findings (fun _ _ => true) (fun _ => true) {} "p" "10.0.0.9"
      "6379" "10.0.0.1" "26379" "10.0.0.2" "26379" rfl rfl (by decide) rfl rfl).1⟩

/-- C20, counterexample: a configuration declaring one pod with quorum 2 and
one coordinator, the `known-sentinel` line standing before the `monitor` line.
Parsing ends in the panic `assignment to entry in nil map` on the first line,
so no finding is produced for the pod. -/
theorem known_sentinel_first_no_audit :
    loadLines {}
        ["sentinel known-sentinel p 10.0.0.1 26379\n", "sentinel monitor p 10.0.0.9 6379 2\n"] =
      Except.error Panic.assignmentToEntryInNilMap ∧
    runDirectives {}
        [["known-sentinel", "p", "10.0.0.1", "26379"],
         ["monitor", "p", "10.0.0.9", "6379", "2"]] =
      Except.error Panic.assignmentToEntryInNilMap :=
  ⟨rfl, rfl⟩

/-- C20, amended: from a topology without pods and a nil invalid cache.
First, for every configuration made of `monitor <pname> <ip> <port> 2`
followed by `known-sentinel` directives for that pod among whose endpoints
exactly one, `e0`, has a dial that succeeds: parsing succeeds, also as lines of
the file that read as `sentinel` followed by these directives, and leaves
exactly that pod, whose declared sentinels are the given endpoints; and for
every order in which they are visited, `validatePodSentinels` followed by
`ConfigIssues` yields `NOQUORUM` and `NOTENOUGHSENTINELS`, yields
`HASINVALIDSENTINELS` exactly when some declared endpoint has a failing dial,
and so does not yield it when `e0` is the only endpoint declared.  Second, the
same findings hold for every sequence of configuration lines that is parsed
without failure and every pod it leaves with quorum 2 whose declared sentinels
are these endpoints. -/
theorem one_reachable_sentinel_findings (dial : String → String → Bool)
    (ping : String → Bool) (w0 : World) (pname ip port : String)
    (ds : List (String × String)) (e0 : String)
    (h0 : w0.lsconf.ManagedPodConfigs = []) (hcache : w0.lsconf.InvalidSentinels = none)
    (hmem : e0 ∈ ds.map endpoint) (hdial : dial e0 "" = true)
    (huniq : ∀ e ∈ ds.map endpoint, dial e "" = true → e = e0) :
    (∃ (w : World) (pc : SentinelPodConfig),
      runDirectives w0 (onePodDirectives pname ip port ds) = Except.ok w ∧
      (∀ lines : List String,
        lines.map lineEntries =
          (onePodDirectives pname ip port ds).map (fun d => some ("sentinel" :: d)) →
        loadLines w0 lines = Except.ok w) ∧
      w.lsconf.ManagedPodConfigs = [(pname, pc)] ∧
      (∀ e, mapHas (pc.Sentinels.getD []) e = true ↔ e ∈ ds.map endpoint) ∧
      (∀ order : List String, order.Perm (mapKeys (pc.Sentinels.getD [])) →
        ConfigIssue.NOQUORUM ∈ ConfigIssues (validatePodSentinels dial ping order pc w).1 ∧
        ConfigIssue.NOTENOUGHSENTINELS ∈
          ConfigIssues (validatePodSentinels dial ping order pc w).1 ∧
        (ConfigIssue.HASINVALIDSENTINELS ∈
            ConfigIssues (validatePodSentinels dial ping order pc w).1 ↔
          ∃ e ∈ ds.map endpoint, dial e "" = false) ∧
        ((∀ e ∈ ds.map endpoint, e = e0) →
          ConfigIssue.HASINVALIDSENTINELS ∉
            ConfigIssues (validatePodSentinels dial ping order pc w).1))) ∧
    (∀ (lines2 : List String) (w : World) (k : String) (pc : SentinelPodConfig),
      loadLines w0 lines2 = Except.ok w →
      mapLookup w.lsconf.ManagedPodConfigs k = some pc → pc.Quorum = 2 →
      (∀ e, mapHas (pc.Sentinels.getD []) e = true ↔ e ∈ ds.map endpoint) →
      ∀ order : List String, order.Perm (mapKeys (pc.Sentinels.getD [])) →
        ConfigIssue.NOQUORUM ∈ ConfigIssues (validatePodSentinels dial ping order pc w).1 ∧
        ConfigIssue.NOTENOUGHSENTINELS ∈
          ConfigIssues (validatePodSentinels dial ping order pc w).1 ∧
        (ConfigIssue.HASINVALIDSENTINELS ∈
            ConfigIssues (validatePodSentinels dial ping order pc w).1 ↔
          ∃ e ∈ ds.map endpoint, dial e "" = false) ∧
        ((∀ e ∈ ds.map endpoint, e = e0) →
          ConfigIssue.HASINVALIDSENTINELS ∉
            ConfigIssues (validatePodSentinels dial ping order pc w).1)) := by
  refine ⟨?_, ?_⟩
  · obtain ⟨w, sm, hrun, hmpc, -, hkeys, hIS, -, -⟩ :=
      runDirectives_onePod w0 pname ip port ds h0
    exact ⟨w, _, hrun,
      fun lines hlines => loadLines_of_runDirectives _ lines w0 w hlines hrun, hmpc, hkeys,
      fun order hperm =>
        pod_one_reachable_findings dial ping w _ _ e0 order rfl rfl (hIS.trans hcache) rfl
          hkeys hperm hmem hdial huniq⟩
  · intro lines2 w k pc hrun hlook hq hkeys order hperm
    obtain ⟨hnil, hc⟩ := loadLines_fresh lines2 w0 w h0 hcache hrun
    have hpcnil := hnil (k, pc) (mapLookup_mem _ _ _ hlook)
    exact pod_one_reachable_findings dial ping w pc _ e0 order hpcnil.1 hpcnil.2 hc hq hkeys
      hperm hmem hdial huniq

/-- C20, witness: pod `p` declaring `10.0.0.1:26379` and `10.0.0.2:26379`, of
which only the first accepts connections. -/
theorem one_reachable_sentinel_findings_witness :
    ({} : World).lsconf.ManagedPodConfigs = [] ∧
    ({} : World).lsconf.InvalidSentinels = none ∧
    "10.0.0.1:26379" ∈ [("10.0.0.1", "26379"), ("10.0.0.2", "26379")].map endpoint ∧
    onlyFirstReachable "10.0.0.1:26379" "" = true ∧
    (∀ e ∈ [("10.0.0.1", "26379"), ("10.0.0.2", "26379")].map endpoint,
      onlyFirstReachable e "" = true → e = "10.0.0.1:26379") ∧
    ["sentinel monitor p 10.0.0.9 6379 2\n", "sentinel known-sentinel p 10.0.0.1 26379\n",
        "sentinel known-sentinel p 10.0.0.2 26379\n"].map lineEntries =
      (onePodDirectives "p" "10.0.0.9" "6379"
        [("10.0.0.1", "26379"), ("10.0.0.2", "26379")]).map (fun d => some ("sentinel" :: d)) ∧
    ∃ (w : World) (pc : SentinelPodConfig),
      runDirectives {}
        (onePodDirectives "p" "10.0.0.9" "6379"
          [("10.0.0.1", "26379"), ("10.0.0.2", "26379")]) = Except.ok w ∧
      (∀ lines : List String,
        lines.map lineEntries =
          (onePodDirectives "p" "10.0.0.9" "6379"
            [("10.0.0.1", "26379"), ("10.0.0.2", "26379")]).map
            (fun d => some ("sentinel" :: d)) →
        loadLines {} lines = Except.ok w) ∧
      w.lsconf.ManagedPodConfigs = [("p", pc)] ∧
      (∀ e, mapHas (pc.Sentinels.getD []) e = true ↔
        e ∈ [("10.0.0.1", "26379"), ("10.0.0.2", "26379")].map endpoint) ∧
      (∀ order : List String, order.Perm (mapKeys (pc.Sentinels.getD [])) →
        ConfigIssue.NOQUORUM ∈
          ConfigIssues (validatePodSentinels onlyFirstReachable (fun _ => true) order pc w).1 ∧
        ConfigIssue.NOTENOUGHSENTINELS ∈
          ConfigIssues (validatePodSentinels onlyFirstReachable (fun _ => true) order pc w).1 ∧
        (ConfigIssue.HASINVALIDSENTINELS ∈
            ConfigIssues
              (validatePodSentinels onlyFirstReachable (fun _ => true) order pc w).1 ↔
          ∃ e ∈ [("10.0.0.1", "26379"), ("10.0.0.2", "26379")].map endpoint,
            onlyFirstReachable e "" = false) ∧
        ((∀ e ∈ [("10.0.0.1", "26379"), ("10.0.0.2", "26379")].map endpoint,
            e = "10.0.0.1:26379") →
          ConfigIssue.HASINVALIDSENTINELS ∉
            ConfigIssues
              (validatePodSentinels onlyFirstReachable (fun _ => true) order pc w).1)) :=
  have huniq : ∀ e ∈ [("10.0.0.1", "26379"), ("10.0.0.2", "26379")].map endpoint,
      onlyFirstReachable e "" = true → e = "10.0.0.1:26379" := by
    intro e _ h
    simpa [onlyFirstReachable] using h
  ⟨rfl, rfl, by decide, by decide, huniq, rfl,
    (one_reachable_sentinel_findings onlyFirstReachable (fun _ => true) {} "p" "10.0.0.9"
      "6379" [("10.0.0.1", "26379"), ("10.0.0.2", "26379")] "10.0.0.1:26379" rfl rfl
      (by decide) (by decide) huniq).1⟩

/-! ## The registry after a whole configuration -/

theorem declaredSentinel_iff (w : World) (e : String) :
    declaredSentinel w e ↔
      ∃ k pc, mapLookup w.lsconf.ManagedPodConfigs k = some pc ∧
        mapHas (pc.Sentinels.getD []) e = true := by
  constructor
  · rintro ⟨k, pc, sm, hk, hsm, hhas⟩
    exact ⟨k, pc, hk, by rw [hsm]; exact hhas⟩
  · rintro ⟨k, pc, hk, hhas⟩
    cases hs : pc.Sentinels with
    | none => rw [hs] at hhas; simp [mapHas, mapLookup] at hhas
    | some sm => rw [hs] at hhas; exact ⟨k, pc, sm, hk, hs, hhas⟩

theorem RegistryInv_of_lsconf_eq (w w2 : World) (h : w2.lsconf = w.lsconf)
    (hinv : RegistryInv w) : RegistryInv w2 := by
  unfold RegistryInv declaredSentinel at hinv ⊢
  rw [h]
  exact hinv

theorem RegistryInv_rename (w w2 : World) (hinv : RegistryInv w)
    (hnone : noSentinelDeclared w = true)
    (hks : w2.lsconf.KnownSentinels = w.lsconf.KnownSentinels)
    (hm : w2.lsconf.ManagedPodConfigs = w.lsconf.ManagedPodConfigs) : RegistryInv w2 := by
  have hno : ∀ (w3 : World), w3.lsconf.ManagedPodConfigs = w.lsconf.ManagedPodConfigs →
      ∀ e, ¬ declaredSentinel w3 e := by
    intro w3 h3 e hd
    obtain ⟨k, pc, hk, hhas⟩ := (declaredSentinel_iff w3 e).mp hd
    rw [h3] at hk
    have hmem := mapLookup_mem _ _ _ hk
    have := List.all_eq_true.mp hnone (k, pc) hmem
    have hnil : pc.Sentinels.getD [] = [] := by simpa using this
    rw [hnil] at hhas
    simp [mapHas, mapLookup] at hhas
  intro e
  rw [hks]
  constructor
  · intro h
    exact absurd ((hinv e).mp h).2 (hno w rfl e)
  · rintro ⟨-, h⟩
    exact absurd h (hno w2 hm e)

theorem RegistryInv_store (w : World) (k : String) (pc : SentinelPodConfig)
    (hinv : RegistryInv w)
    (hsame : ∀ e, mapHas (pc.Sentinels.getD []) e =
      mapHas ((mapGet w.lsconf.ManagedPodConfigs k).Sentinels.getD []) e) :
    RegistryInv { w with lsconf := { w.lsconf with
      ManagedPodConfigs := mapStore w.lsconf.ManagedPodConfigs k pc } } := by
  have hdecl : ∀ e, declaredSentinel { w with lsconf := { w.lsconf with
      ManagedPodConfigs := mapStore w.lsconf.ManagedPodConfigs k pc } } e ↔
      declaredSentinel w e := by
    intro e
    rw [declaredSentinel_iff, declaredSentinel_iff]
    constructor
    · rintro ⟨k2, pc2, hk, hhas⟩
      simp only [mapLookup_mapStore] at hk
      by_cases hkk : k2 = k
      · rw [if_pos hkk] at hk
        have hpc : pc = pc2 := Option.some.inj hk
        rw [← hpc, hsame e] at hhas
        cases hl : mapLookup w.lsconf.ManagedPodConfigs k with
        | none =>
          have hg : mapGet w.lsconf.ManagedPodConfigs k = default := by simp [mapGet, hl]
          rw [hg] at hhas
          simp [default, mapHas, mapLookup] at hhas
        | some pc0 =>
          have hg : mapGet w.lsconf.ManagedPodConfigs k = pc0 := by simp [mapGet, hl]
          rw [hg] at hhas
          exact ⟨k, pc0, hl, hhas⟩
      · rw [if_neg hkk] at hk
        exact ⟨k2, pc2, hk, hhas⟩
    · rintro ⟨k2, pc0, hk, hhas⟩
      by_cases hkk : k2 = k
      · subst hkk
        have hg : mapGet w.lsconf.ManagedPodConfigs k2 = pc0 := by simp [mapGet, hk]
        refine ⟨k2, pc, ?_, ?_⟩
        · simp only [mapLookup_mapStore, if_true]
        · rw [hsame e, hg]; exact hhas
      · refine ⟨k2, pc0, ?_, hhas⟩
        simp only [mapLookup_mapStore, if_neg hkk]
        exact hk
  intro e
  rw [hdecl e]
  exact hinv e

theorem loadLine_cases (w : World) (rawline : String) (r : World × Bool)
    (h : loadLine w rawline false = Except.ok r) :
    (∃ d x, lineEntries rawline = some ("sentinel" :: d) ∧
        extractSentinelDirective w d = Except.ok x ∧ r.1.lsconf = x.1.lsconf) ∨
      ((∀ d, lineEntries rawline ≠ some ("sentinel" :: d)) ∧
        r.1.lsconf.ManagedPodConfigs = w.lsconf.ManagedPodConfigs ∧
        r.1.lsconf.KnownSentinels = w.lsconf.KnownSentinels) := by
  by_cases hc : Contains (TrimSpace rawline) '#' = true
  · have hle : lineEntries rawline = none := by
      unfold lineEntries; rw [if_pos hc]
    unfold loadLine at h
    simp only [hc, if_true, pure, Except.pure] at h
    cases h
    exact Or.inr ⟨fun d hd => (by rw [hle] at hd; cases hd), rfl, rfl⟩
  · have hle : lineEntries rawline = some (Split (TrimSpace rawline) ' ') := by
      unfold lineEntries; rw [if_neg hc]
    unfold loadLine at h
    simp only [hc, Bool.false_eq_true, if_false] at h
    rw [hle]
    generalize Split (TrimSpace rawline) ' ' = entries at h ⊢
    rcases entries with _ | ⟨e0, tl⟩
    · simp [index, bind, Except.bind] at h
    · simp only [index, List.getElem?_cons_zero, bind, Except.bind] at h
      by_cases h1 : e0 = "sentinel"
      · subst h1
        simp only [if_true, List.drop_succ_cons, List.drop_zero] at h
        cases hx : extractSentinelDirective w tl with
        | error e => rw [hx] at h; simp at h
        | ok x =>
          rw [hx] at h
          have hr : r.1.lsconf = x.1.lsconf := by
            simp only at h
            split at h <;> (simp only [pure, Except.pure, Except.ok.injEq] at h; rw [← h]; try rfl)
          exact Or.inl ⟨tl, x, rfl, hx, hr⟩
      · right
        refine ⟨fun d hd => ?_, ?_⟩
        · simp only [Option.some.injEq, List.cons.injEq] at hd
          exact h1 hd.1
        · simp only [h1, if_false, pure, Except.pure, List.getElem?_cons_succ] at h
          repeat' split at h
          all_goals first | (cases h; exact ⟨rfl, rfl⟩) | cases h

theorem extract_monitor_more (w : World) (a b c q : String) (rest : List String) :
    extractSentinelDirective w ("monitor" :: a :: b :: c :: q :: rest) =
      extractSentinelDirective w ["monitor", a, b, c, q] := by
  simp [extractSentinelDirective, index, bind, Except.bind, pure, Except.pure]

theorem extract_auth_pass_more (w : World) (a b : String) (rest : List String) :
    extractSentinelDirective w ("auth-pass" :: a :: b :: rest) =
      extractSentinelDirective w ["auth-pass", a, b] := by
  simp [extractSentinelDirective, index, bind, Except.bind, pure, Except.pure]

theorem extract_known_sentinel_more (w : World) (a b c : String) (rest : List String) :
    extractSentinelDirective w ("known-sentinel" :: a :: b :: c :: rest) =
      extractSentinelDirective w ["known-sentinel", a, b, c] := by
  simp [extractSentinelDirective, index, bind, Except.bind, pure, Except.pure]

theorem extract_known_slave_more (w : World) (a b c : String) (rest : List String) :
    extractSentinelDirective w ("known-slave" :: a :: b :: c :: rest) =
      extractSentinelDirective w ["known-slave", a, b, c] := by
  simp [extractSentinelDirective, index, bind, Except.bind, pure, Except.pure]

theorem RegistryInv_extract (w : World) (d : List String) (x : World × Option String)
    (hinv : RegistryInv w)
    (hmon : ∀ p rest, d = "monitor" :: p :: rest →
      ((mapGet w.lsconf.ManagedPodConfigs p).Sentinels.getD []).isEmpty = true)
    (hx : extractSentinelDirective w d = Except.ok x) : RegistryInv x.1 := by
  rcases d with _ | ⟨e0, rest⟩
  · cases hx
  · by_cases h1 : e0 = "monitor"
    · subst h1
      rcases rest with _ | ⟨a, _ | ⟨b, _ | ⟨c, _ | ⟨q, rest⟩⟩⟩⟩
      · cases hx
      · cases hx
      · cases hx
      · cases hx
      · have hm := hmon a _ rfl
        have hnil : (mapGet w.lsconf.ManagedPodConfigs a).Sentinels.getD [] = [] := by
          simpa using hm
        have e := extract_monitor_more w a b c q rest
        rw [e, extractSentinelDirective_monitor] at hx
        cases hx
        by_cases hh : mapHas w.lsconf.ManagedPodConfigs (sprintfAddr b (Atoi c).1) = true
        · simp only [hh, if_true]
          exact hinv
        · simp only [hh, Bool.false_eq_true, if_false]
          exact RegistryInv_store w a _ hinv (fun e => by rw [hnil]; rfl)
    · by_cases h2 : e0 = "auth-pass"
      · subst h2
        rcases rest with _ | ⟨a, _ | ⟨b, rest⟩⟩
        · cases hx
        · cases hx
        · have e := extract_auth_pass_more w a b rest
          rw [e, extractSentinelDirective_auth_pass] at hx
          cases hx
          exact RegistryInv_store w a _ hinv (fun e => rfl)
      · by_cases h3 : e0 = "known-sentinel"
        · subst h3
          rcases rest with _ | ⟨a, _ | ⟨b, _ | ⟨c, rest⟩⟩⟩
          · cases hx
          · cases hx
          · cases hx
          · have e := extract_known_sentinel_more w a b c rest
            have herr := (extractSentinelDirective_frame _ _ _ hx).1
            rw [e] at hx
            have hx2 : extractSentinelDirective w ["known-sentinel", a, b, c] =
                Except.ok (x.1, none) := by
              rw [← herr]; exact hx
            exact (RegistryInv_known_sentinel w x.1 a b c hinv hx2).2
        · by_cases h4 : e0 = "known-slave"
          · subst h4
            rcases rest with _ | ⟨a, _ | ⟨b, _ | ⟨c, rest⟩⟩⟩
            · cases hx
            · cases hx
            · cases hx
            · have e := extract_known_slave_more w a b c rest
              rw [e, extractSentinelDirective_known_slave] at hx
              cases hx
              exact RegistryInv_store w a _ hinv (fun e => rfl)
          · simp only [extractSentinelDirective, index, bind, Except.bind, pure, Except.pure,
              List.getElem?_cons_zero, h1, h2, h3, h4, if_false] at hx
            split at hx <;> cases hx
            · exact hinv
            · exact RegistryInv_of_lsconf_eq w _ rfl hinv

theorem RegistryInv_loadLine (w : World) (rawline : String) (r : World × Bool)
    (hinv : RegistryInv w) (hsafe : registrySafeLine w rawline = true)
    (h : loadLine w rawline false = Except.ok r) : RegistryInv r.1 := by
  unfold registrySafeLine at hsafe
  rw [Bool.and_eq_true] at hsafe
  obtain ⟨hs1, hs2⟩ := hsafe
  rcases loadLine_cases w rawline r h with ⟨d, x, hle, hx, hr⟩ | ⟨hns, hm, hks⟩
  · refine RegistryInv_of_lsconf_eq x.1 r.1 hr (RegistryInv_extract w d x hinv ?_ hx)
    intro p rest hd
    have hmn : monitorName rawline = some p := by
      unfold monitorName
      rw [hle, hd]
      simp
    rw [hmn] at hs2
    exact hs2
  · obtain ⟨-, -, hname⟩ := loadLine_identity w rawline r h
    by_cases hb : ((bindHost rawline).isSome || (portValue rawline).isSome) = true
    · rw [if_pos hb] at hs1
      exact RegistryInv_rename w r.1 hinv hs1 hks hm
    · have hb1 : bindHost rawline = none := by
        cases hbh : bindHost rawline with
        | none => rfl
        | some v => rw [hbh] at hb; simp at hb
      have hb2 : portValue rawline = none := by
        cases hpv : portValue rawline with
        | none => rfl
        | some v => rw [hpv] at hb; simp at hb
      rw [hb1, hb2] at hname
      simp only at hname
      intro e
      have hd : declaredSentinel r.1 e ↔ declaredSentinel w e := by
        unfold declaredSentinel
        rw [hm]
      rw [hks, hname, hd]
      exact hinv e

theorem RegistryInv_loadLines (lines : List String) :
    ∀ (w w2 : World), RegistryInv w → registrySafe w lines = true →
      loadLines w lines = Except.ok w2 → RegistryInv w2 := by
  induction lines with
  | nil =>
    intro w w2 hinv _ h
    cases h
    exact hinv
  | cons l rest ih =>
    intro w w2 hinv hsafe h
    unfold registrySafe at hsafe
    rw [Bool.and_eq_true] at hsafe
    unfold loadLines at h
    cases hl : loadLine w l false with
    | error e => rw [hl] at h; cases h
    | ok r =>
      rw [hl] at h
      have hrest := hsafe.2
      rw [hl] at hrest
      exact ih r.1 w2 (RegistryInv_loadLine w l r hinv hsafe.1 hl) hrest h

/-- C13, counterexample.  First, a `known-sentinel` line read before the `bind`
and `port` lines: the endpoint `10.0.0.1:26379` is compared with the still
empty identity and registered, and the final `lsconf.Name` is that very
endpoint, a key of `lsconf.KnownSentinels`.  Second, a second `monitor` line
for the pod `p` after its `known-sentinel` line: the new entry of `p` declares
no sentinel, so no pod declares `10.0.0.2:26379`, which is still a key of
`lsconf.KnownSentinels`. -/
theorem registry_differs_from_declared :
    (∃ w : World,
      loadLines {}
        ["sentinel monitor p 10.0.0.9 6379 2\n", "sentinel known-sentinel p 10.0.0.1 26379\n",
         "bind 10.0.0.1\n", "port 26379\n"] = Except.ok w ∧
      w.lsconf.Name = "10.0.0.1:26379" ∧
      mapHas w.lsconf.KnownSentinels w.lsconf.Name = true) ∧
    (∃ w : World,
      loadLines {}
        ["bind 10.0.0.1\n", "port 26379\n", "sentinel monitor p 10.0.0.9 6379 2\n",
         "sentinel known-sentinel p 10.0.0.2 26379\n",
         "sentinel monitor p 10.0.0.9 6379 2\n"] = Except.ok w ∧
      w.lsconf.Name = "10.0.0.1:26379" ∧
      w.lsconf.ManagedPodConfigs =
        [("p", { Name := "p", IP := "10.0.0.9", Port := 6379, Quorum := 2,
                 Sentinels := some [] })] ∧
      mapHas w.lsconf.KnownSentinels "10.0.0.2:26379" = true) :=
  ⟨⟨_, rfl, rfl, rfl⟩, ⟨_, rfl, rfl, rfl, rfl⟩⟩

/-- C13, amended: start from a topology without pods and with an empty
registry, as `LoadSentinelConfigFile` does, and process any sequence of
configuration lines without failure, in which every `bind` or `port` line is
read while no pod declares a sentinel and every `sentinel monitor` line names
a pod that declares no sentinel when the line is read.  Then the keys of
`lsconf.KnownSentinels` are exactly the sentinel endpoints declared by some
pod other than the final `lsconf.Name`; in particular `lsconf.Name` is not
among them. -/
theorem known_sentinels_registry (w0 w : World) (lines : List String)
    (hpods : w0.lsconf.ManagedPodConfigs = []) (hks : w0.lsconf.KnownSentinels = [])
    (hsafe : registrySafe w0 lines = true)
    (hrun : loadLines w0 lines = Except.ok w) :
    (∀ e, mapHas w.lsconf.KnownSentinels e = true ↔
      (e ≠ w.lsconf.Name ∧ declaredSentinel w e)) ∧
    mapHas w.lsconf.KnownSentinels w.lsconf.Name = false := by
  have h0 : RegistryInv w0 := by
    apply RegistryInv_of_nothing_declared w0 hks
    rintro e ⟨k, pc, sm, hk, -, -⟩
    rw [hpods] at hk
    simp [mapLookup] at hk
  have hinv := RegistryInv_loadLines lines w0 w h0 hsafe hrun
  refine ⟨hinv, ?_⟩
  cases h : mapHas w.lsconf.KnownSentinels w.lsconf.Name with
  | false => rfl
  | true => exact absurd rfl ((hinv _).mp h).1

/-- C13, witness: a configuration of two pods.  The identity lines come first;
pod `a` declares the local sentinel `10.0.0.1:26379` and `10.0.0.2:26379`, pod
`b` declares `10.0.0.2:26379` and `10.0.0.3:26379`. -/
theorem known_sentinels_registry_witness :
    ∃ w : World,
      ({} : World).lsconf.ManagedPodConfigs = [] ∧
      ({} : World).lsconf.KnownSentinels = [] ∧
      registrySafe {}
        ["bind 10.0.0.1\n", "port 26379\n", "sentinel monitor a 10.0.0.9 6379 2\n",
         "sentinel known-sentinel a 10.0.0.1 26379\n",
         "sentinel known-sentinel a 10.0.0.2 26379\n",
         "sentinel monitor b 10.0.0.8 6379 2\n",
         "sentinel known-sentinel b 10.0.0.2 26379\n",
         "sentinel known-sentinel b 10.0.0.3 26379\n"] = true ∧
      loadLines {}
        ["bind 10.0.0.1\n", "port 26379\n", "sentinel monitor a 10.0.0.9 6379 2\n",
         "sentinel known-sentinel a 10.0.0.1 26379\n",
         "sentinel known-sentinel a 10.0.0.2 26379\n",
         "sentinel monitor b 10.0.0.8 6379 2\n",
         "sentinel known-sentinel b 10.0.0.2 26379\n",
         "sentinel known-sentinel b 10.0.0.3 26379\n"] = Except.ok w ∧
      mapKeys w.lsconf.KnownSentinels = ["10.0.0.2:26379", "10.0.0.3:26379"] ∧
      ((∀ e, mapHas w.lsconf.KnownSentinels e = true ↔
          (e ≠ w.lsconf.Name ∧ declaredSentinel w e)) ∧
        mapHas w.lsconf.KnownSentinels w.lsconf.Name = false) :=
  ⟨_, rfl, rfl, rfl, rfl, rfl,
    known_sentinels_registry {} _
      ["bind 10.0.0.1\n", "port 26379\n", "sentinel monitor a 10.0.0.9 6379 2\n",
       "sentinel known-sentinel a 10.0.0.1 26379\n",
       "sentinel known-sentinel a 10.0.0.2 26379\n",
       "sentinel monitor b 10.0.0.8 6379 2\n",
       "sentinel known-sentinel b 10.0.0.2 26379\n",
       "sentinel known-sentinel b 10.0.0.3 26379\n"] rfl rfl rfl rfl⟩

end AuditSentinel
